import Mathlib

/-!
Verification of the TrendRadar aggregation, matching/scoring and
size-bounded message-packing engine.

The Python modules `modules/data_processor.py` and `modules/notifier.py`
are shallowly embedded below: Python dicts become association lists
(`List (String × _)`) with first-match lookup, Python floats become `ℚ`,
and byte sizes are measured by an explicit UTF-8 length function.
Filesystem access (reading a day's snapshot files, checking whether this
is the first crawl of the day, the current wall-clock time) is passed in
as explicit parameters.
-/

namespace TrendRadar

/-! ### Python-style string primitives -/
/-- UTF-8 byte length of a single character, the number of bytes
`len(ch.encode("utf-8"))` would report in Python. -/
def charUtf8Len (c : Char) : Nat :=
  if c.val.toNat < 0x80 then 1
  else if c.val.toNat < 0x800 then 2
  else if c.val.toNat < 0x10000 then 3
  else 4

/-- UTF-8 byte length of a string, Python's `len(s.encode("utf-8"))`. -/
def utf8Len (s : String) : Nat :=
  (s.data.map charUtf8Len).sum

/-- Python's substring test `needle in hay` on character lists. -/
def subIn (needle : List Char) : List Char → Bool
  | [] => needle.isPrefixOf []
  | c :: t => needle.isPrefixOf (c :: t) || subIn needle t

/-- Python's substring test `needle in hay` on strings. -/
def strIn (needle hay : String) : Bool :=
  subIn needle.data hay.data

/-- Python's truthiness-based `a or b` on strings: `""` is falsy. -/
def pyOr (a b : String) : String :=
  if a = "" then b else a

/-- ASCII lower-casing of one character (the effect Python's
`str.lower()` has on the characters appearing in keyword rules). -/
def pyCharLower (c : Char) : Char :=
  if 65 ≤ c.val.toNat ∧ c.val.toNat ≤ 90 then Char.ofNat (c.val.toNat + 32) else c

/-- Python's `s.lower()`. -/
def strLower (s : String) : String := ⟨s.data.map pyCharLower⟩

/-! ### Association lists standing for Python dicts -/
/-- First-match lookup in an association list (Python `d[k]` / `d.get(k)`;
keys of a real dict are unique, so first-match agrees with the dict). -/
def alookup (k : String) : List (String × β) → Option β
  | [] => none
  | (a, b) :: t => if a = k then some b else alookup k t

/-- Python dict assignment `d[k] = v`: replace the binding in place if the
key exists (keeping its position), otherwise append a new binding. -/
def setKey (k : String) (v : β) : List (String × β) → List (String × β)
  | [] => [(k, v)]
  | (a, b) :: t => if a = k then (k, v) :: t else (a, b) :: setKey k v t

/-- The keys of an association list. -/
def akeys (l : List (String × β)) : List String :=
  l.map Prod.fst

/-! ### Title aggregation (`modules/data_processor.py`, `process_source_data`)

A snapshot maps each source id to a map from title text to an entry
`{ranks, url, mobileUrl}`.  `process_source_data` merges one source's
snapshot data into the cumulative state `(all_results, title_info)`. -/
/-- The per-title value stored in a snapshot's source map. -/
structure Entry where
  ranks : List Nat
  url : String
  mobileUrl : String
  deriving Repr, DecidableEq

/-- The cumulative per-title record kept in `title_info`. -/
structure TitleInfoRec where
  first_time : String
  last_time : String
  count : Nat
  ranks : List Nat
  url : String
  mobileUrl : String
  deriving Repr, DecidableEq

/-- A source's map from title text to entry (a Python dict). -/
abbrev TitleMap := List (String × Entry)

/-- One snapshot's payload: source id to title map. -/
abbrev SnapData := List (String × TitleMap)

/-- The aggregation state mutated by `process_source_data`. -/
structure AggState where
  allResults : List (String × TitleMap)
  titleInfo : List (String × List (String × TitleInfoRec))
  deriving Repr, DecidableEq

/-- Nested lookup `m[sid][t]`. -/
def lookup2 (m : List (String × List (String × γ))) (sid t : String) : Option γ :=
  (alookup sid m).bind (alookup t)

/-- The entry a snapshot holds for `(sid, t)`, if any. -/
def snapEntry (smap : SnapData) (sid t : String) : Option Entry :=
  (alookup sid smap).bind (alookup t)

/-- The fresh `title_info` record created when a title is first seen
(`count=1`, `first_time=last_time=time_info`). -/
def freshRec (timeInfo : String) (e : Entry) : TitleInfoRec :=
  ⟨timeInfo, timeInfo, 1, e.ranks, e.url, e.mobileUrl⟩

/-- Rank merging: append incoming ranks not already present, preserving
first-seen order (the `for rank in ranks: if rank not in merged_ranks`
loop). -/
def mergeRanks (existing incoming : List Nat) : List Nat :=
  incoming.foldl (fun acc r => if r ∈ acc then acc else acc ++ [r]) existing

/-- The updated `title_info` record when a known title reappears:
`last_time` set, ranks merged, `count` incremented, empty url/mobileUrl
backfilled. -/
def bumpRec (timeInfo : String) (e : Entry) (r : TitleInfoRec) : TitleInfoRec :=
  { r with
    last_time := timeInfo
    ranks := mergeRanks r.ranks e.ranks
    count := r.count + 1
    url := pyOr r.url e.url
    mobileUrl := pyOr r.mobileUrl e.mobileUrl }

/-- Merge one `(title, entry)` pair into a source's `(all_results[sid],
title_info[sid])` pair — the body of the per-title loop in the `else`
branch of `process_source_data`.  (When the title is present in
`all_results[sid]` but absent from `title_info[sid]`, the Python code
would raise `KeyError`; such states are unreachable from an empty
aggregation and the embedding leaves `title_info` unchanged there.) -/
def mergeTitle (timeInfo title : String) (e : Entry)
    (p : TitleMap × List (String × TitleInfoRec)) :
    TitleMap × List (String × TitleInfoRec) :=
  match alookup title p.1 with
  | none =>
      (setKey title e p.1, setKey title (freshRec timeInfo e) p.2)
  | some existing =>
      let merged := mergeRanks existing.ranks e.ranks
      let sm' := setKey title
        ⟨merged, pyOr existing.url e.url, pyOr existing.mobileUrl e.mobileUrl⟩ p.1
      let tm' :=
        match alookup title p.2 with
        | some r =>
            setKey title
              { r with
                last_time := timeInfo
                ranks := merged
                count := r.count + 1
                url := pyOr r.url e.url
                mobileUrl := pyOr r.mobileUrl e.mobileUrl } p.2
        | none => p.2
      (sm', tm')

/-- `process_source_data(source_id, title_data, time_info, all_results,
title_info)`: if the source is unseen its title map becomes the initial
record and every title gets a fresh `title_info` record; otherwise each
title is merged individually. -/
def processSourceData (sourceId : String) (titleData : TitleMap)
    (timeInfo : String) (st : AggState) : AggState :=
  match alookup sourceId st.allResults with
  | none =>
      let tiS := (alookup sourceId st.titleInfo).getD []
      { allResults := setKey sourceId titleData st.allResults
        titleInfo := setKey sourceId
          (titleData.foldl (fun tm te => setKey te.1 (freshRec timeInfo te.2) tm) tiS)
          st.titleInfo }
  | some sm =>
      let p := titleData.foldl
        (fun p te => mergeTitle timeInfo te.1 te.2 p)
        (sm, (alookup sourceId st.titleInfo).getD [])
      { allResults := setKey sourceId p.1 st.allResults
        titleInfo := setKey sourceId p.2 st.titleInfo }

/-- Merging a whole snapshot: `process_source_data` applied to each
source of the snapshot, as in `read_all_today_titles`. -/
def mergeSnapshot (st : AggState) (snap : String × SnapData) : AggState :=
  snap.2.foldl (fun st' p => processSourceData p.1 p.2 snap.1 st') st

/-- Merging a chronological sequence of snapshots, starting from the
empty day state. -/
def mergeAll (snaps : List (String × SnapData)) : AggState :=
  snaps.foldl mergeSnapshot ⟨[], []⟩

/-- Well-formedness of a snapshot as the image of Python dicts: source
ids are unique and each source's title keys are unique. -/
def SnapWF (smap : SnapData) : Prop :=
  (akeys smap).Nodup ∧ ∀ p ∈ smap, (akeys p.2).Nodup

/-! ### The `all_results` / `title_info` synchronization invariant -/
/-- A source-level pair `(all_results[sid], title_info[sid])` is in sync:
both maps have the same titles and agree on ranks/url/mobileUrl. -/
def PairSynced (sm : TitleMap) (tm : List (String × TitleInfoRec)) : Prop :=
  (∀ t, (alookup t sm).isSome ↔ (alookup t tm).isSome) ∧
  (∀ t e r, alookup t sm = some e → alookup t tm = some r →
    r.ranks = e.ranks ∧ r.url = e.url ∧ r.mobileUrl = e.mobileUrl)

/-- The whole aggregation state is in sync: `all_results` and
`title_info` carry the same source ids and per-source synced maps. -/
structure Synced (st : AggState) : Prop where
  sid_iff : ∀ sid, (alookup sid st.allResults).isSome ↔ (alookup sid st.titleInfo).isSome
  pair : ∀ sid sm tm, alookup sid st.allResults = some sm →
    alookup sid st.titleInfo = some tm → PairSynced sm tm

/-- The entry stored back into `all_results` when a known title reappears. -/
def bumpEntry (e existing : Entry) : Entry :=
  ⟨mergeRanks existing.ranks e.ranks, pyOr existing.url e.url,
    pyOr existing.mobileUrl e.mobileUrl⟩

/-- Well-formedness of a snapshot sequence. -/
def SnapsWF (snaps : List (String × SnapData)) : Prop :=
  ∀ s ∈ snaps, SnapWF s.2

/-! ### Weight scorer (`calculate_news_weight`)

Python floats are modelled by `ℚ`; the arithmetic here involves only
small integers and exact divisions, so the order comparisons used by the
claims agree with the float computation. -/
/-- The externally configured weight triple `(Wr, Wf, Wh)`. -/
structure WeightConfig where
  rankWeight : ℚ
  frequencyWeight : ℚ
  hotnessWeight : ℚ
  deriving Repr, DecidableEq

/-- Per-rank score `11 - min(rank, 10)`. -/
def rankScore (r : Nat) : Nat := 11 - min r 10

/-- The `rank_weight` component: average of per-rank scores. -/
def rankWeightOf (ranks : List Nat) : ℚ :=
  ((ranks.map rankScore).sum : ℚ) / (ranks.length : ℚ)

/-- Python's `min` of a nonempty integer list (`min(x)`); the `[]` case is
never consulted by callers, which guard on emptiness first. -/
def pyMin : List Nat → Nat
  | [] => 0
  | h :: t => t.foldl min h

/-- `calculate_news_weight(title_data, rank_threshold)`: returns `0.0`
for an empty ranks list; otherwise combines rank, frequency and hotness
weights.  `count?` models `title_data.get("count", len(ranks))`. -/
def calculateNewsWeight (ranks : List Nat) (count? : Option Nat)
    (rankThreshold : Nat) (wc : WeightConfig) : ℚ :=
  if ranks = [] then 0
  else
    let count := count?.getD ranks.length
    let rank_weight := rankWeightOf ranks
    let frequency_weight : ℚ := (min count 10 : Nat) * 10
    let high_rank_count := (ranks.filter (fun r => r ≤ rankThreshold)).length
    let hotness_weight : ℚ := (high_rank_count : ℚ) / (ranks.length : ℚ) * 100
    rank_weight * wc.rankWeight + frequency_weight * wc.frequencyWeight +
      hotness_weight * wc.hotnessWeight

/-- Scenario-B style concrete snapshot sequence: `"Foo"` on source `"S1"`
at rank 3 then rank 5. -/
def snapsB : List (String × SnapData) :=
  [("t1", [("S1", [("Foo", ⟨[3], "", ""⟩)])]),
   ("t2", [("S1", [("Foo", ⟨[5], "", ""⟩)])])]

/-- Concrete one-source snapshot used for the double-merge witness. -/
def snapC6 : SnapData := [("S1", [("Foo", ⟨[3], "u", ""⟩)])]

/-! ### Keyword matcher (`matches_word_groups`) and
`count_word_frequency` -/
/-- A parsed keyword rule group. -/
structure WordGroup where
  required : List String
  normal : List String
  group_key : String
  deriving Repr, DecidableEq

/-- Python string comparison `a < b` (lexicographic by code point),
written over character lists so it evaluates in the kernel. -/
def pyStrLtL : List Char → List Char → Bool
  | [], [] => false
  | [], _ :: _ => true
  | _ :: _, [] => false
  | a :: as, b :: bs =>
      if a.val.toNat < b.val.toNat then true
      else if b.val.toNat < a.val.toNat then false
      else pyStrLtL as bs

/-- Python string comparison on `String`. -/
def pyStrLt (a b : String) : Bool := pyStrLtL a.data b.data

/-- Does a group match a (lower-cased) title?  All required terms must be
substrings, and when `normal` is non-empty at least one normal term must
be a substring. -/
def groupMatchesTitle (titleLower : String) (g : WordGroup) : Bool :=
  g.required.all (fun w => strIn (strLower w) titleLower) &&
  (g.normal.isEmpty || g.normal.any (fun w => strIn (strLower w) titleLower))

/-- `matches_word_groups(title, word_groups, filter_words)`: empty group
list matches everything; a filter-word hit rejects; otherwise some group
must match. -/
def matchesWordGroups (title : String) (wordGroups : List WordGroup)
    (filterWords : List String) : Bool :=
  if wordGroups.isEmpty then true
  else
    let titleLower := (strLower title)
    if filterWords.any (fun fw => strIn (strLower fw) titleLower) then false
    else wordGroups.any (groupMatchesTitle titleLower)

/-- The synthetic show-everything group substituted when no groups are
configured. -/
def syntheticAllGroup : WordGroup := ⟨[], [], "全部新闻"⟩

/-- The show-all special case inside the classification loop of
`count_word_frequency`: exactly one group whose key is `全部新闻`. -/
def isAllNewsMode (wordGroups : List WordGroup) : Bool :=
  wordGroups.length == 1 &&
    (match wordGroups with
     | g :: _ => g.group_key == "全部新闻"
     | [] => false)

/-- The group a matching title is assigned to: the first group passing the
per-group checks of the classification loop (in show-all mode the single
group is taken unconditionally). -/
def classifyTitle (wordGroups : List WordGroup) (title : String) : Option WordGroup :=
  wordGroups.find?
    (fun g => isAllNewsMode wordGroups || groupMatchesTitle (strLower title) g)

/-- `format_time_display(first_time, last_time)`. -/
def formatTimeDisplay (first last : String) : String :=
  if first = "" then ""
  else if first = last ∨ last = "" then first
  else "[" ++ first ++ " ~ " ++ last ++ "]"

/-- The matched-title view record appended to a group's title list. -/
structure MatchedTitle where
  title : String
  source_name : String
  first_time : String
  last_time : String
  time_display : String
  count : Nat
  ranks : List Nat
  rank_threshold : Nat
  url : String
  mobileUrl : String
  is_new : Bool
  deriving Repr, DecidableEq

/-- Per-group accumulation (`word_stats[group_key]`). -/
structure StatAcc where
  count : Nat
  titles : List (String × List MatchedTitle)
  deriving Repr, DecidableEq

/-- A finished per-group `Stat`. -/
structure Stat where
  word : String
  count : Nat
  titles : List MatchedTitle
  percentage : ℚ
  deriving Repr, DecidableEq

/-- The `title_info` mapping type. -/
abbrev TitleInfoMap := List (String × List (String × TitleInfoRec))

/-- One update step of the `latest_time` scan (skip empty strings, keep
the lexicographic maximum). -/
def mltStep (acc : Option String) (lt : String) : Option String :=
  if lt = "" then acc
  else
    match acc with
    | none => some lt
    | some m => if pyStrLt m lt then some lt else acc

/-- The maximum non-empty `last_time` over all of `title_info`. -/
def maxLastTime (ti : TitleInfoMap) : Option String :=
  ti.foldl (fun acc p => p.2.foldl (fun acc q => mltStep acc q.2.last_time) acc) none

/-- The `current`-mode filter: keep only titles whose cumulative
`last_time` equals the global latest time; sources with no such title are
dropped. -/
def filterCurrent (results : List (String × TitleMap)) (ti : TitleInfoMap)
    (latest : String) : List (String × TitleMap) :=
  results.filterMap (fun p =>
    match alookup p.1 ti with
    | none => none
    | some tis =>
        let filtered := p.2.filter (fun te =>
          match alookup te.1 tis with
          | some info => info.last_time = latest
          | none => false)
        if filtered.isEmpty then none else some (p.1, filtered))

/-- The `is_new` flag of an emitted record: true when all processed news
are new, else looked up in the `new_titles` mapping. -/
def isNewFlag (allNew : Bool) (newTitles : List (String × TitleMap))
    (sid title : String) : Bool :=
  if allNew then true
  else if newTitles.isEmpty then false
  else
    match alookup sid newTitles with
    | some s => (alookup title s).isSome
    | none => false

/-- Build the matched-title view record, pulling cumulative statistics
from `title_info` when available (the two identical override branches of
the Python code collapse into one). -/
def buildRecord (tiList : TitleInfoMap) (idToName : List (String × String))
    (rankThreshold : Nat) (allNew : Bool) (newTitles : List (String × TitleMap))
    (sid title : String) (tdata : Entry) : MatchedTitle :=
  match (if tiList.isEmpty then none else lookup2 tiList sid title) with
  | some info =>
      let ranks0 := if info.ranks.isEmpty then tdata.ranks else info.ranks
      { title := title
        source_name := (alookup sid idToName).getD sid
        first_time := info.first_time
        last_time := info.last_time
        time_display := formatTimeDisplay info.first_time info.last_time
        count := info.count
        ranks := if ranks0.isEmpty then [99] else ranks0
        rank_threshold := rankThreshold
        url := info.url
        mobileUrl := info.mobileUrl
        is_new := isNewFlag allNew newTitles sid title }
  | none =>
      { title := title
        source_name := (alookup sid idToName).getD sid
        first_time := ""
        last_time := ""
        time_display := formatTimeDisplay "" ""
        count := 1
        ranks := if tdata.ranks.isEmpty then [99] else tdata.ranks
        rank_threshold := rankThreshold
        url := tdata.url
        mobileUrl := tdata.mobileUrl
        is_new := isNewFlag allNew newTitles sid title }

/-- Membership test in the `processed_titles` dedup structure. -/
def processedHas (processed : List (String × List String)) (sid title : String) : Bool :=
  match alookup sid processed with
  | some l => title ∈ l
  | none => false

/-- Mark a `(source, title)` pair processed. -/
def markProcessed (processed : List (String × List String)) (sid title : String) :
    List (String × List String) :=
  setKey sid (((alookup sid processed).getD []) ++ [title]) processed

/-- Append a record to `word_stats[gkey]["titles"][sid]` and bump the
group's count. -/
def appendToStat (wordStats : List (String × StatAcc)) (gkey sid : String)
    (rec : MatchedTitle) : List (String × StatAcc) :=
  let acc := (alookup gkey wordStats).getD ⟨0, []⟩
  let tl := (alookup sid acc.titles).getD []
  setKey gkey ⟨acc.count + 1, setKey sid (tl ++ [rec]) acc.titles⟩ wordStats

/-- Per-title body of the main loop of `count_word_frequency`: skip
already-processed or non-matching titles, otherwise assign the record to
the first matching group. -/
def cwfStep (wordGroups : List WordGroup) (filterWords : List String)
    (idToName : List (String × String)) (tiList : TitleInfoMap)
    (rankThreshold : Nat) (allNew : Bool) (newTitles : List (String × TitleMap))
    (sid : String)
    (st : List (String × StatAcc) × List (String × List String))
    (te : String × Entry) :
    List (String × StatAcc) × List (String × List String) :=
  if processedHas st.2 sid te.1 then st
  else if ¬ matchesWordGroups te.1 wordGroups filterWords then st
  else
    match classifyTitle wordGroups te.1 with
    | none => st
    | some g =>
        let record := buildRecord tiList idToName rankThreshold allNew newTitles
          sid te.1 te.2
        (appendToStat st.1 g.group_key sid record, markProcessed st.2 sid te.1)

/-- Stable insertion of `x` after every element `y` with `le y x` — the
building block of a stable ascending sort. -/
def insertR (le : α → α → Bool) (x : α) : List α → List α
  | [] => [x]
  | y :: t => if le y x then y :: insertR le x t else x :: y :: t

/-- A stable ascending sort (insertion sort).  For a total preorder `le`
the stable-sorted permutation is unique, so this agrees with Python's
stable `sorted`. -/
def sortStable (le : α → α → Bool) (l : List α) : List α :=
  l.foldl (fun acc x => insertR le x acc) []

/-- Sort key comparison for titles inside a group: descending composite
weight, ties by ascending minimum rank, then descending count (the
Python `sorted` key tuple `(-weight, min(ranks), -count)`). -/
def titleSortLe (wc : WeightConfig) (rt : Nat) (a b : MatchedTitle) : Bool :=
  let wa := calculateNewsWeight a.ranks (some a.count) rt wc
  let wb := calculateNewsWeight b.ranks (some b.count) rt wc
  if wa ≠ wb then wb < wa
  else
    let ma := if a.ranks.isEmpty then 999 else pyMin a.ranks
    let mb := if b.ranks.isEmpty then 999 else pyMin b.ranks
    if ma ≠ mb then ma < mb
    else b.count ≤ a.count

/-- Round-half-even to an integer, Python's `round`. -/
def roundHalfEven (q : ℚ) : ℤ :=
  let f := ⌊q⌋
  let r := q - f
  if r < 1/2 then f
  else if 1/2 < r then f + 1
  else if f % 2 = 0 then f else f + 1

/-- `round(q, 2)`. -/
def pyRound2 (q : ℚ) : ℚ := (roundHalfEven (q * 100) : ℚ) / 100

/-- Assemble the final `stats` list: flatten per-source title lists in
insertion order, sort by the weight key, attach percentages, then sort
groups by descending count (stable). -/
def buildStats (wc : WeightConfig) (rt : Nat) (total : Nat)
    (wordStats : List (String × StatAcc)) : List Stat :=
  let stats := wordStats.map (fun p =>
    let allTitles := p.2.titles.foldl (fun acc q => acc ++ q.2) []
    { word := p.1
      count := p.2.count
      titles := sortStable (titleSortLe wc rt) allTitles
      percentage :=
        if 0 < total then pyRound2 ((p.2.count : ℚ) / (total : ℚ) * 100) else 0
      : Stat })
  sortStable (fun a b => b.count ≤ a.count) stats

/-- The initial `word_stats` map: one zeroed accumulator per group. -/
def initWordStats (wordGroups : List WordGroup) : List (String × StatAcc) :=
  wordGroups.foldl (fun ws g => setKey g.group_key ⟨0, []⟩ ws) []

/-- The main accumulation loop of `count_word_frequency` over the chosen
`results_to_process`. -/
def cwfFold (wordGroups : List WordGroup) (filterWords : List String)
    (idToName : List (String × String)) (tiList : TitleInfoMap)
    (rankThreshold : Nat) (allNew : Bool) (ntList : List (String × TitleMap))
    (rtp : List (String × TitleMap)) :
    (List (String × StatAcc) × List (String × List String)) × Nat :=
  rtp.foldl
    (fun acc p =>
      (p.2.foldl
        (cwfStep wordGroups filterWords idToName tiList rankThreshold allNew
          ntList p.1)
        acc.1,
       acc.2 + p.2.length))
    ((initWordStats wordGroups, []), 0)

/-- Which accumulated titles are processed, by mode (`incremental`:
everything on the first run of the day, else only the new titles;
`current`: only titles whose cumulative `last_time` equals the global
latest; otherwise everything). -/
def cwfResultsToProcess (mode : String) (isFirstToday : Bool)
    (results : List (String × TitleMap)) (ntList : List (String × TitleMap))
    (titleInfo : Option TitleInfoMap) : List (String × TitleMap) :=
  if mode = "incremental" then
    (if isFirstToday then results else ntList)
  else if mode = "current" then
    (match titleInfo with
     | some ti =>
        if ti.isEmpty then results
        else
          match maxLastTime ti with
          | some latest => filterCurrent results ti latest
          | none => results
     | none => results)
  else results

/-- `count_word_frequency`: full pipeline.  `isFirstToday` models
`is_first_crawl_today()` (a filesystem probe) and `wc` the ambient weight
configuration. -/
def countWordFrequency (results : List (String × TitleMap))
    (wordGroups0 : List WordGroup) (filterWords0 : List String)
    (idToName : List (String × String)) (titleInfo : Option TitleInfoMap)
    (rankThreshold : Nat) (newTitles : Option (List (String × TitleMap)))
    (mode : String) (isFirstToday : Bool) (wc : WeightConfig) :
    List Stat × Nat :=
  let wordGroups := if wordGroups0.isEmpty then [syntheticAllGroup] else wordGroups0
  let filterWords := if wordGroups0.isEmpty then [] else filterWords0
  let ntList := newTitles.getD []
  let resultsToProcess := cwfResultsToProcess mode isFirstToday results ntList titleInfo
  let allNew := mode = "incremental"
  let tiList := titleInfo.getD []
  let acc := cwfFold wordGroups filterWords idToName tiList rankThreshold allNew
    ntList resultsToProcess
  (buildStats wc rankThreshold acc.2 acc.1.1, acc.2)

/-- Scenario-C style group: required `AI`, normal `芯片`, `GPU`. -/
def wordGroupsC : List WordGroup := [⟨["AI"], ["芯片", "GPU"], "芯片 GPU"⟩]

/-! ### Provenance of the `is_new` flag (`count_word_frequency`) -/
/-- Every matched-title record stored anywhere in a `word_stats`
accumulator satisfies `P`. -/
def AllRecs (P : MatchedTitle → Prop) (ws : List (String × StatAcc)) : Prop :=
  ∀ p ∈ ws, ∀ q ∈ p.2.titles, ∀ r ∈ q.2, P r

/-- Concrete `current`-mode inputs on which a record is flagged new. -/
def cRes : List (String × TitleMap) := [("s", [("a", ⟨[1], "", ""⟩)])]

/-- Single keyword group matching the title `a`. -/
def cGroups : List WordGroup := [⟨[], ["a"], "a"⟩]

/-- Cumulative `title_info` whose latest time is `t2`. -/
def cTI : TitleInfoMap := [("s", [("a", ⟨"t1", "t2", 2, [1], "", ""⟩)])]

/-- Caller-supplied `new_titles` containing the matched title. -/
def cNT : List (String × TitleMap) := [("s", [("a", ⟨[1], "", ""⟩)])]

/-- The `count_word_frequency` output on the concrete `current`-mode,
non-first-crawl inputs. -/
def cOut : List Stat × Nat :=
  countWordFrequency cRes cGroups [] [] (some cTI) 5 (some cNT) "current" false
    ⟨1, 1, 1⟩

/-- A placeholder `Stat` for `getD`. -/
def emptyStat : Stat := ⟨"", 0, [], 0⟩

/-- A placeholder `MatchedTitle` for `getD`. -/
def emptyMatched : MatchedTitle := ⟨"", "", "", "", "", 0, [], 0, "", "", false⟩

/-! ### New-item detector (`detect_latest_new_titles`)

The filesystem interaction (listing the day's snapshot files in
chronological filename order and parsing each) is abstracted into the
`files` parameter: the parsed snapshots in chronological order. -/
/-- Restrict a parsed snapshot to the monitored platform ids, when given. -/
def filterByPlatform (pids : Option (List String)) (d : SnapData) : SnapData :=
  match pids with
  | none => d
  | some ids => d.filter (fun p => p.1 ∈ ids)

/-- Accumulate one historical snapshot's titles into the per-source
historical title sets. -/
def addHist (h : List (String × List String)) (data : SnapData) :
    List (String × List String) :=
  data.foldl (fun h p => setKey p.1 (((alookup p.1 h).getD []) ++ akeys p.2) h) h

/-- The per-source new-title computation: titles of the latest snapshot
not present in the historical set, `none` when no title is new. -/
def detectSourceNew (hist : List (String × List String)) (sid : String)
    (tm : TitleMap) : Option TitleMap :=
  let histSet := (alookup sid hist).getD []
  let newT := tm.filter (fun te => ¬ te.1 ∈ histSet)
  if newT.isEmpty then none else some newT

/-- Diff the latest snapshot against the union of the earlier ones,
after platform filtering on both sides. -/
def detectCore (latest : SnapData) (earlier : List SnapData)
    (pids : Option (List String)) : SnapData :=
  let latestF := filterByPlatform pids latest
  let hist := earlier.foldl (fun h fdata => addHist h (filterByPlatform pids fdata)) []
  latestF.filterMap
    (fun p => (detectSourceNew hist p.1 p.2).map (fun v => (p.1, v)))

/-- `detect_latest_new_titles`: with fewer than two snapshot files the
result is empty; otherwise the chronologically last snapshot is diffed
against the union of all earlier ones, optionally restricted to the
monitored platforms. -/
def detectLatestNewTitles (files : List SnapData) (pids : Option (List String)) :
    SnapData :=
  if files.length < 2 then []
  else
    match files.getLast? with
    | none => []
    | some latest => detectCore latest files.dropLast pids

/-- Two concrete snapshots: title `B` first appears in the second. -/
def dFiles : List SnapData :=
  [[("S1", [("A", ⟨[1], "", ""⟩)])],
   [("S1", [("A", ⟨[2], "", ""⟩), ("B", ⟨[1], "", ""⟩)])]]

/-! ### Snapshot file writer and parser (`save_titles_to_file`,
`parse_file_titles`)

Python string operations are embedded over character lists: `split`,
`split(sep, 1)`, `rsplit(sep, 1)`, `strip`, `isdigit`, `int`. -/
/-- Python `str.isspace` characters relevant here. -/
def pyIsSpace (c : Char) : Bool :=
  c = ' ' || c = '\t' || c = '\n' || c = '\r' || c.val.toNat = 11 || c.val.toNat = 12

/-- Python `s.strip()` on a character list. -/
def pyStripL (l : List Char) : List Char :=
  ((l.dropWhile pyIsSpace).reverse.dropWhile pyIsSpace).reverse

/-- Python `s.strip()`. -/
def pyStrip (s : String) : String := ⟨pyStripL s.data⟩

/-- Python `s.split(sep)` for a non-empty separator, on character lists
(left-to-right, non-overlapping).  The fuel argument (instantiated with
the list length) keeps the recursion structural so that it evaluates in
the kernel. -/
def splitGo (s0 : Char) (st : List Char) : Nat → List Char → List (List Char)
  | _, [] => [[]]
  | 0, l => [l]
  | fuel + 1, c :: rest =>
      if (s0 :: st).isPrefixOf (c :: rest) then
        [] :: splitGo s0 st fuel (rest.drop st.length)
      else
        match splitGo s0 st fuel rest with
        | [] => [[c]]
        | h :: t => (c :: h) :: t

/-- Python `s.split(sep)` (the empty separator raising in Python is
mapped to the whole string). -/
def pySplitL (sep l : List Char) : List (List Char) :=
  match sep with
  | [] => [l]
  | s0 :: st => splitGo s0 st l.length l

/-- Python `s.split(sep)` on strings. -/
def pySplit (sep s : String) : List String :=
  (pySplitL sep.data s.data).map (fun l => ⟨l⟩)

/-- Python `s.split(sep, 1)`: split at the first occurrence. -/
def splitFirst (sep : List Char) : List Char → Option (List Char × List Char)
  | [] => if sep.isPrefixOf [] ∧ sep ≠ [] then some ([], []) else none
  | c :: rest =>
      if sep.isPrefixOf (c :: rest) then
        some ([], (c :: rest).drop sep.length)
      else
        (splitFirst sep rest).map (fun p => (c :: p.1, p.2))

/-- Python `s.rsplit(sep, 1)`: split at the last occurrence. -/
def splitLast (sep : List Char) : List Char → Option (List Char × List Char)
  | [] => none
  | c :: rest =>
      match splitLast sep rest with
      | some p => some (c :: p.1, p.2)
      | none =>
          if sep.isPrefixOf (c :: rest) then
            some ([], (c :: rest).drop sep.length)
          else none

/-- Python `s.isdigit()` (ASCII digits). -/
def isDigits (l : List Char) : Bool :=
  !l.isEmpty && l.all Char.isDigit

/-- Python `int(s)` for a digit string. -/
def parseNatL (l : List Char) : Nat :=
  l.foldl (fun acc c => acc * 10 + (c.val.toNat - 48)) 0

/-- One decimal digit as a character. -/
def digitChar (d : Nat) : Char := Char.ofNat (48 + d)

/-- Decimal digits of a natural number (with fuel for termination). -/
def natDigitsAux : Nat → Nat → List Char
  | 0, _ => []
  | fuel + 1, n =>
      if n < 10 then [digitChar n]
      else natDigitsAux fuel (n / 10) ++ [digitChar (n % 10)]

/-- Python `str(n)` for a natural number. -/
def natToStr (n : Nat) : String := ⟨natDigitsAux (n + 1) n⟩

/-- `clean_title` is referenced by `save_titles_to_file` and
`parse_file_titles`.  Modelled from the spec: its definition is not among
the given sources, and the spec's file-format section describes title
lines as carrying the title text verbatim (`rank. title [URL:url]`), so
it is modelled as the identity transformation. -/
def cleanTitle (t : String) : String := t

/-- The failure-marker section header. -/
def failMarker : String := "==== 以下ID请求失败 ===="

/-- One written title line
`rank. title [URL:url] [MOBILE:mobile_url]` (the URL/MOBILE suffixes only
when non-empty). -/
def saveLine (rank : Nat) (title url mobileUrl : String) : String :=
  let line := natToStr rank ++ ". " ++ title
  let line := if url ≠ "" then line ++ " [URL:" ++ url ++ "]" else line
  let line := if mobileUrl ≠ "" then line ++ " [MOBILE:" ++ mobileUrl ++ "]" else line
  line

/-- The writer's per-title tuple `(rank, cleaned_title, url, mobile_url)`
(`rank = ranks[0] if ranks else 1`; dict-valued info). -/
def saveTuple (te : String × Entry) : Nat × String × String × String :=
  (te.2.ranks.headD 1, cleanTitle te.1, te.2.url, te.2.mobileUrl)

/-- One source's section text, without the final blank separator: the
header line followed by the rank-sorted title lines. -/
def saveSection (idToName : List (String × String)) (p : String × TitleMap) : String :=
  let header :=
    match alookup p.1 idToName with
    | some name => if name ≠ "" ∧ name ≠ p.1 then p.1 ++ " | " ++ name else p.1
    | none => p.1
  let tuples := sortStable (fun a b => a.1 ≤ b.1) (p.2.map saveTuple)
  tuples.foldl (fun acc t => acc ++ "\n" ++ saveLine t.1 t.2.1 t.2.2.1 t.2.2.2) header

/-- The full text written by `save_titles_to_file` (each section followed
by a blank line, then the failure-marker section when `failed_ids` is
non-empty). -/
def saveContent (results : List (String × TitleMap)) (idToName : List (String × String))
    (failedIds : List String) : String :=
  (results.foldl (fun acc p => acc ++ saveSection idToName p ++ "\n\n") "") ++
    (if failedIds.isEmpty then ""
     else failedIds.foldl (fun acc fid => acc ++ fid ++ "\n") (failMarker ++ "\n"))

/-- Parse one title line of a section (the body of the per-line `try`
block; no clause of it can raise for a total parse). -/
def parseTitleLine (line : String) : String × Entry :=
  let tp := (pyStrip line).data
  let (rank?, tp) :=
    match splitFirst (String.data ". ") tp with
    | some (before, after) =>
        if isDigits before then (some (parseNatL before), after)
        else (none, tp)
    | none => (none, tp)
  let (mobile, tp) :=
    if subIn (String.data " [MOBILE:") tp then
      match splitLast (String.data " [MOBILE:") tp with
      | some (before, after) =>
          (if after.getLast? = some ']' then (⟨after.dropLast⟩ : String) else "", before)
      | none => ("", tp)
    else ("", tp)
  let (url, tp) :=
    if subIn (String.data " [URL:") tp then
      match splitLast (String.data " [URL:") tp with
      | some (before, after) =>
          (if after.getLast? = some ']' then (⟨after.dropLast⟩ : String) else "", before)
      | none => ("", tp)
    else ("", tp)
  let title := cleanTitle (pyStrip ⟨tp⟩)
  (title, ⟨match rank? with | some r => [r] | none => [1], url, mobile⟩)

/-- Parse one blank-line-separated section: skipped when blank, when it
contains the failure marker, or when it has fewer than two lines. -/
def parseSection (sec : String) : Option (String × String × TitleMap) :=
  if pyStrip sec = "" ∨ subIn failMarker.data sec.data then none
  else
    match pySplit "\n" (pyStrip sec) with
    | [] => none
    | [_] => none
    | header :: rest =>
        let headerLine := pyStrip header
        let (sourceId, name) :=
          if subIn (String.data " | ") headerLine.data then
            match splitFirst (String.data " | ") headerLine.data with
            | some (b, a) => ((pyStrip ⟨b⟩ : String), (pyStrip ⟨a⟩ : String))
            | none => (headerLine, headerLine)
          else (headerLine, headerLine)
        let titles := rest.foldl
          (fun acc line =>
            if pyStrip line ≠ "" then
              let te := parseTitleLine line
              setKey te.1 te.2 acc
            else acc) []
        some (sourceId, name, titles)

/-- `parse_file_titles`: split the content on blank lines and parse each
section, returning `(titles_by_id, id_to_name)`. -/
def parseFileTitles (content : String) :
    List (String × TitleMap) × List (String × String) :=
  (pySplit "\n\n" content).foldl
    (fun acc sec =>
      match parseSection sec with
      | none => acc
      | some (sid, name, titles) => (setKey sid titles acc.1, setKey sid name acc.2))
    ([], [])

/-- Shared sanity of a written text field: no newline, no brackets, no
equals sign (which could fake the failure marker). -/
def GoodText (s : String) : Prop :=
  ('\n' ∉ s.data) ∧ ('[' ∉ s.data) ∧ (']' ∉ s.data) ∧ ('=' ∉ s.data)

/-- Well-formed title text: sane, non-empty and `strip`-stable. -/
def GoodTitleStr (s : String) : Prop := GoodText s ∧ s ≠ "" ∧ pyStrip s = s

/-- Well-formed source id: additionally free of the header separator. -/
def GoodSidStr (s : String) : Prop :=
  GoodText s ∧ s ≠ "" ∧ pyStrip s = s ∧ strIn " | " s = false

/-- Well-formed failed-source id (only the section structure matters). -/
def GoodFid (s : String) : Prop := s ≠ "" ∧ '\n' ∉ s.data

/-- No adjacent occurrence of the ordered character pair `(a, b)`. -/
def noPair (a b : Char) : List Char → Bool
  | c :: d :: t => !(c == a && d == b) && noPair a b (d :: t)
  | _ => true

/-- Well-formed written entry: a single rank, sane url and mobile url. -/
def GoodEntry (e : Entry) : Prop :=
  (∃ r, e.ranks = [r]) ∧ GoodText e.url ∧ GoodText e.mobileUrl

/-- The title map the parser reconstructs from one written section. -/
def parsedTitlesOf (tm : TitleMap) : TitleMap :=
  (sortStable (fun a b => a.1 ≤ b.1) (tm.map saveTuple)).foldl
    (fun acc tu => setKey tu.2.1 (Entry.mk [tu.1] tu.2.2.1 tu.2.2.2) acc) []

/-- A concrete snapshot for exercising the writer/parser round trip. -/
def resW : List (String × TitleMap) :=
  [("baidu", [("热点甲", ⟨[1], "https://a/1", "https://m/1"⟩), ("热点乙", ⟨[3], "", ""⟩)]),
   ("weibo", [("热点丙", ⟨[2], "https://b/2", ""⟩)])]

/-! ### Notifier batch packer (`split_content_into_batches`)

The report data handed to the packer is embedded structurally; title
rendering follows `format_title_for_platform` / `format_rank_display`;
the Beijing timestamp is passed in as a string. -/
/-- One processed title row of the report data. -/
structure TitleR where
  title : String
  source_name : String
  time_display : String
  count : Nat
  ranks : List Nat
  rank_threshold : Nat
  url : String
  mobile_url : String
  is_new : Bool
  deriving Repr, DecidableEq

/-- One word-group statistic of the report data. -/
structure StatR where
  word : String
  count : Nat
  titles : List TitleR
  deriving Repr, DecidableEq

/-- One new-titles source block of the report data. -/
structure SourceR where
  source_name : String
  titles : List TitleR
  deriving Repr, DecidableEq

/-- The report data dict handed to `split_content_into_batches`. -/
structure ReportData where
  stats : List StatR
  new_titles : List SourceR
  failed_ids : List String
  total_new_count : Nat
  deriving Repr, DecidableEq

/-- `format_rank_display`. -/
def formatRankDisplay (ranks : List Nat) (rankThreshold : Nat) (fmt : String) : String :=
  if ranks.isEmpty then ""
  else
    let uniqueRanks := sortStable (fun a b => a ≤ b) ranks.dedup
    let minRank := uniqueRanks.headD 0
    let maxRank := uniqueRanks.getLastD 0
    let hl :=
      if fmt = "html" then ("<font color='red'><strong>", "</strong></font>")
      else if fmt = "feishu" then ("<font color='red'>**", "**</font>")
      else if fmt = "dingtalk" then ("**", "**")
      else if fmt = "wework" then ("**", "**")
      else if fmt = "telegram" then ("<b>", "</b>")
      else ("**", "**")
    if minRank ≤ rankThreshold then
      if minRank = maxRank then hl.1 ++ "[" ++ natToStr minRank ++ "]" ++ hl.2
      else hl.1 ++ "[" ++ natToStr minRank ++ " - " ++ natToStr maxRank ++ "]" ++ hl.2
    else
      if minRank = maxRank then "[" ++ natToStr minRank ++ "]"
      else "[" ++ natToStr minRank ++ " - " ++ natToStr maxRank ++ "]"

/-- One character of `html.escape`.  Modelled from the spec: `html_escape`
is re-exported by the repository's `modules/utils.py`, which is not among
the given sources; the Python standard library escape with quoting
replaces the five HTML-special characters. -/
def htmlEscapeChar (c : Char) : String :=
  if c = '&' then "&amp;"
  else if c = '<' then "&lt;"
  else if c = '>' then "&gt;"
  else if c = '"' then "&quot;"
  else if c = '\'' then "&#x27;"
  else String.singleton c

/-- `html_escape` (modelled from the spec, see `htmlEscapeChar`). -/
def htmlEscape (s : String) : String :=
  s.data.foldl (fun acc c => acc ++ htmlEscapeChar c) ""

/-- `format_title_for_platform`. -/
def formatTitleForPlatform (platform : String) (td : TitleR) (showSource : Bool) :
    String :=
  let rankDisplay := formatRankDisplay td.ranks td.rank_threshold platform
  let linkUrl := pyOr td.mobile_url td.url
  let cleanedTitle := cleanTitle td.title
  if platform = "feishu" then
    let formattedTitle :=
      if linkUrl ≠ "" then "[" ++ cleanedTitle ++ "](" ++ linkUrl ++ ")"
      else cleanedTitle
    let titlePrefix := if td.is_new then "🆕 " else ""
    let result :=
      if showSource then
        "<font color='grey'>[" ++ td.source_name ++ "]</font> " ++ titlePrefix ++
          formattedTitle
      else titlePrefix ++ formattedTitle
    let result := if rankDisplay ≠ "" then result ++ " " ++ rankDisplay else result
    let result :=
      if td.time_display ≠ "" then
        result ++ " <font color='grey'>- " ++ td.time_display ++ "</font>"
      else result
    let result :=
      if td.count > 1 then
        result ++ " <font color='green'>(" ++ natToStr td.count ++ "次)</font>"
      else result
    result
  else if platform = "dingtalk" then
    let formattedTitle :=
      if linkUrl ≠ "" then "[" ++ cleanedTitle ++ "](" ++ linkUrl ++ ")"
      else cleanedTitle
    let titlePrefix := if td.is_new then "🆕 " else ""
    let result :=
      if showSource then
        "[" ++ td.source_name ++ "] " ++ titlePrefix ++ formattedTitle
      else titlePrefix ++ formattedTitle
    let result := if rankDisplay ≠ "" then result ++ " " ++ rankDisplay else result
    let result :=
      if td.time_display ≠ "" then result ++ " - " ++ td.time_display else result
    let result :=
      if td.count > 1 then result ++ " (" ++ natToStr td.count ++ "次)" else result
    result
  else if platform = "wework" then
    let formattedTitle :=
      if linkUrl ≠ "" then "[" ++ cleanedTitle ++ "](" ++ linkUrl ++ ")"
      else cleanedTitle
    let titlePrefix := if td.is_new then "🆕 " else ""
    let result :=
      if showSource then
        "[" ++ td.source_name ++ "] " ++ titlePrefix ++ formattedTitle
      else titlePrefix ++ formattedTitle
    let result := if rankDisplay ≠ "" then result ++ " " ++ rankDisplay else result
    let result :=
      if td.time_display ≠ "" then result ++ " - " ++ td.time_display else result
    let result :=
      if td.count > 1 then result ++ " (" ++ natToStr td.count ++ "次)" else result
    result
  else if platform = "telegram" then
    let formattedTitle :=
      if linkUrl ≠ "" then
        "<a href=\x22" ++ linkUrl ++ "\x22>" ++ htmlEscape cleanedTitle ++ "</a>"
      else cleanedTitle
    let titlePrefix := if td.is_new then "🆕 " else ""
    let result :=
      if showSource then
        "[" ++ td.source_name ++ "] " ++ titlePrefix ++ formattedTitle
      else titlePrefix ++ formattedTitle
    let result := if rankDisplay ≠ "" then result ++ " " ++ rankDisplay else result
    let result :=
      if td.time_display ≠ "" then
        result ++ " <code>- " ++ td.time_display ++ "</code>"
      else result
    let result :=
      if td.count > 1 then
        result ++ " <code>(" ++ natToStr td.count ++ "次)</code>"
      else result
    result
  else if platform = "html" then
    let rankDisplay2 := formatRankDisplay td.ranks td.rank_threshold "html"
    let escapedTitle := htmlEscape cleanedTitle
    let escapedSourceName := htmlEscape td.source_name
    let formattedTitle :=
      if linkUrl ≠ "" then
        "[" ++ escapedSourceName ++ "] <a href=\x22" ++ htmlEscape linkUrl ++
          "\x22 target=\x22_blank\x22 class=\x22news-link\x22>" ++ escapedTitle ++ "</a>"
      else
        "[" ++ escapedSourceName ++ "] <span class=\x22no-link\x22>" ++
          escapedTitle ++ "</span>"
    let formattedTitle :=
      if rankDisplay2 ≠ "" then formattedTitle ++ " " ++ rankDisplay2
      else formattedTitle
    let formattedTitle :=
      if td.time_display ≠ "" then
        formattedTitle ++ " <font color='grey'>- " ++ htmlEscape td.time_display ++
          "</font>"
      else formattedTitle
    let formattedTitle :=
      if td.count > 1 then
        formattedTitle ++ " <font color='green'>(" ++ natToStr td.count ++
          "次)</font>"
      else formattedTitle
    let formattedTitle :=
      if td.is_new then
        "<div class='new-title'>🆕 " ++ formattedTitle ++ "</div>"
      else formattedTitle
    formattedTitle
  else cleanedTitle

/-- Provenance tag of one appended fragment of a batch. -/
inductive SegTag where
  | baseHeader
  | statsHeader
  | groupHeader (i : Nat)
  | groupFirst (i : Nat)
  | groupLine (i j : Nat)
  | groupSep (i : Nat)
  | newHeader
  | sourceHeader (k : Nat)
  | sourceFirst (k : Nat)
  | sourceLine (k j : Nat)
  | sourcePad (k : Nat)
  | failedHeader
  | failedLine (i : Nat)
  | simpleNote
  deriving Repr, DecidableEq

/-- One appended fragment: its provenance tag and its rendered text. -/
structure Seg where
  tag : SegTag
  txt : String
  deriving Repr, DecidableEq

/-- Total UTF-8 byte size of a fragment list. -/
def segLen (b : List Seg) : Nat := (b.map (fun s => utf8Len s.txt)).sum

/-- The batch string a fragment list renders to. -/
def segRender (b : List Seg) : String := b.foldl (fun acc s => acc ++ s.txt) ""

/-- The packer state: finished batches, the current batch and its
`current_batch_has_content` flag. -/
structure PackSt where
  batches : List (List Seg)
  cur : List Seg
  hasC : Bool
  deriving Repr, DecidableEq

/-- One guarded append: if the candidate (plus footer) reaches `maxB`
bytes, flush the current batch (when it has content) and restart,
otherwise append the fragments. -/
def stepUnit (maxB footLen : Nat) (restart segs : List Seg) (st : PackSt) : PackSt :=
  if maxB ≤ segLen st.cur + segLen segs + footLen then
    { batches := st.batches ++ (if st.hasC then [st.cur] else []),
      cur := restart, hasC := true }
  else
    { batches := st.batches, cur := st.cur ++ segs, hasC := true }

/-- The separator append: keep only when it still fits, never flush. -/
def stepSep (maxB footLen : Nat) (segs : List Seg) (st : PackSt) : PackSt :=
  if segLen st.cur + segLen segs + footLen < maxB then
    { st with cur := st.cur ++ segs }
  else st

/-- The unconditional `current_batch += "\n"` after each new-titles
source. -/
def stepPad (seg : Seg) (st : PackSt) : PackSt := { st with cur := st.cur ++ [seg] }

/-- Close the run: flush the final batch when it has content. -/
def finishPack (st : PackSt) : List (List Seg) :=
  st.batches ++ (if st.hasC then [st.cur] else [])

/-- `sequence_display`. -/
def seqDisplay (i total : Nat) : String :=
  "[" ++ natToStr (i + 1) ++ "/" ++ natToStr total ++ "]"

/-- The per-format title rendering used in the stats section. -/
def statTitleText (fmt : String) (td : TitleR) : String :=
  if fmt = "wework" then formatTitleForPlatform "wework" td true
  else if fmt = "telegram" then formatTitleForPlatform "telegram" td true
  else td.title

/-- The per-format title rendering used in the new-titles section
(`is_new` forced off, source hidden). -/
def newTitleText (fmt : String) (td : TitleR) : String :=
  if fmt = "wework" then formatTitleForPlatform "wework" { td with is_new := false } false
  else if fmt = "telegram" then
    formatTitleForPlatform "telegram" { td with is_new := false } false
  else td.title

/-- `word_header`. -/
def wordHeaderText (fmt : String) (i total : Nat) (stat : StatR) : String :=
  if fmt = "wework" then
    if 10 ≤ stat.count then
      "🔥 " ++ seqDisplay i total ++ " **" ++ stat.word ++ "** : **" ++
        natToStr stat.count ++ "** 条\n\n"
    else if 5 ≤ stat.count then
      "📈 " ++ seqDisplay i total ++ " **" ++ stat.word ++ "** : **" ++
        natToStr stat.count ++ "** 条\n\n"
    else
      "📌 " ++ seqDisplay i total ++ " **" ++ stat.word ++ "** : " ++
        natToStr stat.count ++ " 条\n\n"
  else if fmt = "telegram" then
    if 10 ≤ stat.count then
      "🔥 " ++ seqDisplay i total ++ " " ++ stat.word ++ " : " ++
        natToStr stat.count ++ " 条\n\n"
    else if 5 ≤ stat.count then
      "📈 " ++ seqDisplay i total ++ " " ++ stat.word ++ " : " ++
        natToStr stat.count ++ " 条\n\n"
    else
      "📌 " ++ seqDisplay i total ++ " " ++ stat.word ++ " : " ++
        natToStr stat.count ++ " 条\n\n"
  else ""

/-- `first_news_line` of a word group. -/
def firstNewsText (fmt : String) (stat : StatR) : String :=
  match stat.titles with
  | [] => ""
  | td :: rest =>
      "  1. " ++ statTitleText fmt td ++ "\n" ++ (if rest ≠ [] then "\n" else "")

/-- `news_line` for index `j ≥ 1` of a word group. -/
def newsLineText (fmt : String) (stat : StatR) (j : Nat) (td : TitleR) : String :=
  "  " ++ natToStr (j + 1) ++ ". " ++ statTitleText fmt td ++ "\n" ++
    (if j < stat.titles.length - 1 then "\n" else "")

/-- The inter-group separator. -/
def groupSepText (fmt : String) : String :=
  if fmt = "wework" then "\n\n\n\n"
  else if fmt = "telegram" then "\n\n"
  else ""

/-- `new_header`. -/
def newHeaderText (fmt : String) (totalNewCount : Nat) : String :=
  if fmt = "wework" then
    "\n\n\n\n🆕 **本次新增热点新闻** (共 " ++ natToStr totalNewCount ++ " 条)\n\n"
  else if fmt = "telegram" then
    "\n\n🆕 本次新增热点新闻 (共 " ++ natToStr totalNewCount ++ " 条)\n\n"
  else ""

/-- `source_header`. -/
def sourceHeaderText (fmt : String) (sd : SourceR) : String :=
  if fmt = "wework" then
    "**" ++ sd.source_name ++ "** (" ++ natToStr sd.titles.length ++ " 条):\n\n"
  else if fmt = "telegram" then
    sd.source_name ++ " (" ++ natToStr sd.titles.length ++ " 条):\n\n"
  else ""

/-- `first_news_line` of a new-titles source. -/
def sourceFirstText (fmt : String) (sd : SourceR) : String :=
  match sd.titles with
  | [] => ""
  | td :: _ => "  1. " ++ newTitleText fmt td ++ "\n"

/-- `news_line` for index `j ≥ 1` of a new-titles source. -/
def sourceLineText (fmt : String) (j : Nat) (td : TitleR) : String :=
  "  " ++ natToStr (j + 1) ++ ". " ++ newTitleText fmt td ++ "\n"

/-- `failed_header`. -/
def failedHeaderText (fmt : String) : String :=
  if fmt = "wework" then "\n\n\n\n⚠️ **数据获取失败的平台：**\n\n"
  else if fmt = "telegram" then "\n\n⚠️ 数据获取失败的平台：\n\n"
  else ""

/-- `failed_line`. -/
def failedLineText (idValue : String) : String := "  • " ++ idValue ++ "\n"

/-- `total_titles`. -/
def totalTitlesOf (rd : ReportData) : Nat :=
  ((rd.stats.filter (fun stat => 0 < stat.count)).map
    (fun stat => stat.titles.length)).sum

/-- `base_header`. -/
def baseHeaderText (fmt : String) (totalTitles : Nat) : String :=
  if fmt = "wework" then "**总新闻数：** " ++ natToStr totalTitles ++ "\n\n\n\n"
  else if fmt = "telegram" then "总新闻数： " ++ natToStr totalTitles ++ "\n\n"
  else ""

/-- `base_footer` (the Beijing timestamp string is a parameter). -/
def baseFooterText (fmt : String) (nowStr : String)
    (updateInfo : Option (String × String)) : String :=
  if fmt = "wework" then
    "\n\n\n> 更新时间：" ++ nowStr ++
      (match updateInfo with
       | some (rv, cv) =>
           "\n> TrendRadar 发现新版本 **" ++ rv ++ "**，当前 **" ++ cv ++ "**"
       | none => "")
  else if fmt = "telegram" then
    "\n\n更新时间：" ++ nowStr ++
      (match updateInfo with
       | some (rv, cv) => "\nTrendRadar 发现新版本 " ++ rv ++ "，当前 " ++ cv
       | none => "")
  else ""

/-- `stats_header`. -/
def statsHeaderText (fmt : String) (rd : ReportData) : String :=
  if rd.stats ≠ [] then
    if fmt = "wework" then "📊 **热点词汇统计**\n\n"
    else if fmt = "telegram" then "📊 热点词汇统计\n\n"
    else ""
  else ""

/-- The `mode_text` of the empty-report shortcut. -/
def modeText (mode : String) : String :=
  if mode = "incremental" then "增量模式下暂无新增匹配的热点词汇"
  else if mode = "current" then "当前榜单模式下暂无匹配的热点词汇"
  else "暂无匹配的热点词汇"

/-- The header-plus-first-item unit of one word group. -/
def groupUnitSegs (fmt : String) (total : Nat) (ig : Nat × StatR) : List Seg :=
  ⟨.groupHeader ig.1, wordHeaderText fmt ig.1 total ig.2⟩ ::
    (match ig.2.titles with
     | [] => []
     | _ :: _ => [⟨.groupFirst ig.1, firstNewsText fmt ig.2⟩])

/-- Process one word group: the atomic header-plus-first-item append, the
remaining lines, then the inter-group separator. -/
def processGroup (fmt : String) (maxB footLen total : Nat) (bhSeg shSeg : Seg)
    (st : PackSt) (ig : Nat × StatR) : PackSt :=
  let i := ig.1
  let stat := ig.2
  let whSeg : Seg := ⟨.groupHeader i, wordHeaderText fmt i total stat⟩
  let unit := groupUnitSegs fmt total ig
  let st1 := stepUnit maxB footLen ([bhSeg, shSeg] ++ unit) unit st
  let st2 := (stat.titles.enum.drop 1).foldl
    (fun st jtd =>
      stepUnit maxB footLen
        [bhSeg, shSeg, whSeg, ⟨.groupLine i jtd.1, newsLineText fmt stat jtd.1 jtd.2⟩]
        [⟨.groupLine i jtd.1, newsLineText fmt stat jtd.1 jtd.2⟩] st) st1
  if i < total - 1 then
    stepSep maxB footLen [⟨.groupSep i, groupSepText fmt⟩] st2
  else st2

/-- The header-plus-first-item unit of one new-titles source. -/
def sourceUnitSegs (fmt : String) (ks : Nat × SourceR) : List Seg :=
  ⟨.sourceHeader ks.1, sourceHeaderText fmt ks.2⟩ ::
    (match ks.2.titles with
     | [] => []
     | _ :: _ => [⟨.sourceFirst ks.1, sourceFirstText fmt ks.2⟩])

/-- Process one new-titles source, ending with the unconditional
newline append. -/
def processSource (fmt : String) (maxB footLen : Nat) (bhSeg nhSeg : Seg)
    (st : PackSt) (ks : Nat × SourceR) : PackSt :=
  let k := ks.1
  let sd := ks.2
  let shSeg : Seg := ⟨.sourceHeader k, sourceHeaderText fmt sd⟩
  let unit := sourceUnitSegs fmt ks
  let st1 := stepUnit maxB footLen ([bhSeg, nhSeg] ++ unit) unit st
  let st2 := (sd.titles.enum.drop 1).foldl
    (fun st jtd =>
      stepUnit maxB footLen
        [bhSeg, nhSeg, shSeg, ⟨.sourceLine k jtd.1, sourceLineText fmt jtd.1 jtd.2⟩]
        [⟨.sourceLine k jtd.1, sourceLineText fmt jtd.1 jtd.2⟩] st) st1
  stepPad ⟨.sourcePad k, "\n"⟩ st2

/-- Process one failed platform id line. -/
def processFailed (maxB footLen : Nat) (bhSeg fhSeg : Seg)
    (st : PackSt) (il : Nat × String) : PackSt :=
  stepUnit maxB footLen
    [bhSeg, fhSeg, ⟨.failedLine il.1, failedLineText il.2⟩]
    [⟨.failedLine il.1, failedLineText il.2⟩] st

/-- The stats section of the packer. -/
def splitSegsStats (fmt : String) (maxB footLen : Nat) (rd : ReportData)
    (bhSeg shSeg : Seg) (st0 : PackSt) : PackSt :=
  if rd.stats ≠ [] then
    rd.stats.enum.foldl (processGroup fmt maxB footLen rd.stats.length bhSeg shSeg)
      (stepUnit maxB footLen [bhSeg, shSeg] [shSeg] st0)
  else st0

/-- The new-titles section of the packer. -/
def splitSegsNew (fmt : String) (maxB footLen : Nat) (rd : ReportData)
    (bhSeg nhSeg : Seg) (st1 : PackSt) : PackSt :=
  if rd.new_titles ≠ [] then
    rd.new_titles.enum.foldl (processSource fmt maxB footLen bhSeg nhSeg)
      (stepUnit maxB footLen [bhSeg, nhSeg] [nhSeg] st1)
  else st1

/-- The failed-platforms section of the packer. -/
def splitSegsFailed (maxB footLen : Nat) (rd : ReportData)
    (bhSeg fhSeg : Seg) (st2 : PackSt) : PackSt :=
  if rd.failed_ids ≠ [] then
    rd.failed_ids.enum.foldl (processFailed maxB footLen bhSeg fhSeg)
      (stepUnit maxB footLen [bhSeg, fhSeg] [fhSeg] st2)
  else st2

/-- The packer pipeline on fragment lists (the non-shortcut path of
`split_content_into_batches`). -/
def splitSegs (fmt : String) (rd : ReportData) (nowStr : String)
    (updateInfo : Option (String × String)) (maxB : Nat) : PackSt :=
  let footLen := utf8Len (baseFooterText fmt nowStr updateInfo)
  let bhSeg : Seg := ⟨.baseHeader, baseHeaderText fmt (totalTitlesOf rd)⟩
  splitSegsFailed maxB footLen rd bhSeg ⟨.failedHeader, failedHeaderText fmt⟩
    (splitSegsNew fmt maxB footLen rd bhSeg
      ⟨.newHeader, newHeaderText fmt rd.total_new_count⟩
      (splitSegsStats fmt maxB footLen rd bhSeg ⟨.statsHeader, statsHeaderText fmt rd⟩
        ⟨[], [bhSeg], false⟩))

/-- `split_content_into_batches`: the returned batch strings. -/
def splitContentIntoBatches (fmt : String) (rd : ReportData) (nowStr : String)
    (updateInfo : Option (String × String)) (maxB : Nat) (mode : String) :
    List String :=
  let bh := baseHeaderText fmt (totalTitlesOf rd)
  let bf := baseFooterText fmt nowStr updateInfo
  if rd.stats = [] ∧ rd.new_titles = [] ∧ rd.failed_ids = [] then
    [bh ++ ("📭 " ++ modeText mode ++ "\n\n") ++ bf]
  else
    (finishPack (splitSegs fmt rd nowStr updateInfo maxB)).map
      (fun b => segRender b ++ bf)

/-- Does a fragment with the given tag occur in the batch? -/
def hasTag (b : List Seg) (t : SegTag) : Bool := b.any (fun s => s.tag = t)

/-- The atomicity property of one batch: a group's (or source's)
first-item fragment occurs only alongside that group's (source's)
header fragment. -/
def TagInv (b : List Seg) : Prop :=
  (∀ i, hasTag b (.groupFirst i) = true → hasTag b (.groupHeader i) = true) ∧
  (∀ k, hasTag b (.sourceFirst k) = true → hasTag b (.sourceHeader k) = true)

/-- The packer-state version of the atomicity property. -/
def PackTagInv (st : PackSt) : Prop :=
  (∀ b ∈ st.batches, TagInv b) ∧ TagInv st.cur

/-- Tags that are not first-item tags. -/
def tagFirstFree : SegTag → Bool
  | .groupFirst _ => false
  | .sourceFirst _ => false
  | _ => true

/-- A concrete title row for the packer counterexample. -/
def tdA : TitleR := ⟨"甲事件", "src", "", 1, [1], 5, "", "", false⟩

/-- A second concrete title row for the packer counterexample. -/
def tdB : TitleR := ⟨"乙事件", "src", "", 1, [2], 5, "", "", false⟩

/-- A one-group report with two titles. -/
def statX : StatR := ⟨"AI", 2, [tdA, tdB]⟩

/-- The packer counterexample report data. -/
def rdX : ReportData := ⟨[statX], [], [], 0⟩

/-- A fixed timestamp for the packer runs. -/
def nowX : String := "2025-01-01 12:00:00"

/-- The restart seeds the packer can assign as a fresh current batch:
each is a base header, a section header and at most one renderable unit
(the empty-report note counts as its own seed). -/
inductive IsSeed (fmt : String) (rd : ReportData) (mode : String) : List Seg → Prop where
  | statsHd :
      IsSeed fmt rd mode
        [⟨.baseHeader, baseHeaderText fmt (totalTitlesOf rd)⟩,
          ⟨.statsHeader, statsHeaderText fmt rd⟩]
  | groupUnit (ig : Nat × StatR) (h : ig ∈ rd.stats.enum) :
      IsSeed fmt rd mode
        ([⟨.baseHeader, baseHeaderText fmt (totalTitlesOf rd)⟩,
          ⟨.statsHeader, statsHeaderText fmt rd⟩] ++
            groupUnitSegs fmt rd.stats.length ig)
  | groupCont (ig : Nat × StatR) (h : ig ∈ rd.stats.enum) (jtd : Nat × TitleR)
      (hj : jtd ∈ ig.2.titles.enum.drop 1) :
      IsSeed fmt rd mode
        [⟨.baseHeader, baseHeaderText fmt (totalTitlesOf rd)⟩,
          ⟨.statsHeader, statsHeaderText fmt rd⟩,
          ⟨.groupHeader ig.1, wordHeaderText fmt ig.1 rd.stats.length ig.2⟩,
          ⟨.groupLine ig.1 jtd.1, newsLineText fmt ig.2 jtd.1 jtd.2⟩]
  | newHd :
      IsSeed fmt rd mode
        [⟨.baseHeader, baseHeaderText fmt (totalTitlesOf rd)⟩,
          ⟨.newHeader, newHeaderText fmt rd.total_new_count⟩]
  | sourceUnit (ks : Nat × SourceR) (h : ks ∈ rd.new_titles.enum) :
      IsSeed fmt rd mode
        ([⟨.baseHeader, baseHeaderText fmt (totalTitlesOf rd)⟩,
          ⟨.newHeader, newHeaderText fmt rd.total_new_count⟩] ++
            sourceUnitSegs fmt ks)
  | sourceCont (ks : Nat × SourceR) (h : ks ∈ rd.new_titles.enum) (jtd : Nat × TitleR)
      (hj : jtd ∈ ks.2.titles.enum.drop 1) :
      IsSeed fmt rd mode
        [⟨.baseHeader, baseHeaderText fmt (totalTitlesOf rd)⟩,
          ⟨.newHeader, newHeaderText fmt rd.total_new_count⟩,
          ⟨.sourceHeader ks.1, sourceHeaderText fmt ks.2⟩,
          ⟨.sourceLine ks.1 jtd.1, sourceLineText fmt jtd.1 jtd.2⟩]
  | failedHd :
      IsSeed fmt rd mode
        [⟨.baseHeader, baseHeaderText fmt (totalTitlesOf rd)⟩,
          ⟨.failedHeader, failedHeaderText fmt⟩]
  | failedCont (il : Nat × String) (h : il ∈ rd.failed_ids.enum) :
      IsSeed fmt rd mode
        [⟨.baseHeader, baseHeaderText fmt (totalTitlesOf rd)⟩,
          ⟨.failedHeader, failedHeaderText fmt⟩,
          ⟨.failedLine il.1, failedLineText il.2⟩]
  | emptyNote :
      IsSeed fmt rd mode
        [⟨.baseHeader, baseHeaderText fmt (totalTitlesOf rd)⟩,
          ⟨.simpleNote, "📭 " ++ modeText mode ++ "\n\n"⟩]

/-- A batch that equals a restart seed with at most one trailing newline
fragment. -/
def SeedLike (fmt : String) (rd : ReportData) (mode : String) (b : List Seg) : Prop :=
  ∃ r, IsSeed fmt rd mode r ∧ (b = r ∨ ∃ p : Seg, p.txt = "\n" ∧ b = r ++ [p])

/-- The per-batch size discipline: within budget or a seed shape. -/
def SegBOk (fmt : String) (rd : ReportData) (mode : String) (maxB footLen : Nat)
    (b : List Seg) : Prop :=
  segLen b + footLen ≤ maxB ∨ SeedLike fmt rd mode b

/-- The packer-state size invariant. -/
def PSizeInv (fmt : String) (rd : ReportData) (mode : String) (maxB footLen : Nat)
    (st : PackSt) : Prop :=
  (∀ b ∈ st.batches, SegBOk fmt rd mode maxB footLen b) ∧
  (st.hasC = true → SegBOk fmt rd mode maxB footLen st.cur)

/-- The stronger state fact right after a guarded append. -/
def PSizeStrong (fmt : String) (rd : ReportData) (mode : String) (maxB footLen : Nat)
    (st : PackSt) : Prop :=
  PSizeInv fmt rd mode maxB footLen st ∧ st.hasC = true ∧
  (segLen st.cur + footLen < maxB ∨ ∃ r, IsSeed fmt rd mode r ∧ st.cur = r)

@[simp] theorem alookup_nil {k : String} : alookup k ([] : List (String × β)) = none := rfl

@[simp] theorem alookup_cons {k a : String} {b : β} {t : List (String × β)} :
    alookup k ((a, b) :: t) = if a = k then some b else alookup k t := rfl

theorem alookup_append {k : String} {l₁ l₂ : List (String × β)} :
    alookup k (l₁ ++ l₂) = ((alookup k l₁).or (alookup k l₂)) := by
  induction l₁ with
  | nil => simp
  | cons p t ih =>
    obtain ⟨a, b⟩ := p
    by_cases h : a = k <;> simp [alookup, h, ih]

theorem alookup_setKey_self {k : String} {v : β} {l : List (String × β)} :
    alookup k (setKey k v l) = some v := by
  induction l with
  | nil => simp [setKey, alookup]
  | cons p t ih =>
    obtain ⟨a, b⟩ := p
    by_cases hak : a = k
    · simp [setKey, hak, alookup]
    · simp [setKey, hak, alookup, ih]

theorem alookup_setKey_ne {k k' : String} (h : k' ≠ k) {v : β} {l : List (String × β)} :
    alookup k (setKey k' v l) = alookup k l := by
  induction l with
  | nil => simp [setKey, alookup, h]
  | cons p t ih =>
    obtain ⟨a, b⟩ := p
    by_cases hak : a = k'
    · subst hak
      have hk : a ≠ k := fun hh => h (hh ▸ rfl)
      simp [setKey, alookup, hk]
    · by_cases hk : a = k
      · simp [setKey, hak, alookup, hk, Ne.symm h]
      · simp [setKey, hak, alookup, hk, ih]

theorem alookup_eq_none_of_not_mem {t : String} {l : List (String × β)}
    (h : t ∉ akeys l) : alookup t l = none := by
  induction l with
  | nil => rfl
  | cons p r ih =>
    obtain ⟨a, b⟩ := p
    simp only [akeys, List.map_cons, List.mem_cons] at h
    push_neg at h
    have hne : ¬ a = t := fun hh => h.1 hh.symm
    simp [alookup, hne, ih (by simpa [akeys] using h.2)]

theorem mem_akeys_of_alookup {t : String} {l : List (String × β)} {v : β}
    (h : alookup t l = some v) : t ∈ akeys l := by
  induction l with
  | nil => simp [alookup] at h
  | cons p r ih =>
    obtain ⟨a, b⟩ := p
    by_cases hat : a = t
    · simp [akeys, hat]
    · simp only [alookup, hat, if_false] at h
      simp [akeys, ih h, List.mem_cons]
      right
      simpa [akeys] using ih h

theorem mergeTitle_lookup_ne {ti t' t : String} (h : t' ≠ t) {e : Entry}
    {p : TitleMap × List (String × TitleInfoRec)} :
    alookup t (mergeTitle ti t' e p).1 = alookup t p.1 ∧
    alookup t (mergeTitle ti t' e p).2 = alookup t p.2 := by
  unfold mergeTitle
  cases hx : alookup t' p.1 with
  | none => exact ⟨alookup_setKey_ne h, alookup_setKey_ne h⟩
  | some existing =>
    refine ⟨alookup_setKey_ne h, ?_⟩
    cases hy : alookup t' p.2 with
    | none => rfl
    | some r => exact alookup_setKey_ne h

theorem mergeTitle_lookup_self {ti t : String} {e : Entry}
    {p : TitleMap × List (String × TitleInfoRec)} (hs : PairSynced p.1 p.2) :
    alookup t (mergeTitle ti t e p).1 =
      some (match alookup t p.1 with
            | none => e
            | some existing => bumpEntry e existing) ∧
    alookup t (mergeTitle ti t e p).2 =
      some (match alookup t p.2 with
            | none => freshRec ti e
            | some r => bumpRec ti e r) := by
  unfold mergeTitle
  cases hx : alookup t p.1 with
  | none =>
    have : alookup t p.2 = none := by
      cases hy : alookup t p.2 with
      | none => rfl
      | some r =>
        have := (hs.1 t).mpr (by simp [hy])
        simp [hx] at this
    simp [this, alookup_setKey_self]
  | some existing =>
    obtain ⟨r, hy⟩ : ∃ r, alookup t p.2 = some r := by
      have := (hs.1 t).mp (by simp [hx])
      cases hy : alookup t p.2 with
      | none => simp [hy] at this
      | some r => exact ⟨r, rfl⟩
    obtain ⟨h1, h2, h3⟩ := hs.2 t existing r hx hy
    simp only [hy, alookup_setKey_self]
    constructor
    · rfl
    · simp [bumpRec, h1, h2, h3, pyOr]

theorem mergeTitle_pairSynced {ti t : String} {e : Entry}
    {p : TitleMap × List (String × TitleInfoRec)} (hs : PairSynced p.1 p.2) :
    PairSynced (mergeTitle ti t e p).1 (mergeTitle ti t e p).2 := by
  constructor
  · intro t'
    by_cases ht : t = t'
    · subst ht
      obtain ⟨h1, h2⟩ := @mergeTitle_lookup_self ti t e p hs
      simp [h1, h2]
    · obtain ⟨h1, h2⟩ := @mergeTitle_lookup_ne ti t t' ht e p
      rw [h1, h2]
      exact hs.1 t'
  · intro t' e' r' h1' h2'
    by_cases ht : t = t'
    · subst ht
      obtain ⟨h1, h2⟩ := @mergeTitle_lookup_self ti t e p hs
      rw [h1] at h1'
      rw [h2] at h2'
      cases hx : alookup t p.1 with
      | none =>
        have hy : alookup t p.2 = none := by
          cases hy : alookup t p.2 with
          | none => rfl
          | some r =>
            have := (hs.1 t).mpr (by simp [hy])
            simp [hx] at this
        rw [hx] at h1'
        rw [hy] at h2'
        simp only [Option.some_inj] at h1' h2'
        subst h1'; subst h2'
        simp [freshRec]
      | some existing =>
        obtain ⟨r, hy⟩ : ∃ r, alookup t p.2 = some r := by
          have := (hs.1 t).mp (by simp [hx])
          cases hy : alookup t p.2 with
          | none => simp [hy] at this
          | some r => exact ⟨r, rfl⟩
        obtain ⟨g1, g2, g3⟩ := hs.2 t existing r hx hy
        rw [hx] at h1'
        rw [hy] at h2'
        simp only [Option.some_inj] at h1' h2'
        subst h1'; subst h2'
        simp [bumpRec, bumpEntry, g1, g2, g3]
    · obtain ⟨h1, h2⟩ := @mergeTitle_lookup_ne ti t t' ht e p
      rw [h1] at h1'
      rw [h2] at h2'
      exact hs.2 t' e' r' h1' h2'

/-- Folding `mergeTitle` over a title map with unique keys: effect on a
single title's `title_info` and `all_results` entries, plus invariant
preservation. -/
theorem fold_mergeTitle_spec {ti : String} (titleData : TitleMap)
    (p : TitleMap × List (String × TitleInfoRec))
    (hnd : (akeys titleData).Nodup) (hs : PairSynced p.1 p.2) :
    PairSynced (titleData.foldl (fun p te => mergeTitle ti te.1 te.2 p) p).1
      (titleData.foldl (fun p te => mergeTitle ti te.1 te.2 p) p).2 ∧
    ∀ t, alookup t (titleData.foldl (fun p te => mergeTitle ti te.1 te.2 p) p).2 =
      (match alookup t titleData with
       | none => alookup t p.2
       | some e =>
          some (match alookup t p.2 with
                | none => freshRec ti e
                | some r => bumpRec ti e r)) ∧
      alookup t (titleData.foldl (fun p te => mergeTitle ti te.1 te.2 p) p).1 =
      (match alookup t titleData with
       | none => alookup t p.1
       | some e =>
          some (match alookup t p.1 with
                | none => e
                | some existing => bumpEntry e existing)) := by
  induction titleData generalizing p with
  | nil => exact ⟨hs, fun t => ⟨rfl, rfl⟩⟩
  | cons te rest ih =>
    obtain ⟨t0, e0⟩ := te
    simp only [akeys, List.map_cons, List.nodup_cons] at hnd
    obtain ⟨ht0, hndr⟩ := hnd
    have hs' := @mergeTitle_pairSynced ti t0 e0 p hs
    obtain ⟨hq, hlook⟩ := ih (mergeTitle ti t0 e0 p) hndr hs'
    rw [List.foldl_cons]
    refine ⟨hq, fun t => ?_⟩
    by_cases htt : t0 = t
    · subst htt
      have hnone : alookup t0 rest = none :=
        alookup_eq_none_of_not_mem (by simpa [akeys] using ht0)
      obtain ⟨ha, hb⟩ := hlook t0
      obtain ⟨hc, hd⟩ := @mergeTitle_lookup_self ti t0 e0 p hs
      rw [hnone] at ha hb
      constructor
      · rw [ha, hd]
        simp [alookup]
      · rw [hb, hc]
        simp [alookup]
    · obtain ⟨ha, hb⟩ := hlook t
      obtain ⟨hc, hd⟩ := @mergeTitle_lookup_ne ti t0 t htt e0 p
      constructor
      · rw [ha]
        simp only [alookup, htt, if_false]
        cases alookup t rest <;> simp [hd]
      · rw [hb]
        simp only [alookup, htt, if_false]
        cases alookup t rest <;> simp [hc]

/-- Folding the fresh-record insertion over a title map with unique keys
(the first branch of `process_source_data`). -/
theorem fold_fresh_spec {ti : String} (titleData : TitleMap)
    (tm : List (String × TitleInfoRec)) (hnd : (akeys titleData).Nodup) :
    ∀ t, alookup t
      (titleData.foldl (fun tm te => setKey te.1 (freshRec ti te.2) tm) tm) =
      (match alookup t titleData with
       | none => alookup t tm
       | some e => some (freshRec ti e)) := by
  induction titleData generalizing tm with
  | nil => intro t; rfl
  | cons te rest ih =>
    obtain ⟨t0, e0⟩ := te
    simp only [akeys, List.map_cons, List.nodup_cons] at hnd
    obtain ⟨ht0, hndr⟩ := hnd
    intro t
    have step := ih (setKey t0 (freshRec ti e0) tm) hndr t
    by_cases htt : t0 = t
    · subst htt
      have hnone : alookup t0 rest = none :=
        alookup_eq_none_of_not_mem (by simpa [akeys] using ht0)
      rw [List.foldl_cons] at *
      rw [step, hnone]
      simp [alookup, alookup_setKey_self]
    · rw [List.foldl_cons, step]
      simp only [alookup, htt, if_false]
      cases alookup t rest <;> simp [alookup_setKey_ne htt]

/-- The single-title effect of one `processSourceData` call on `title_info`,
valid on synced states with dict-like (unique-key) title data. -/
theorem processSourceData_titleInfo_lookup {sid' sid t ti : String}
    {titleData : TitleMap} {st : AggState}
    (hsy : Synced st) (hnd : (akeys titleData).Nodup) :
    lookup2 (processSourceData sid' titleData ti st).titleInfo sid t =
      if sid' = sid then
        (match alookup t titleData with
         | none => lookup2 st.titleInfo sid t
         | some e =>
            some (match lookup2 st.titleInfo sid t with
                  | none => freshRec ti e
                  | some r => bumpRec ti e r))
      else lookup2 st.titleInfo sid t := by
  unfold processSourceData
  cases har : alookup sid' st.allResults with
  | none =>
    have hti : alookup sid' st.titleInfo = none := by
      cases h : alookup sid' st.titleInfo with
      | none => rfl
      | some tm =>
        have := (hsy.sid_iff sid').mpr (by simp [h])
        simp [har] at this
    by_cases hss : sid' = sid
    · subst hss
      simp only [lookup2, hti, Option.getD_none, alookup_setKey_self, Option.some_bind, Option.none_bind,
        if_true]
      rw [fold_fresh_spec titleData [] hnd t]
      cases alookup t titleData <;> simp
    · simp only [lookup2, alookup_setKey_ne hss, hss, if_false]
  | some sm =>
    obtain ⟨tm, hti⟩ : ∃ tm, alookup sid' st.titleInfo = some tm := by
      have := (hsy.sid_iff sid').mp (by simp [har])
      cases h : alookup sid' st.titleInfo with
      | none => simp [h] at this
      | some tm => exact ⟨tm, rfl⟩
    have hps : PairSynced sm tm := hsy.pair sid' sm tm har hti
    obtain ⟨hq, hlook⟩ := @fold_mergeTitle_spec ti titleData (sm, tm) hnd hps
    by_cases hss : sid' = sid
    · subst hss
      simp only [lookup2, hti, Option.getD_some, alookup_setKey_self, Option.some_bind, Option.none_bind,
        if_true]
      rw [(hlook t).1]
    · simp only [lookup2, alookup_setKey_ne hss, hss, if_false]

/-- One `processSourceData` call keeps the state synced. -/
theorem processSourceData_synced {sid' ti : String} {titleData : TitleMap}
    {st : AggState} (hsy : Synced st) (hnd : (akeys titleData).Nodup) :
    Synced (processSourceData sid' titleData ti st) := by
  unfold processSourceData
  cases har : alookup sid' st.allResults with
  | none =>
    have hti : alookup sid' st.titleInfo = none := by
      cases h : alookup sid' st.titleInfo with
      | none => rfl
      | some tm =>
        have := (hsy.sid_iff sid').mpr (by simp [h])
        simp [har] at this
    constructor
    · intro sid
      by_cases hss : sid' = sid
      · subst hss
        simp [alookup_setKey_self]
      · simp [alookup_setKey_ne hss, hsy.sid_iff sid]
    · intro sid sm tm hsm htm
      by_cases hss : sid' = sid
      · subst hss
        rw [alookup_setKey_self] at hsm htm
        simp only [Option.some_inj] at hsm htm
        subst hsm; subst htm
        constructor
        · intro t
          rw [hti] at *
          simp only [Option.getD_none]
          rw [fold_fresh_spec titleData [] hnd t]
          cases alookup t titleData <;> simp
        · intro t e r he hr
          rw [hti] at hr
          simp only [Option.getD_none] at hr
          rw [fold_fresh_spec titleData [] hnd t] at hr
          cases hx : alookup t titleData with
          | none => rw [hx] at hr; simp [alookup] at hr
          | some e' =>
            rw [hx] at hr
            rw [he] at hx
            simp only [Option.some_inj] at hr hx
            subst hr; subst hx
            simp [freshRec]
      · rw [alookup_setKey_ne hss] at hsm htm
        exact hsy.pair sid sm tm hsm htm
  | some sm0 =>
    obtain ⟨tm0, hti⟩ : ∃ tm0, alookup sid' st.titleInfo = some tm0 := by
      have := (hsy.sid_iff sid').mp (by simp [har])
      cases h : alookup sid' st.titleInfo with
      | none => simp [h] at this
      | some tm => exact ⟨tm, rfl⟩
    have hps : PairSynced sm0 tm0 := hsy.pair sid' sm0 tm0 har hti
    obtain ⟨hq, hlook⟩ := @fold_mergeTitle_spec ti titleData (sm0, tm0) hnd hps
    constructor
    · intro sid
      by_cases hss : sid' = sid
      · subst hss
        simp [alookup_setKey_self]
      · simp [alookup_setKey_ne hss, hsy.sid_iff sid]
    · intro sid sm tm hsm htm
      by_cases hss : sid' = sid
      · subst hss
        rw [hti] at *
        simp only [Option.getD_some] at hsm htm hq
        rw [alookup_setKey_self] at hsm htm
        simp only [Option.some_inj] at hsm htm
        subst hsm; subst htm
        exact hq
      · rw [alookup_setKey_ne hss] at hsm htm
        exact hsy.pair sid sm tm hsm htm

/-- Merging a whole snapshot keeps the state synced. -/
theorem mergeSnapshot_synced {st : AggState} {label : String} {smap : SnapData}
    (hsy : Synced st) (hwf : SnapWF smap) :
    Synced (mergeSnapshot st (label, smap)) := by
  unfold mergeSnapshot
  induction smap generalizing st with
  | nil => exact hsy
  | cons p rest ih =>
    obtain ⟨sid0, td0⟩ := p
    obtain ⟨hk, htd⟩ := hwf
    simp only [akeys, List.map_cons, List.nodup_cons] at hk
    have hnd0 : (akeys td0).Nodup := htd (sid0, td0) (List.mem_cons_self _ _)
    rw [List.foldl_cons]
    exact ih (processSourceData_synced hsy hnd0)
      ⟨hk.2, fun q hq => htd q (List.mem_cons_of_mem _ hq)⟩

/-- Single-title effect of merging one whole snapshot on `title_info`. -/
theorem mergeSnapshot_titleInfo_lookup {st : AggState} {label : String}
    {smap : SnapData} (hsy : Synced st) (hwf : SnapWF smap) (sid t : String) :
    lookup2 (mergeSnapshot st (label, smap)).titleInfo sid t =
      (match snapEntry smap sid t with
       | none => lookup2 st.titleInfo sid t
       | some e =>
          some (match lookup2 st.titleInfo sid t with
                | none => freshRec label e
                | some r => bumpRec label e r)) := by
  unfold mergeSnapshot
  induction smap generalizing st with
  | nil => rfl
  | cons p rest ih =>
    obtain ⟨sid0, td0⟩ := p
    obtain ⟨hk, htd⟩ := hwf
    simp only [akeys, List.map_cons, List.nodup_cons] at hk
    have hnd0 : (akeys td0).Nodup := htd (sid0, td0) (List.mem_cons_self _ _)
    have hsy' := @processSourceData_synced sid0 label td0 _ hsy hnd0
    rw [List.foldl_cons]
    rw [ih hsy' ⟨hk.2, fun q hq => htd q (List.mem_cons_of_mem _ hq)⟩]
    have hstep := @processSourceData_titleInfo_lookup sid0 sid t label td0 st hsy hnd0
    by_cases hss : sid0 = sid
    · subst hss
      have hrest : snapEntry rest sid0 t = none := by
        unfold snapEntry
        rw [alookup_eq_none_of_not_mem (by simpa [akeys] using hk.1)]
        rfl
      rw [hrest, hstep]
      simp only [if_true, snapEntry, alookup_cons, if_pos rfl, Option.some_bind]
    · have hhead : snapEntry ((sid0, td0) :: rest) sid t = snapEntry rest sid t := by
        unfold snapEntry
        simp [alookup, hss]
      rw [hhead, hstep, if_neg hss]

/-- The empty aggregation state is synced. -/
theorem synced_empty : Synced ⟨[], []⟩ := by
  constructor
  · intro sid; simp [alookup]
  · intro sid sm tm h1 h2; simp [alookup] at h1

/-- `mergeAll` produces a synced state. -/
theorem mergeAll_synced {snaps : List (String × SnapData)} (hwf : SnapsWF snaps) :
    Synced (mergeAll snaps) := by
  unfold mergeAll
  induction snaps using List.reverseRecOn with
  | nil => exact synced_empty
  | append_singleton init s ih =>
    rw [List.foldl_append, List.foldl_cons, List.foldl_nil]
    obtain ⟨label, smap⟩ := s
    exact mergeSnapshot_synced
      (ih (fun q hq => hwf q (List.mem_append_left _ hq)))
      (hwf (label, smap) (List.mem_append_right _ (List.mem_cons_self _ _)))

theorem pyOr_self {a : String} : pyOr a a = a := by
  unfold pyOr
  split <;> rfl

theorem mergeRanks_of_subset {ex inc : List Nat} (h : ∀ r ∈ inc, r ∈ ex) :
    mergeRanks ex inc = ex := by
  unfold mergeRanks
  induction inc with
  | nil => rfl
  | cons r rest ih =>
    rw [List.foldl_cons, if_pos (h r (List.mem_cons_self _ _))]
    exact ih (fun r' hr' => h r' (List.mem_cons_of_mem _ hr'))

/-- Claim C1: merging a sequence of snapshots in order, the `title_info`
record of any `(source-id, title)` pair has `count` equal to the number of
snapshots whose source map contains that title, `first_time` equal to the
label of the first such snapshot and `last_time` to the label of the last
such snapshot; the record is absent exactly when no snapshot contains the
title. -/
theorem count_matches_snapshot_occurrences
    (snaps : List (String × SnapData)) (hwf : SnapsWF snaps) (sid t : String) :
    (lookup2 (mergeAll snaps).titleInfo sid t = none ↔
      snaps.filter (fun s => (snapEntry s.2 sid t).isSome) = []) ∧
    (∀ r, lookup2 (mergeAll snaps).titleInfo sid t = some r →
      r.count = (snaps.filter (fun s => (snapEntry s.2 sid t).isSome)).length ∧
      (snaps.filter (fun s => (snapEntry s.2 sid t).isSome)).head?.map Prod.fst
        = some r.first_time ∧
      (snaps.filter (fun s => (snapEntry s.2 sid t).isSome)).getLast?.map Prod.fst
        = some r.last_time) := by
  induction snaps using List.reverseRecOn with
  | nil =>
    constructor
    · simp [mergeAll, lookup2, alookup]
    · intro r hr
      simp [mergeAll, lookup2, alookup] at hr
  | append_singleton init s ih =>
    obtain ⟨label, smap⟩ := s
    have hwf_init : SnapsWF init := fun q hq => hwf q (List.mem_append_left _ hq)
    have hwf_s : SnapWF smap :=
      hwf (label, smap) (List.mem_append_right _ (List.mem_cons_self _ _))
    obtain ⟨ihnone, ihsome⟩ := ih hwf_init
    have hsy : Synced (mergeAll init) := mergeAll_synced hwf_init
    have hma : mergeAll (init ++ [(label, smap)]) =
        mergeSnapshot (mergeAll init) (label, smap) := by
      unfold mergeAll
      rw [List.foldl_append, List.foldl_cons, List.foldl_nil]
    rw [hma, mergeSnapshot_titleInfo_lookup hsy hwf_s sid t, List.filter_append]
    cases hse : snapEntry smap sid t with
    | none =>
      simp only [List.filter_cons, hse, Option.isSome_none, Bool.false_eq_true,
        if_false, List.filter_nil, List.append_nil]
      exact ⟨ihnone, ihsome⟩
    | some e =>
      have hfs : List.filter (fun s => (snapEntry s.2 sid t).isSome)
          [(label, smap)] = [(label, smap)] := by
        simp [List.filter_cons, hse]
      rw [hfs]
      cases hold : lookup2 (mergeAll init).titleInfo sid t with
      | none =>
        have hempty : init.filter (fun s => (snapEntry s.2 sid t).isSome) = [] :=
          ihnone.mp hold
        rw [hempty]
        constructor
        · simp
        · intro r hr
          simp only [Option.some_inj] at hr
          subst hr
          simp [freshRec, List.nil_append]
      | some r0 =>
        obtain ⟨hcount, hfirst, hlast⟩ := ihsome r0 hold
        have hne : init.filter (fun s => (snapEntry s.2 sid t).isSome) ≠ [] := by
          intro hcon
          rw [ihnone.mpr hcon] at hold
          simp at hold
        constructor
        · constructor
          · intro hcon
            simp at hcon
          · intro hcon
            exact absurd (List.append_eq_nil.mp hcon).2 (by simp)
        · intro r hr
          simp only [Option.some_inj] at hr
          subst hr
          refine ⟨?_, ?_, ?_⟩
          · simp [bumpRec, hcount]
          · rw [List.head?_append_of_ne_nil _ hne]
            simpa [bumpRec] using hfirst
          · rw [List.getLast?_append_of_ne_nil _ (by simp)]
            simp [bumpRec]

/-- Claim C6: merging the same snapshot twice from the empty state is not
idempotent — the second merge keeps ranks, url and mobileUrl unchanged
but increments `count` to `2`, so the double merge differs from the
single merge. -/
theorem merge_twice_not_idempotent
    (label : String) (smap : SnapData) (hwf : SnapWF smap) (sid t : String)
    (e : Entry) (he : snapEntry smap sid t = some e) :
    ∃ r1 r2,
      lookup2 (mergeSnapshot ⟨[], []⟩ (label, smap)).titleInfo sid t = some r1 ∧
      lookup2 (mergeSnapshot (mergeSnapshot ⟨[], []⟩ (label, smap))
        (label, smap)).titleInfo sid t = some r2 ∧
      r1.count = 1 ∧ r2.count = 2 ∧
      r2.ranks = r1.ranks ∧ r2.url = r1.url ∧ r2.mobileUrl = r1.mobileUrl ∧
      mergeSnapshot (mergeSnapshot ⟨[], []⟩ (label, smap)) (label, smap) ≠
        mergeSnapshot ⟨[], []⟩ (label, smap) := by
  have h1 : lookup2 (mergeSnapshot ⟨[], []⟩ (label, smap)).titleInfo sid t
      = some (freshRec label e) := by
    rw [mergeSnapshot_titleInfo_lookup synced_empty hwf sid t, he]
    rfl
  have hsy1 : Synced (mergeSnapshot ⟨[], []⟩ (label, smap)) :=
    mergeSnapshot_synced synced_empty hwf
  have h2 : lookup2 (mergeSnapshot (mergeSnapshot ⟨[], []⟩ (label, smap))
      (label, smap)).titleInfo sid t
      = some (bumpRec label e (freshRec label e)) := by
    rw [mergeSnapshot_titleInfo_lookup hsy1 hwf sid t, he, h1]
  refine ⟨freshRec label e, bumpRec label e (freshRec label e), h1, h2,
    rfl, rfl, ?_, ?_, ?_, ?_⟩
  · show mergeRanks e.ranks e.ranks = e.ranks
    exact mergeRanks_of_subset (fun r hr => hr)
  · exact pyOr_self
  · exact pyOr_self
  · intro hcon
    rw [hcon, h1] at h2
    have hc := congrArg TitleInfoRec.count (Option.some_inj.mp h2)
    simp [freshRec, bumpRec] at hc

/-- Claim C8 counterexample: with equal `count`, `min(ranks)` of `[1, 10]`
is below that of `[2]`, yet its `rank_weight` (`11/2`) is smaller than
`[2]`'s (`9`) — `rank_weight` is not monotone in `min(ranks)`. -/
theorem rank_weight_not_monotone_in_min :
    pyMin [1, 10] ≤ pyMin [2] ∧ rankWeightOf [1, 10] < rankWeightOf [2] := by
  constructor
  · decide
  · norm_num [rankWeightOf, rankScore]

theorem rankScore_sum_antitone {l1 l2 : List Nat}
    (hpt : List.Forall₂ (· ≤ ·) l1 l2) :
    (l2.map rankScore).sum ≤ (l1.map rankScore).sum := by
  induction hpt with
  | nil => simp
  | @cons a b t1 t2 hab htl ih =>
    simp only [List.map_cons, List.sum_cons]
    have hsc : rankScore b ≤ rankScore a := by
      unfold rankScore
      omega
    omega

/-- Claim C8 (amended): the per-rank score is antitone, so for rank lists
of equal length that are pointwise ordered, the `rank_weight` average is
antitone. -/
theorem rank_weight_antitone_pointwise (ranks1 ranks2 : List Nat)
    (hne : ranks1 ≠ []) (hpt : List.Forall₂ (· ≤ ·) ranks1 ranks2) :
    rankWeightOf ranks2 ≤ rankWeightOf ranks1 := by
  have hlen : ranks1.length = ranks2.length := hpt.length_eq
  have hsum : (ranks2.map rankScore).sum ≤ (ranks1.map rankScore).sum :=
    rankScore_sum_antitone hpt
  unfold rankWeightOf
  rw [← hlen]
  have hpos : (0 : ℚ) < (ranks1.length : ℚ) := by
    have : 0 < ranks1.length := List.length_pos.mpr hne
    exact_mod_cast this
  rw [div_le_div_iff_of_pos_right hpos]
  exact_mod_cast hsum

/-- Claim C10: with an empty ranks list `calculate_news_weight` returns
`0` before any component is computed, and in the other branch the divisor
`len(ranks)` is nonzero, so no division by zero is reachable. -/
theorem calculateNewsWeight_empty_ranks_safe :
    (∀ (count? : Option Nat) (rt : Nat) (wc : WeightConfig),
      calculateNewsWeight [] count? rt wc = 0) ∧
    (∀ (ranks : List Nat), ranks ≠ [] → ((ranks.length : ℚ) ≠ 0)) := by
  constructor
  · intro count? rt wc
    rfl
  · intro ranks hne
    have : 0 < ranks.length := List.length_pos.mpr hne
    exact_mod_cast Nat.pos_iff_ne_zero.mp this

theorem count_matches_snapshot_occurrences_witness :
    SnapsWF snapsB ∧
    ((lookup2 (mergeAll snapsB).titleInfo "S1" "Foo" = none ↔
      snapsB.filter (fun s => (snapEntry s.2 "S1" "Foo").isSome) = []) ∧
    (∀ r, lookup2 (mergeAll snapsB).titleInfo "S1" "Foo" = some r →
      r.count = (snapsB.filter (fun s => (snapEntry s.2 "S1" "Foo").isSome)).length ∧
      (snapsB.filter (fun s => (snapEntry s.2 "S1" "Foo").isSome)).head?.map Prod.fst
        = some r.first_time ∧
      (snapsB.filter (fun s => (snapEntry s.2 "S1" "Foo").isSome)).getLast?.map Prod.fst
        = some r.last_time)) :=
  ⟨by unfold SnapsWF SnapWF akeys; decide,
   count_matches_snapshot_occurrences snapsB
    (by unfold SnapsWF SnapWF akeys; decide) "S1" "Foo"⟩

theorem merge_twice_not_idempotent_witness :
    SnapWF snapC6 ∧ snapEntry snapC6 "S1" "Foo" = some ⟨[3], "u", ""⟩ ∧
    (∃ r1 r2,
      lookup2 (mergeSnapshot ⟨[], []⟩ ("t1", snapC6)).titleInfo "S1" "Foo" = some r1 ∧
      lookup2 (mergeSnapshot (mergeSnapshot ⟨[], []⟩ ("t1", snapC6))
        ("t1", snapC6)).titleInfo "S1" "Foo" = some r2 ∧
      r1.count = 1 ∧ r2.count = 2 ∧
      r2.ranks = r1.ranks ∧ r2.url = r1.url ∧ r2.mobileUrl = r1.mobileUrl ∧
      mergeSnapshot (mergeSnapshot ⟨[], []⟩ ("t1", snapC6)) ("t1", snapC6) ≠
        mergeSnapshot ⟨[], []⟩ ("t1", snapC6)) :=
  ⟨by unfold SnapWF akeys; decide, by decide,
   merge_twice_not_idempotent "t1" snapC6 (by unfold SnapWF akeys; decide)
    "S1" "Foo" ⟨[3], "u", ""⟩ (by decide)⟩

theorem rank_weight_antitone_pointwise_witness :
    ([1, 2] : List Nat) ≠ [] ∧ List.Forall₂ (· ≤ ·) [1, 2] [3, 4] ∧
    rankWeightOf [3, 4] ≤ rankWeightOf [1, 2] :=
  ⟨by decide,
   List.Forall₂.cons (by norm_num) (List.Forall₂.cons (by norm_num) List.Forall₂.nil),
   rank_weight_antitone_pointwise [1, 2] [3, 4] (by decide)
    (List.Forall₂.cons (by norm_num) (List.Forall₂.cons (by norm_num) List.Forall₂.nil))⟩

theorem calculateNewsWeight_empty_ranks_safe_witness :
    calculateNewsWeight [] (some 3) 5 ⟨6/10, 3/10, 1/10⟩ = 0 ∧
    ([5] : List Nat) ≠ [] ∧ ((([5] : List Nat).length : ℚ) ≠ 0) :=
  ⟨calculateNewsWeight_empty_ranks_safe.1 (some 3) 5 ⟨6/10, 3/10, 1/10⟩,
   by decide,
   calculateNewsWeight_empty_ranks_safe.2 [5] (by decide)⟩

theorem find?_eq_get_of_first {α : Type} (l : List α) (p : α → Bool) (i : Nat)
    (hi : i < l.length) (hp : p (l.get ⟨i, hi⟩) = true)
    (hmin : ∀ j (hj : j < i), p (l.get ⟨j, Nat.lt_trans hj hi⟩) = false) :
    l.find? p = some (l.get ⟨i, hi⟩) := by
  induction l generalizing i with
  | nil => simp at hi
  | cons h t ih =>
    cases i with
    | zero =>
      have hp' : p h = true := hp
      rw [List.find?_cons_of_pos _ hp']
      rfl
    | succ n =>
      have h0 : p h = false := hmin 0 (Nat.succ_pos n)
      rw [List.find?_cons_of_neg _ (by simp [h0])]
      have hn : n < t.length := Nat.lt_of_succ_lt_succ hi
      exact ih n hn hp (fun j hj => hmin (j + 1) (Nat.succ_lt_succ hj))

/-- Claim C4: for a non-empty group list, `matches_word_groups` rejects on
any case-insensitive filter-word hit and otherwise succeeds exactly when
some group has all its required terms and (if non-empty) one normal term
as substrings; the classification loop assigns the title to the first
group passing those checks, even if later groups also pass. -/
theorem first_matching_group_wins (title : String) (wordGroups : List WordGroup)
    (filterWords : List String) (hne : wordGroups ≠ []) :
    (matchesWordGroups title wordGroups filterWords = true ↔
      ((∀ fw ∈ filterWords, strIn (strLower fw) (strLower title) = false) ∧
       ∃ g ∈ wordGroups,
         (∀ w ∈ g.required, strIn (strLower w) (strLower title) = true) ∧
         (g.normal ≠ [] → ∃ w ∈ g.normal, strIn (strLower w) (strLower title) = true))) ∧
    (∀ (i : Nat) (hi : i < wordGroups.length),
      groupMatchesTitle (strLower title) (wordGroups.get ⟨i, hi⟩) = true →
      (∀ (j : Nat) (hj : j < i),
        groupMatchesTitle (strLower title) (wordGroups.get ⟨j, Nat.lt_trans hj hi⟩) = false) →
      classifyTitle wordGroups title = some (wordGroups.get ⟨i, hi⟩)) := by
  constructor
  · unfold matchesWordGroups
    rw [if_neg (by simpa [List.isEmpty_iff] using hne)]
    by_cases hf : filterWords.any (fun fw => strIn (strLower fw) (strLower title)) = true
    · rw [if_pos hf]
      simp only [List.any_eq_true] at hf
      obtain ⟨fw, hfw, hhit⟩ := hf
      constructor
      · intro hcon; exact absurd hcon (by simp)
      · rintro ⟨hall, -⟩
        rw [hall fw hfw] at hhit
        simp at hhit
    · rw [if_neg hf]
      simp only [List.any_eq_true, not_exists, not_and] at hf
      constructor
      · intro hany
        simp only [List.any_eq_true] at hany
        obtain ⟨g, hg, hmatch⟩ := hany
        refine ⟨fun fw hfw => ?_, g, hg, ?_⟩
        · have := hf fw hfw
          simpa using this
        · unfold groupMatchesTitle at hmatch
          simp only [Bool.and_eq_true, Bool.or_eq_true, List.all_eq_true,
            List.any_eq_true, List.isEmpty_iff] at hmatch
          exact ⟨hmatch.1, fun hnn => hmatch.2.resolve_left hnn⟩
      · rintro ⟨-, g, hg, hreq, hnorm⟩
        simp only [List.any_eq_true]
        refine ⟨g, hg, ?_⟩
        unfold groupMatchesTitle
        simp only [Bool.and_eq_true, Bool.or_eq_true, List.all_eq_true,
          List.any_eq_true, List.isEmpty_iff]
        refine ⟨hreq, ?_⟩
        by_cases hn : g.normal = []
        · exact Or.inl hn
        · exact Or.inr (hnorm hn)
  · intro i hi hp hmin
    unfold classifyTitle
    by_cases hmode : isAllNewsMode wordGroups = true
    · have hlen : wordGroups.length = 1 := by
        unfold isAllNewsMode at hmode
        simp only [Bool.and_eq_true, beq_iff_eq] at hmode
        exact hmode.1
      have hi0 : i = 0 := by omega
      subst hi0
      apply find?_eq_get_of_first wordGroups _ 0 hi
      · simp [hmode]
      · intro j hj; omega
    · have hpred : (fun g => isAllNewsMode wordGroups || groupMatchesTitle (strLower title) g)
          = fun g => groupMatchesTitle (strLower title) g := by
        funext g
        rw [Bool.eq_false_iff.mpr hmode]
        simp
      rw [hpred]
      exact find?_eq_get_of_first wordGroups _ i hi hp hmin

theorem first_matching_group_wins_witness :
    wordGroupsC ≠ [] ∧
    groupMatchesTitle (strLower "AI芯片突破") (wordGroupsC.get ⟨0, by decide⟩) = true ∧
    ((matchesWordGroups "AI芯片突破" wordGroupsC [] = true ↔
      ((∀ fw ∈ ([] : List String), strIn (strLower fw) (strLower "AI芯片突破") = false) ∧
       ∃ g ∈ wordGroupsC,
         (∀ w ∈ g.required, strIn (strLower w) (strLower "AI芯片突破") = true) ∧
         (g.normal ≠ [] → ∃ w ∈ g.normal, strIn (strLower w) (strLower "AI芯片突破") = true))) ∧
    (∀ (i : Nat) (hi : i < wordGroupsC.length),
      groupMatchesTitle (strLower "AI芯片突破") (wordGroupsC.get ⟨i, hi⟩) = true →
      (∀ (j : Nat) (hj : j < i),
        groupMatchesTitle (strLower "AI芯片突破")
          (wordGroupsC.get ⟨j, Nat.lt_trans hj hi⟩) = false) →
      classifyTitle wordGroupsC "AI芯片突破" = some (wordGroupsC.get ⟨i, hi⟩))) :=
  ⟨by decide, by decide,
   first_matching_group_wins "AI芯片突破" wordGroupsC [] (by decide)⟩

theorem mem_setKey {k : String} {v : β} {l : List (String × β)} :
    ∀ x ∈ setKey k v l, x = (k, v) ∨ x ∈ l := by
  induction l with
  | nil => intro x hx; simp [setKey] at hx; simp [hx]
  | cons p t ih =>
    obtain ⟨a, b⟩ := p
    intro x hx
    by_cases hak : a = k
    · simp only [setKey, hak, if_pos rfl] at hx
      rcases List.mem_cons.mp hx with h | h
      · exact Or.inl h
      · exact Or.inr (List.mem_cons_of_mem _ h)
    · simp only [setKey, hak, if_false] at hx
      rcases List.mem_cons.mp hx with h | h
      · exact Or.inr (h ▸ List.mem_cons_self _ _)
      · rcases ih x h with h' | h'
        · exact Or.inl h'
        · exact Or.inr (List.mem_cons_of_mem _ h')

theorem pair_mem_of_alookup {k : String} {v : β} {l : List (String × β)}
    (h : alookup k l = some v) : (k, v) ∈ l := by
  induction l with
  | nil => simp [alookup] at h
  | cons p t ih =>
    obtain ⟨a, b⟩ := p
    by_cases hak : a = k
    · subst hak
      have hb : b = v := by simpa [alookup] using h
      subst hb
      exact List.mem_cons_self _ _
    · simp only [alookup, hak, if_false] at h
      exact List.mem_cons_of_mem _ (ih h)

theorem allRecs_appendToStat {P : MatchedTitle → Prop}
    {ws : List (String × StatAcc)} {gkey sid : String} {record : MatchedTitle}
    (hrec : P record) (h : AllRecs P ws) :
    AllRecs P (appendToStat ws gkey sid record) := by
  intro p hp q hq r hr
  unfold appendToStat at hp
  rcases mem_setKey p hp with heq | hmem
  · subst heq
    simp only at hq
    have hacc : ∀ q' ∈ ((alookup gkey ws).getD ⟨0, []⟩).titles, ∀ r' ∈ q'.2, P r' := by
      cases hl : alookup gkey ws with
      | none => simp [StatAcc.titles]
      | some acc => exact fun q' hq' r' hr' => h (gkey, acc) (pair_mem_of_alookup hl) q' hq' r' hr'
    rcases mem_setKey q hq with heq' | hmem'
    · subst heq'
      simp only at hr
      rcases List.mem_append.mp hr with htl | hrec'
      · cases hl2 : alookup sid ((alookup gkey ws).getD ⟨0, []⟩).titles with
        | none => rw [hl2] at htl; simp at htl
        | some tl =>
          rw [hl2] at htl
          exact hacc (sid, tl) (pair_mem_of_alookup hl2) r htl
      · rw [List.mem_singleton.mp hrec']
        exact hrec
    · exact hacc q hmem' r hr
  · exact h p hmem q hq r hr

theorem buildRecord_is_new_title {tiList : TitleInfoMap}
    {idToName : List (String × String)} {rt : Nat} {allNew : Bool}
    {nt : List (String × TitleMap)} {sid title : String} {tdata : Entry} :
    (buildRecord tiList idToName rt allNew nt sid title tdata).is_new
      = isNewFlag allNew nt sid title ∧
    (buildRecord tiList idToName rt allNew nt sid title tdata).title = title := by
  unfold buildRecord
  cases (if tiList.isEmpty then none else lookup2 tiList sid title) <;> exact ⟨rfl, rfl⟩

theorem isNewFlag_false_source {nt : List (String × TitleMap)} {sid title : String}
    (h : isNewFlag false nt sid title = true) :
    ∃ sid' snts, alookup sid' nt = some snts ∧ (alookup title snts).isSome = true := by
  unfold isNewFlag at h
  simp only [if_false, Bool.false_eq_true] at h
  by_cases hemp : nt.isEmpty
  · rw [if_pos hemp] at h; simp at h
  · rw [if_neg hemp] at h
    cases hl : alookup sid nt with
    | none => rw [hl] at h; simp at h
    | some s =>
      rw [hl] at h
      exact ⟨sid, s, hl, h⟩

theorem foldl_preserve {α : Type u} {σ : Type v} (P : σ → Prop) (f : σ → α → σ)
    (l : List α) (hstep : ∀ a ∈ l, ∀ s, P s → P (f s a)) :
    ∀ s, P s → P (l.foldl f s) := by
  induction l with
  | nil => exact fun s hs => hs
  | cons a t ih =>
    intro s hs
    rw [List.foldl_cons]
    exact ih (fun a' ha' s' hs' => hstep a' (List.mem_cons_of_mem _ ha') s' hs')
      (f s a) (hstep a (List.mem_cons_self _ _) s hs)

theorem allRecs_initWordStats {P : MatchedTitle → Prop} (wordGroups : List WordGroup) :
    AllRecs P (initWordStats wordGroups) := by
  unfold initWordStats
  apply foldl_preserve (AllRecs P) _ wordGroups
  · intro g hg ws hws p hp q hq r hr
    rcases mem_setKey p hp with heq | hmem
    · subst heq; simp [StatAcc.titles] at hq
    · exact hws p hmem q hq r hr
  · intro p hp q hq r hr; simp at hp

theorem allRecs_cwfStep {P : MatchedTitle → Prop} {wordGroups : List WordGroup}
    {filterWords : List String} {idToName : List (String × String)}
    {tiList : TitleInfoMap} {rt : Nat} {allNew : Bool}
    {nt : List (String × TitleMap)} {sid : String}
    (hbuild : ∀ sid' title tdata,
      P (buildRecord tiList idToName rt allNew nt sid' title tdata))
    (st : List (String × StatAcc) × List (String × List String))
    (te : String × Entry) (h : AllRecs P st.1) :
    AllRecs P (cwfStep wordGroups filterWords idToName tiList rt allNew nt sid st te).1 := by
  unfold cwfStep
  split
  · exact h
  · split
    · exact h
    · split
      · exact h
      · exact allRecs_appendToStat (hbuild sid te.1 te.2) h

theorem allRecs_cwfFold {P : MatchedTitle → Prop} {wordGroups : List WordGroup}
    {filterWords : List String} {idToName : List (String × String)}
    {tiList : TitleInfoMap} {rt : Nat} {allNew : Bool}
    {nt : List (String × TitleMap)} {rtp : List (String × TitleMap)}
    (hbuild : ∀ sid' title tdata,
      P (buildRecord tiList idToName rt allNew nt sid' title tdata)) :
    AllRecs P (cwfFold wordGroups filterWords idToName tiList rt allNew nt rtp).1.1 := by
  unfold cwfFold
  refine foldl_preserve
    (fun (acc : (List (String × StatAcc) × List (String × List String)) × Nat) =>
      AllRecs P acc.1.1)
    (fun acc p =>
      (p.2.foldl
        (cwfStep wordGroups filterWords idToName tiList rt allNew nt p.1) acc.1,
       acc.2 + p.2.length))
    rtp ?_ ((initWordStats wordGroups, []), 0) (allRecs_initWordStats wordGroups)
  intro p _ acc hacc
  exact foldl_preserve
    (fun (st : List (String × StatAcc) × List (String × List String)) =>
      AllRecs P st.1)
    (cwfStep wordGroups filterWords idToName tiList rt allNew nt p.1)
    p.2
    (fun te _ st hst => allRecs_cwfStep hbuild st te hst)
    acc.1 hacc

theorem mem_foldl_append {γ : Type u} {δ : Type v} {x : γ}
    (l : List (δ × List γ)) (acc : List γ) :
    x ∈ l.foldl (fun acc q => acc ++ q.2) acc ↔ x ∈ acc ∨ ∃ q ∈ l, x ∈ q.2 := by
  induction l generalizing acc with
  | nil => simp
  | cons p t ih =>
    rw [List.foldl_cons, ih]
    constructor
    · rintro (hx | ⟨q, hq, hx⟩)
      · rcases List.mem_append.mp hx with hx | hx
        · exact Or.inl hx
        · exact Or.inr ⟨p, List.mem_cons_self _ _, hx⟩
      · exact Or.inr ⟨q, List.mem_cons_of_mem _ hq, hx⟩
    · rintro (hx | ⟨q, hq, hx⟩)
      · exact Or.inl (List.mem_append.mpr (Or.inl hx))
      · rcases List.mem_cons.mp hq with heq | hq'
        · exact Or.inl (List.mem_append.mpr (Or.inr (heq ▸ hx)))
        · exact Or.inr ⟨q, hq', hx⟩

theorem mem_insertR {le : α → α → Bool} {x a : α} :
    ∀ l, a ∈ insertR le x l ↔ a = x ∨ a ∈ l := by
  intro l
  induction l with
  | nil => simp [insertR]
  | cons y t ih =>
    unfold insertR
    by_cases hle : le y x
    · rw [if_pos hle]
      simp only [List.mem_cons, ih]
      tauto
    · rw [if_neg hle]
      simp only [List.mem_cons]

theorem mem_sortStable {le : α → α → Bool} {l : List α} {a : α} :
    a ∈ sortStable le l ↔ a ∈ l := by
  unfold sortStable
  have key : ∀ (l : List α) (acc : List α),
      a ∈ l.foldl (fun acc x => insertR le x acc) acc ↔ a ∈ acc ∨ a ∈ l := by
    intro l
    induction l with
    | nil => simp
    | cons x t ih =>
      intro acc
      rw [List.foldl_cons, ih]
      rw [mem_insertR]
      simp only [List.mem_cons]
      tauto
  rw [key l []]
  simp

theorem buildStats_pred {P : MatchedTitle → Prop} {wc : WeightConfig} {rt total : Nat}
    {ws : List (String × StatAcc)} (h : AllRecs P ws) :
    ∀ stat ∈ buildStats wc rt total ws, ∀ r ∈ stat.titles, P r := by
  intro stat hstat r hr
  unfold buildStats at hstat
  rw [mem_sortStable] at hstat
  obtain ⟨p, hp, rfl⟩ := List.mem_map.mp hstat
  simp only at hr
  rw [mem_sortStable] at hr
  rcases (mem_foldl_append p.2.titles []).mp hr with hx | ⟨q, hq, hx⟩
  · simp at hx
  · exact h p hp q hq r hx

/-- Claim C7 (amended): in `current` mode on a run that is not the first
crawl of the day, an emitted record carries `is_new = true` only when its
title is listed in the caller-supplied `new_titles` mapping for some
source; with an empty or absent `new_titles` no record is flagged new. -/
theorem current_mode_is_new_only_from_new_titles
    (results : List (String × TitleMap)) (wordGroups0 : List WordGroup)
    (filterWords0 : List String) (idToName : List (String × String))
    (titleInfo : Option TitleInfoMap) (rankThreshold : Nat)
    (newTitles : Option (List (String × TitleMap))) (isFirstToday : Bool)
    (wc : WeightConfig) :
    ∀ stat ∈ (countWordFrequency results wordGroups0 filterWords0 idToName
        titleInfo rankThreshold newTitles "current" isFirstToday wc).1,
      ∀ r ∈ stat.titles, r.is_new = true →
        ∃ sid snts, alookup sid (newTitles.getD []) = some snts ∧
          (alookup r.title snts).isSome = true := by
  intro stat hstat r hr hnew
  have hbuild : ∀ sid' title tdata,
      (fun record : MatchedTitle => record.is_new = true →
        ∃ sid snts, alookup sid (newTitles.getD []) = some snts ∧
          (alookup record.title snts).isSome = true)
      (buildRecord (titleInfo.getD []) idToName rankThreshold false
        (newTitles.getD []) sid' title tdata) := by
    intro sid' title tdata hn
    obtain ⟨hin, hti⟩ := @buildRecord_is_new_title (titleInfo.getD []) idToName
      rankThreshold false (newTitles.getD []) sid' title tdata
    rw [hin] at hn
    rw [hti]
    exact isNewFlag_false_source hn
  exact @buildStats_pred
    (fun record : MatchedTitle => record.is_new = true →
      ∃ sid snts, alookup sid (newTitles.getD []) = some snts ∧
        (alookup record.title snts).isSome = true)
    wc rankThreshold
    ((cwfFold (if wordGroups0.isEmpty then [syntheticAllGroup] else wordGroups0)
      (if wordGroups0.isEmpty then [] else filterWords0)
      idToName (titleInfo.getD []) rankThreshold false (newTitles.getD [])
      (cwfResultsToProcess "current" isFirstToday results (newTitles.getD [])
        titleInfo)).2)
    ((cwfFold (if wordGroups0.isEmpty then [syntheticAllGroup] else wordGroups0)
      (if wordGroups0.isEmpty then [] else filterWords0)
      idToName (titleInfo.getD []) rankThreshold false (newTitles.getD [])
      (cwfResultsToProcess "current" isFirstToday results (newTitles.getD [])
        titleInfo)).1.1)
    (allRecs_cwfFold hbuild) stat hstat r hr hnew

/-- Claim C7 counterexample: in mode `current` on a non-first crawl,
`count_word_frequency` emits a record with `is_new = true` when the
caller-supplied `new_titles` contains the matched title — it is not the
case that `current` mode never flags records as new. -/
theorem current_mode_nonfirst_flags_new :
    (cOut.1.any (fun stat => stat.titles.any (fun r => r.is_new))) = true := by
  decide

theorem getD_zero_mem {α : Type u} {l : List α} {d : α} (h : 0 < l.length) :
    l.getD 0 d ∈ l := by
  cases l with
  | nil => simp at h
  | cons a t => exact List.mem_cons_self _ _

theorem current_mode_is_new_only_from_new_titles_witness :
    (cOut.1.getD 0 emptyStat ∈ cOut.1 ∧
     (cOut.1.getD 0 emptyStat).titles.getD 0 emptyMatched
        ∈ (cOut.1.getD 0 emptyStat).titles ∧
     ((cOut.1.getD 0 emptyStat).titles.getD 0 emptyMatched).is_new = true) ∧
    (∃ sid snts, alookup sid ((some cNT).getD []) = some snts ∧
      (alookup ((cOut.1.getD 0 emptyStat).titles.getD 0 emptyMatched).title
        snts).isSome = true) :=
  ⟨⟨getD_zero_mem (by decide), getD_zero_mem (by decide), by decide⟩,
   current_mode_is_new_only_from_new_titles cRes cGroups [] [] (some cTI) 5
    (some cNT) false ⟨1, 1, 1⟩ (cOut.1.getD 0 emptyStat)
    (getD_zero_mem (by decide))
    ((cOut.1.getD 0 emptyStat).titles.getD 0 emptyMatched)
    (getD_zero_mem (by decide)) (by decide)⟩

theorem alookup_filter_key {q : String → Bool} {l : List (String × γ)} {k : String} :
    alookup k (l.filter (fun p => q p.1)) = if q k then alookup k l else none := by
  induction l with
  | nil => simp
  | cons p t ih =>
    obtain ⟨a, b⟩ := p
    by_cases hq : q a
    · by_cases hak : a = k
      · subst hak
        simp [List.filter_cons, hq, alookup, ih]
      · simp [List.filter_cons, hq, alookup, hak, ih]
    · by_cases hak : a = k
      · subst hak
        simp [List.filter_cons, hq, alookup, ih]
      · simp only [List.filter_cons]
        rw [if_neg (by simpa using hq)]
        rw [ih]
        simp [alookup, hak]

theorem alookup_filterMap_keyed {l : List (String × γ)} {H : String → γ → Option δ}
    (hnd : (akeys l).Nodup) (k : String) :
    alookup k (l.filterMap (fun p => (H p.1 p.2).map (fun v => (p.1, v)))) =
      (alookup k l).bind (H k) := by
  induction l with
  | nil => simp
  | cons p t ih =>
    obtain ⟨a, b⟩ := p
    simp only [akeys, List.map_cons, List.nodup_cons] at hnd
    by_cases hak : a = k
    · subst hak
      have hnone : alookup a t = none :=
        alookup_eq_none_of_not_mem (by simpa [akeys] using hnd.1)
      cases hH : H a b with
      | none =>
        simp only [List.filterMap_cons, hH, Option.map_none']
        rw [ih hnd.2, hnone]
        simp [alookup, hH]
      | some v =>
        simp [List.filterMap_cons, hH, alookup]
    · cases hH : H a b with
      | none =>
        simp only [List.filterMap_cons, hH, Option.map_none']
        rw [ih hnd.2]
        simp [alookup, hak]
      | some v =>
        simp only [List.filterMap_cons, hH, Option.map_some']
        rw [alookup_cons, if_neg hak, ih hnd.2]
        simp [alookup, hak]

theorem alookup_isSome_of_mem_keys {l : List (String × γ)} {k : String}
    (h : k ∈ akeys l) : (alookup k l).isSome = true := by
  induction l with
  | nil => simp [akeys] at h
  | cons p t ih =>
    obtain ⟨a, b⟩ := p
    by_cases hak : a = k
    · simp [alookup, hak]
    · simp only [akeys, List.map_cons, List.mem_cons] at h
      rcases h with h | h

      · exact absurd h.symm hak
      · simp [alookup, hak, ih (by simpa [akeys] using h)]

theorem mem_addHist {h : List (String × List String)} {data : SnapData}
    {sid t : String} :
    t ∈ (alookup sid (addHist h data)).getD [] ↔
      t ∈ (alookup sid h).getD [] ∨ ∃ p ∈ data, p.1 = sid ∧ t ∈ akeys p.2 := by
  unfold addHist
  induction data generalizing h with
  | nil => simp
  | cons p rest ih =>
    obtain ⟨a, tm⟩ := p
    rw [List.foldl_cons, ih]
    by_cases hak : a = sid
    · subst hak
      rw [alookup_setKey_self]
      simp only [Option.getD_some, List.mem_append, List.mem_cons]
      constructor
      · rintro (⟨h1 | h1⟩ | ⟨q, hq, hq1, hq2⟩)
        · exact Or.inl h1
        · exact Or.inr ⟨(a, tm), Or.inl rfl, rfl, h1⟩
        · exact Or.inr ⟨q, Or.inr hq, hq1, hq2⟩
      · rintro (h1 | ⟨q, hq | hq, hq1, hq2⟩)
        · exact Or.inl (Or.inl h1)
        · subst hq; exact Or.inl (Or.inr hq2)
        · exact Or.inr ⟨q, hq, hq1, hq2⟩
    · rw [alookup_setKey_ne hak]
      constructor
      · rintro (h1 | ⟨q, hq, hq1, hq2⟩)
        · exact Or.inl h1
        · exact Or.inr ⟨q, List.mem_cons_of_mem _ hq, hq1, hq2⟩
      · rintro (h1 | ⟨q, hq, hq1, hq2⟩)
        · exact Or.inl h1
        · rcases List.mem_cons.mp hq with heq | hq'
          · exact absurd (heq ▸ hq1 : (a, tm).1 = sid) hak
          · exact Or.inr ⟨q, hq', hq1, hq2⟩

theorem mem_hist_fold {datas : List SnapData} {h0 : List (String × List String)}
    {sid t : String} :
    t ∈ (alookup sid (datas.foldl addHist h0)).getD [] ↔
      t ∈ (alookup sid h0).getD [] ∨
        ∃ d ∈ datas, ∃ p ∈ d, p.1 = sid ∧ t ∈ akeys p.2 := by
  induction datas generalizing h0 with
  | nil => simp
  | cons d rest ih =>
    rw [List.foldl_cons, ih, mem_addHist]
    constructor
    · rintro ((h1 | ⟨p, hp, hp1, hp2⟩) | ⟨d', hd', hin⟩)
      · exact Or.inl h1
      · exact Or.inr ⟨d, List.mem_cons_self _ _, p, hp, hp1, hp2⟩
      · exact Or.inr ⟨d', List.mem_cons_of_mem _ hd', hin⟩
    · rintro (h1 | ⟨d', hd', hin⟩)
      · exact Or.inl (Or.inl h1)
      · rcases List.mem_cons.mp hd' with heq | hd''
        · exact Or.inl (Or.inr (heq ▸ hin))
        · exact Or.inr ⟨d', hd'', hin⟩

theorem alookup_of_mem_nodup {l : List (String × γ)} {k : String} {v : γ}
    (hmem : (k, v) ∈ l) (hnd : (akeys l).Nodup) : alookup k l = some v := by
  induction l with
  | nil => simp at hmem
  | cons p t ih =>
    obtain ⟨a, b⟩ := p
    simp only [akeys, List.map_cons, List.nodup_cons] at hnd
    rcases List.mem_cons.mp hmem with heq | hmem'
    · obtain ⟨h1, h2⟩ := Prod.mk.injEq .. ▸ heq
      subst h1; subst h2
      simp [alookup]
    · by_cases hak : a = k
      · subst hak
        exact absurd (by simpa [akeys] using List.mem_map_of_mem Prod.fst hmem')
          hnd.1
      · simp [alookup, hak, ih hmem' hnd.2]

theorem snapEntry_isSome_iff {f : SnapData} {sid t : String}
    (hnd : (akeys f).Nodup) :
    (snapEntry f sid t).isSome = true ↔ ∃ p ∈ f, p.1 = sid ∧ t ∈ akeys p.2 := by
  constructor
  · intro h
    unfold snapEntry at h
    cases hl : alookup sid f with
    | none => rw [hl] at h; simp at h
    | some tm =>
      rw [hl] at h
      simp only [Option.some_bind] at h
      cases ht : alookup t tm with
      | none => rw [ht] at h; simp at h
      | some e =>
        exact ⟨(sid, tm), pair_mem_of_alookup hl, rfl, mem_akeys_of_alookup ht⟩
  · rintro ⟨p, hp, hp1, hp2⟩
    obtain ⟨a, tm⟩ := p
    simp only at hp1
    subst hp1
    unfold snapEntry
    rw [alookup_of_mem_nodup hp hnd]
    simpa using alookup_isSome_of_mem_keys hp2

theorem akeys_filter_nodup {l : List (String × γ)} {q : String × γ → Bool}
    (hnd : (akeys l).Nodup) : (akeys (l.filter q)).Nodup :=
  List.Nodup.sublist (List.Sublist.map Prod.fst (List.filter_sublist l)) hnd

theorem detectSourceNew_bind_lookup {hist : List (String × List String)}
    {sid t : String} {tm : TitleMap} :
    (detectSourceNew hist sid tm).bind (alookup t) =
      if t ∈ (alookup sid hist).getD [] then none else alookup t tm := by
  unfold detectSourceNew
  by_cases hisE : (tm.filter fun te => ¬ te.1 ∈ (alookup sid hist).getD []).isEmpty
  · rw [if_pos hisE]
    simp only [Option.none_bind]
    by_cases hmem : t ∈ (alookup sid hist).getD []
    · rw [if_pos hmem]
    · rw [if_neg hmem]
      have := alookup_filter_key
        (q := fun k => decide (¬ k ∈ (alookup sid hist).getD [])) (l := tm) (k := t)
      rw [List.isEmpty_iff] at hisE
      rw [hisE] at this
      simp only [alookup_nil] at this
      rw [if_pos (by simpa using hmem)] at this
      exact this
  · rw [if_neg hisE]
    simp only [Option.some_bind]
    have := alookup_filter_key
      (q := fun k => decide (¬ k ∈ (alookup sid hist).getD [])) (l := tm) (k := t)
    by_cases hmem : t ∈ (alookup sid hist).getD []
    · rw [if_pos hmem]
      rw [if_neg (by simpa using hmem)] at this
      exact this
    · rw [if_neg hmem]
      rw [if_pos (by simpa using hmem)] at this
      exact this

theorem detectCore_lookup (latest : SnapData) (earlier : List SnapData)
    (pids : Option (List String)) (hnd_latest : (akeys latest).Nodup)
    (hnd_earlier : ∀ f ∈ earlier, (akeys f).Nodup) (sid t : String) (e : Entry) :
    lookup2 (detectCore latest earlier pids) sid t = some e ↔
      ((∀ ids, pids = some ids → sid ∈ ids) ∧
       snapEntry latest sid t = some e ∧
       ∀ f ∈ earlier, snapEntry f sid t = none) := by
  have hnd_latestF : (akeys (filterByPlatform pids latest)).Nodup := by
    unfold filterByPlatform
    cases pids with
    | none => exact hnd_latest
    | some ids => exact akeys_filter_nodup hnd_latest
  unfold detectCore
  simp only [lookup2]
  rw [alookup_filterMap_keyed hnd_latestF sid, Option.bind_assoc]
  have hist_char : (∀ ids, pids = some ids → sid ∈ ids) →
      (t ∈ (alookup sid (earlier.foldl
          (fun h fdata => addHist h (filterByPlatform pids fdata)) [])).getD []
        ↔ ∃ f ∈ earlier, (snapEntry f sid t).isSome = true) := by
    intro hpass
    rw [show earlier.foldl (fun h fdata => addHist h (filterByPlatform pids fdata)) []
        = ((earlier.map (filterByPlatform pids)).foldl addHist []) from
      (List.foldl_map _ _ _ _).symm]
    rw [mem_hist_fold]
    simp only [alookup_nil, Option.getD_none, List.not_mem_nil, false_or]
    constructor
    · rintro ⟨d, hd, p, hp, hp1, hp2⟩
      obtain ⟨f, hf, rfl⟩ := List.mem_map.mp hd
      have hpf : p ∈ f := by
        unfold filterByPlatform at hp
        cases pids with
        | none => exact hp
        | some ids => exact (List.mem_filter.mp hp).1
      exact ⟨f, hf, (snapEntry_isSome_iff (hnd_earlier f hf)).mpr ⟨p, hpf, hp1, hp2⟩⟩
    · rintro ⟨f, hf, hsome⟩
      obtain ⟨p, hp, hp1, hp2⟩ := (snapEntry_isSome_iff (hnd_earlier f hf)).mp hsome
      refine ⟨filterByPlatform pids f, List.mem_map_of_mem _ hf, p, ?_, hp1, hp2⟩
      unfold filterByPlatform
      cases hpids : pids with
      | none => exact hp
      | some ids =>
        refine List.mem_filter.mpr ⟨hp, ?_⟩
        rw [hp1]
        simpa using hpass ids hpids
  have hlatestF : alookup sid (filterByPlatform pids latest) =
      (if ∀ ids, pids = some ids → sid ∈ ids then alookup sid latest else none) := by
    unfold filterByPlatform
    cases hpids : pids with
    | none => simp
    | some ids =>
      rw [alookup_filter_key (q := fun k => decide (k ∈ ids))]
      by_cases hsid : sid ∈ ids
      · rw [if_pos (by simpa using hsid), if_pos (fun ids' h => by
          injection h with h'; exact h' ▸ hsid)]
      · rw [if_neg (by simpa using hsid), if_neg (fun hall => hsid (hall ids rfl))]
  by_cases hpass : ∀ ids, pids = some ids → sid ∈ ids
  · rw [hlatestF, if_pos hpass]
    cases hsl : alookup sid latest with
    | none =>
      have hse : snapEntry latest sid t = none := by
        unfold snapEntry
        rw [hsl]
        rfl
      simp [hse]
    | some tm =>
      have hse : snapEntry latest sid t = alookup t tm := by
        unfold snapEntry
        rw [hsl]
        rfl
      simp only [Option.some_bind]
      rw [detectSourceNew_bind_lookup, hse]
      by_cases hmem : t ∈ (alookup sid (earlier.foldl
          (fun h fdata => addHist h (filterByPlatform pids fdata)) [])).getD []
      · rw [if_pos hmem]
        obtain ⟨f, hf, hsome⟩ := (hist_char hpass).mp hmem
        constructor
        · intro hcon; simp at hcon
        · rintro ⟨-, -, hall⟩
          rw [hall f hf] at hsome
          simp at hsome
      · rw [if_neg hmem]
        have hthird : ∀ f ∈ earlier, snapEntry f sid t = none := by
          intro f hf
          by_contra hcon
          exact hmem ((hist_char hpass).mpr
            ⟨f, hf, by
              cases hx : snapEntry f sid t with
              | none => exact absurd hx hcon
              | some y => simp⟩)
        constructor
        · intro h
          exact ⟨hpass, h, hthird⟩
        · rintro ⟨-, h, -⟩
          exact h
  · rw [hlatestF, if_neg hpass]
    simp only [Option.none_bind]
    constructor
    · intro hcon; simp at hcon
    · rintro ⟨hp, -, -⟩
      exact absurd hp hpass

/-- Claim C5: with fewer than two snapshot files `detect_latest_new_titles`
returns the empty mapping; with at least two, the result contains exactly
the `(source-id, title)` pairs (with the latest snapshot's entry) that
pass the platform filter, appear in the chronologically last snapshot,
and whose title appears in none of the earlier snapshots for the same
source id. -/
theorem detect_latest_new_titles_spec (files : List SnapData)
    (pids : Option (List String)) (hnd : ∀ f ∈ files, (akeys f).Nodup) :
    (files.length < 2 → detectLatestNewTitles files pids = []) ∧
    (2 ≤ files.length → ∀ latest, files.getLast? = some latest →
      ∀ sid t e,
        (lookup2 (detectLatestNewTitles files pids) sid t = some e ↔
          ((∀ ids, pids = some ids → sid ∈ ids) ∧
           snapEntry latest sid t = some e ∧
           ∀ f ∈ files.dropLast, snapEntry f sid t = none))) := by
  constructor
  · intro h
    unfold detectLatestNewTitles
    rw [if_pos h]
  · intro h2 latest hlast sid t e
    have hlatest_mem : latest ∈ files := List.mem_of_mem_getLast? (by simp [hlast])
    have hgoal : detectLatestNewTitles files pids = detectCore latest files.dropLast pids := by
      unfold detectLatestNewTitles
      rw [if_neg (by omega), hlast]
    rw [hgoal]
    exact detectCore_lookup latest files.dropLast pids (hnd latest hlatest_mem)
      (fun f hf => hnd f ((List.dropLast_sublist files).subset hf)) sid t e

theorem detect_latest_new_titles_spec_witness :
    (∀ f ∈ dFiles, (akeys f).Nodup) ∧
    ((dFiles.length < 2 → detectLatestNewTitles dFiles none = []) ∧
     (2 ≤ dFiles.length → ∀ latest, dFiles.getLast? = some latest →
      ∀ sid t e,
        (lookup2 (detectLatestNewTitles dFiles none) sid t = some e ↔
          ((∀ ids, (none : Option (List String)) = some ids → sid ∈ ids) ∧
           snapEntry latest sid t = some e ∧
           ∀ f ∈ dFiles.dropLast, snapEntry f sid t = none)))) :=
  ⟨by decide, detect_latest_new_titles_spec dFiles none (by decide)⟩

/-! ### Occurrence lemmas for the substring scan -/
theorem isPrefixOf_append_self {l b : List Char} : l.isPrefixOf (l ++ b) = true := by
  induction l with
  | nil => simp [List.isPrefixOf]
  | cons c t ih => simp [List.isPrefixOf, ih]

theorem subIn_of_prefix {sep l : List Char} (h : sep.isPrefixOf l = true) :
    subIn sep l = true := by
  cases l with
  | nil => simpa [subIn] using h
  | cons c t => simp [subIn, h]

theorem subIn_cons_of {sep t : List Char} (c : Char) (h : subIn sep t = true) :
    subIn sep (c :: t) = true := by
  simp [subIn, h]

theorem subIn_append_mid (sep x y : List Char) :
    subIn sep (x ++ sep ++ y) = true := by
  induction x with
  | nil => exact subIn_of_prefix isPrefixOf_append_self
  | cons c t ih => exact subIn_cons_of c ih

theorem prefix_of_isPrefixOf {p l : List Char} (h : p.isPrefixOf l = true) :
    ∃ w, l = p ++ w := by
  induction p generalizing l with
  | nil => exact ⟨l, rfl⟩
  | cons a p' ih =>
    cases l with
    | nil => simp [List.isPrefixOf] at h
    | cons b l' =>
      simp only [List.isPrefixOf, Bool.and_eq_true, beq_iff_eq] at h
      obtain ⟨w, hw⟩ := ih h.2
      exact ⟨w, by simp [h.1, hw]⟩

theorem subIn_infix_mono {sep sep' l : List Char} (u v : List Char)
    (hdecomp : sep = u ++ sep' ++ v) (h : subIn sep l = true) :
    subIn sep' l = true := by
  induction l with
  | nil =>
    simp only [subIn] at h ⊢
    obtain ⟨w, hw⟩ := prefix_of_isPrefixOf h
    have : sep = [] := by
      cases sep with
      | nil => rfl
      | cons a b => simp at hw
    rw [this] at hdecomp
    have : sep' = [] := by
      rcases List.append_eq_nil.mp hdecomp.symm with ⟨h1, -⟩
      exact (List.append_eq_nil.mp h1).2
    simp [this, List.isPrefixOf]
  | cons c t ih =>
    simp only [subIn, Bool.or_eq_true] at h
    rcases h with h | h
    · obtain ⟨w, hw⟩ := prefix_of_isPrefixOf h
      rw [hdecomp] at hw
      have : c :: t = u ++ sep' ++ (v ++ w) := by simp [hw]
      rw [this]
      exact subIn_append_mid sep' u (v ++ w)
    · exact subIn_cons_of c (ih h)

theorem subIn_char_mem {sep l : List Char} (h : subIn sep l = true) :
    ∀ c ∈ sep, c ∈ l := by
  induction l with
  | nil =>
    intro c hc
    simp only [subIn] at h
    obtain ⟨w, hw⟩ := prefix_of_isPrefixOf h
    cases sep with
    | nil => simp at hc
    | cons a b => simp at hw
  | cons d t ih =>
    intro c hc
    simp only [subIn, Bool.or_eq_true] at h
    rcases h with h | h
    · obtain ⟨w, hw⟩ := prefix_of_isPrefixOf h
      rw [hw]
      exact List.mem_append_left _ hc
    · exact List.mem_cons_of_mem _ (ih h c hc)

theorem noPair_correct {a b : Char} {l : List Char} (h : noPair a b l = true) :
    subIn [a, b] l = false := by
  induction l with
  | nil => rfl
  | cons c t ih =>
    cases t with
    | nil =>
      simp [subIn, List.isPrefixOf]
    | cons d t' =>
      simp only [noPair, Bool.and_eq_true, Bool.not_eq_true', Bool.and_eq_false_iff] at h
      have ht := ih h.2
      have hstep : subIn [a, b] (c :: d :: t') =
          ([a, b].isPrefixOf (c :: d :: t') || subIn [a, b] (d :: t')) := rfl
      rw [hstep, ht, Bool.or_false]
      simp only [List.isPrefixOf, Bool.and_eq_false_iff]
      rcases h.1 with h1 | h1
      · apply Or.inl
        simp only [beq_eq_false_iff_ne, ne_eq] at h1 ⊢
        exact fun hh => h1 hh.symm
      · apply Or.inr
        apply Or.inl
        simp only [beq_eq_false_iff_ne, ne_eq] at h1 ⊢
        exact fun hh => h1 hh.symm

theorem noPair_append {a b : Char} {u v : List Char}
    (hu : noPair a b u = true) (hv : noPair a b v = true)
    (hj : ∀ x y, u.getLast? = some x → v.head? = some y → ¬(x = a ∧ y = b)) :
    noPair a b (u ++ v) = true := by
  induction u with
  | nil => simpa using hv
  | cons c t ih =>
    cases t with
    | nil =>
      cases v with
      | nil => simpa using hu
      | cons d v' =>
        have hcd : ¬(c = a ∧ d = b) := hj c d rfl rfl
        simp only [List.singleton_append, noPair, Bool.and_eq_true,
          Bool.not_eq_true', Bool.and_eq_false_iff]
        constructor
        · by_cases hca : c = a
          · exact Or.inr (by simpa [hca] using fun hdb => hcd ⟨hca, hdb⟩)
          · exact Or.inl (by simpa using hca)
        · exact hv
    | cons d t' =>
      simp only [noPair, Bool.and_eq_true, Bool.not_eq_true', Bool.and_eq_false_iff] at hu
      have := ih hu.2 (fun x y hx hy => hj x y (by simpa using hx) hy)
      simp only [List.cons_append, noPair, Bool.and_eq_true, Bool.not_eq_true',
        Bool.and_eq_false_iff]
      exact ⟨hu.1, by simpa using this⟩

theorem noPair_of_not_first {a b : Char} {l : List Char}
    (h : ∀ c ∈ l, ¬ c = a) : noPair a b l = true := by
  induction l with
  | nil => rfl
  | cons c t ih =>
    cases t with
    | nil => rfl
    | cons d t' =>
      simp only [noPair, Bool.and_eq_true, Bool.not_eq_true', Bool.and_eq_false_iff]
      exact ⟨Or.inl (by simpa using h c (List.mem_cons_self _ _)),
        ih (fun c' hc' => h c' (List.mem_cons_of_mem _ hc'))⟩

theorem noPair_of_not_second {a b : Char} {l : List Char}
    (h : ∀ c ∈ l, ¬ c = b) : noPair a b l = true := by
  induction l with
  | nil => rfl
  | cons c t ih =>
    cases t with
    | nil => rfl
    | cons d t' =>
      simp only [noPair, Bool.and_eq_true, Bool.not_eq_true', Bool.and_eq_false_iff]
      exact ⟨Or.inr (by simpa using h d (List.mem_cons_of_mem _ (List.mem_cons_self _ _))),
        ih (fun c' hc' => h c' (List.mem_cons_of_mem _ hc'))⟩

theorem subIn_pair_false {a b : Char} {sep l : List Char} (u v : List Char)
    (hdecomp : sep = u ++ [a, b] ++ v) (h : noPair a b l = true) :
    subIn sep l = false := by
  cases hx : subIn sep l with
  | false => rfl
  | true =>
    have := subIn_infix_mono u v hdecomp hx
    rw [noPair_correct h] at this
    exact absurd this (by simp)

/-! ### Split lemmas -/
theorem isPrefixOf_append_of_le {p x y : List Char} (hlen : p.length ≤ x.length) :
    p.isPrefixOf (x ++ y) = p.isPrefixOf x := by
  induction p generalizing x with
  | nil => simp [List.isPrefixOf]
  | cons a p' ih =>
    cases x with
    | nil => simp at hlen
    | cons b x' =>
      show (a == b && p'.isPrefixOf (x' ++ y)) = (a == b && p'.isPrefixOf x')
      rw [ih (Nat.le_of_succ_le_succ hlen)]

theorem splitGo_fuel_eq {s0 : Char} {st : List Char} :
    ∀ f1 f2 l, l.length ≤ f1 → l.length ≤ f2 →
      splitGo s0 st f1 l = splitGo s0 st f2 l := by
  intro f1
  induction f1 with
  | zero =>
    intro f2 l h1 h2
    have : l = [] := List.eq_nil_of_length_eq_zero (Nat.le_zero.mp h1)
    subst this
    cases f2 <;> rfl
  | succ f1' ih =>
    intro f2 l h1 h2
    cases l with
    | nil => cases f2 <;> rfl
    | cons c rest =>
      cases f2 with
      | zero => simp at h2
      | succ f2' =>
        simp only [splitGo]
        by_cases hp : (s0 :: st).isPrefixOf (c :: rest) = true
        · rw [if_pos hp, if_pos hp]
          have hdrop : (rest.drop st.length).length ≤ f1' := by
            have := List.length_drop st.length rest
            simp only [List.length_cons] at h1
            omega
          have hdrop2 : (rest.drop st.length).length ≤ f2' := by
            have := List.length_drop st.length rest
            simp only [List.length_cons] at h2
            omega
          rw [ih f2' _ hdrop hdrop2]
        · rw [if_neg hp, if_neg hp]
          have hr1 : rest.length ≤ f1' := by simp only [List.length_cons] at h1; omega
          have hr2 : rest.length ≤ f2' := by simp only [List.length_cons] at h2; omega
          rw [ih f2' rest hr1 hr2]

theorem splitGo_no_sep {s0 : Char} {st : List Char} :
    ∀ fuel l, l.length ≤ fuel → subIn (s0 :: st) l = false →
      splitGo s0 st fuel l = [l] := by
  intro fuel
  induction fuel with
  | zero =>
    intro l hl _
    cases l with
    | nil => rfl
    | cons c r => simp at hl
  | succ f ih =>
    intro l hl hs
    cases l with
    | nil => rfl
    | cons c rest =>
      simp only [subIn, Bool.or_eq_false_iff] at hs
      simp only [splitGo]
      rw [if_neg (by simp [hs.1])]
      rw [ih rest (by simp only [List.length_cons] at hl; omega) hs.2]

theorem pySplitL_no_sep {s0 : Char} {st l : List Char}
    (h : subIn (s0 :: st) l = false) : pySplitL (s0 :: st) l = [l] :=
  splitGo_no_sep l.length l (Nat.le_refl _) h

theorem dropLast_append_getLast {sep : List Char} :
    ∀ c, sep.getLast? = some c → sep = sep.dropLast ++ [c] := by
  intro c hc
  conv_lhs => rw [← List.dropLast_append_getLast? c hc]

theorem splitGo_append {s0 : Char} {st b : List Char} :
    ∀ a fuel, subIn (s0 :: st) (a ++ (s0 :: st).dropLast) = false →
      (a ++ (s0 :: st) ++ b).length ≤ fuel →
      splitGo s0 st fuel (a ++ (s0 :: st) ++ b) = a :: splitGo s0 st b.length b := by
  intro a
  induction a with
  | nil =>
    intro fuel ha hlen
    cases fuel with
    | zero => simp at hlen
    | succ f =>
      show splitGo s0 st (f + 1) (s0 :: (st ++ b)) = [] :: splitGo s0 st b.length b
      simp only [splitGo]
      rw [if_pos (show (s0 :: st).isPrefixOf (s0 :: (st ++ b)) = true from
        isPrefixOf_append_self)]
      rw [List.drop_left st b]
      refine congrArg (List.cons []) (splitGo_fuel_eq f b.length b ?_ (Nat.le_refl _))
      simp only [List.length_append, List.length_cons] at hlen
      omega
  | cons c a' ih =>
    intro fuel ha hlen
    rw [List.cons_append] at ha
    have hsub : subIn (s0 :: st) (a' ++ (s0 :: st).dropLast) = false := by
      cases hx : subIn (s0 :: st) (a' ++ (s0 :: st).dropLast) with
      | false => rfl
      | true =>
        rw [subIn_cons_of c hx] at ha
        exact absurd ha (by simp)
    have hpf : (s0 :: st).isPrefixOf (c :: (a' ++ (s0 :: st) ++ b)) = false := by
      cases hx : (s0 :: st).isPrefixOf (c :: (a' ++ (s0 :: st) ++ b)) with
      | false => rfl
      | true =>
        obtain ⟨last, hlast⟩ : ∃ lc, (s0 :: st).getLast? = some lc := by
          cases hll : (s0 :: st).getLast? with
          | none => simp [List.getLast?_eq_none_iff] at hll
          | some lc => exact ⟨lc, rfl⟩
        have hdecomp : c :: (a' ++ (s0 :: st) ++ b)
            = (c :: (a' ++ (s0 :: st).dropLast)) ++ ([last] ++ b) := by
          conv_lhs => rw [dropLast_append_getLast last hlast]
          simp
        rw [hdecomp] at hx
        have hlen2 : (s0 :: st).length ≤ (c :: (a' ++ (s0 :: st).dropLast)).length := by
          simp only [List.length_append, List.length_cons, List.length_dropLast]
          omega
        rw [isPrefixOf_append_of_le hlen2] at hx
        have hocc := subIn_of_prefix hx
        rw [hocc] at ha
        exact absurd ha (by simp)
    cases fuel with
    | zero => simp at hlen
    | succ f =>
      show splitGo s0 st (f + 1) (c :: (a' ++ (s0 :: st) ++ b))
          = (c :: a') :: splitGo s0 st b.length b
      simp only [splitGo]
      rw [if_neg (by rw [hpf]; simp)]
      rw [ih f hsub (by simp only [List.length_cons, List.length_append] at hlen ⊢; omega)]

theorem pySplitL_append {s0 : Char} {st a b : List Char}
    (ha : subIn (s0 :: st) (a ++ (s0 :: st).dropLast) = false) :
    pySplitL (s0 :: st) (a ++ (s0 :: st) ++ b) = a :: pySplitL (s0 :: st) b :=
  splitGo_append a _ ha (Nat.le_refl _)

theorem splitFirst_append {s0 : Char} {st b : List Char} :
    ∀ a, subIn (s0 :: st) (a ++ (s0 :: st).dropLast) = false →
      splitFirst (s0 :: st) (a ++ (s0 :: st) ++ b) = some (a, b) := by
  intro a
  induction a with
  | nil =>
    intro _
    show splitFirst (s0 :: st) (s0 :: (st ++ b)) = some ([], b)
    simp only [splitFirst]
    rw [if_pos (show (s0 :: st).isPrefixOf (s0 :: (st ++ b)) = true from
      isPrefixOf_append_self)]
    refine congrArg some (Prod.ext rfl ?_)
    show (st ++ b).drop st.length = b
    exact List.drop_left st b
  | cons c a' ih =>
    intro ha
    rw [List.cons_append] at ha
    have hsub : subIn (s0 :: st) (a' ++ (s0 :: st).dropLast) = false := by
      cases hx : subIn (s0 :: st) (a' ++ (s0 :: st).dropLast) with
      | false => rfl
      | true =>
        rw [subIn_cons_of c hx] at ha
        exact absurd ha (by simp)
    have hpf : (s0 :: st).isPrefixOf (c :: (a' ++ (s0 :: st) ++ b)) = false := by
      cases hx : (s0 :: st).isPrefixOf (c :: (a' ++ (s0 :: st) ++ b)) with
      | false => rfl
      | true =>
        obtain ⟨last, hlast⟩ : ∃ lc, (s0 :: st).getLast? = some lc := by
          cases hll : (s0 :: st).getLast? with
          | none => simp [List.getLast?_eq_none_iff] at hll
          | some lc => exact ⟨lc, rfl⟩
        have hdecomp : c :: (a' ++ (s0 :: st) ++ b)
            = (c :: (a' ++ (s0 :: st).dropLast)) ++ ([last] ++ b) := by
          conv_lhs => rw [dropLast_append_getLast last hlast]
          simp
        rw [hdecomp] at hx
        have hlen2 : (s0 :: st).length ≤ (c :: (a' ++ (s0 :: st).dropLast)).length := by
          simp only [List.length_append, List.length_cons, List.length_dropLast]
          omega
        rw [isPrefixOf_append_of_le hlen2] at hx
        have hocc := subIn_of_prefix hx
        rw [hocc] at ha
        exact absurd ha (by simp)
    show splitFirst (s0 :: st) (c :: (a' ++ (s0 :: st) ++ b)) = some (c :: a', b)
    simp only [splitFirst]
    rw [if_neg (by rw [hpf]; simp)]
    rw [ih hsub]
    rfl

theorem splitLast_eq_none {sep l : List Char}
    (h : subIn sep l = false) : splitLast sep l = none := by
  induction l with
  | nil => rfl
  | cons c rest ih =>
    simp only [subIn, Bool.or_eq_false_iff] at h
    simp only [splitLast]
    rw [ih h.2]
    rw [if_neg (by simp [h.1])]

theorem splitLast_append {s0 : Char} {st b : List Char}
    (hb : subIn (s0 :: st) (st ++ b) = false) :
    ∀ a, splitLast (s0 :: st) (a ++ (s0 :: st) ++ b) = some (a, b) := by
  intro a
  induction a with
  | nil =>
    show splitLast (s0 :: st) (s0 :: (st ++ b)) = some ([], b)
    simp only [splitLast]
    rw [splitLast_eq_none hb]
    rw [if_pos (show (s0 :: st).isPrefixOf (s0 :: (st ++ b)) = true from
      isPrefixOf_append_self)]
    refine congrArg some (Prod.ext rfl ?_)
    show (st ++ b).drop st.length = b
    exact List.drop_left st b
  | cons c a' ih =>
    show splitLast (s0 :: st) (c :: (a' ++ (s0 :: st) ++ b)) = some (c :: a', b)
    simp only [splitLast]
    rw [ih]

/-! ### Character and strip lemmas -/
theorem length_dropWhile_le (p : Char → Bool) (l : List Char) :
    (l.dropWhile p).length ≤ l.length := by
  induction l with
  | nil => simp
  | cons c r ih =>
    rw [List.dropWhile_cons]
    by_cases h : p c
    · rw [if_pos h]
      exact Nat.le_trans ih (Nat.le_succ _)
    · rw [if_neg h]

theorem subIn_false_of_not_mem {sep l : List Char} {c : Char}
    (hc : c ∈ sep) (hl : c ∉ l) : subIn sep l = false := by
  cases hx : subIn sep l with
  | false => rfl
  | true => exact absurd (subIn_char_mem hx c hc) hl

theorem dropWhile_eq_self_of_head {p : Char → Bool} {l : List Char}
    (h : ∀ c, l.head? = some c → p c = false) : l.dropWhile p = l := by
  cases l with
  | nil => rfl
  | cons c t => simp [List.dropWhile_cons, h c rfl]

theorem head_false_of_dropWhile_eq_self {p : Char → Bool} {l : List Char}
    (h : l.dropWhile p = l) : ∀ c, l.head? = some c → p c = false := by
  intro c hc
  cases l with
  | nil => simp at hc
  | cons d t =>
    have hd : d = c := by simpa using hc
    subst hd
    cases hp : p d with
    | false => rfl
    | true =>
      rw [List.dropWhile_cons, if_pos hp] at h
      have := length_dropWhile_le p t
      rw [h] at this
      simp at this

theorem pyStripL_eq_self_of {l : List Char}
    (h1 : l.dropWhile pyIsSpace = l)
    (h2 : l.reverse.dropWhile pyIsSpace = l.reverse) : pyStripL l = l := by
  unfold pyStripL
  rw [h1, h2, List.reverse_reverse]

theorem pyStripL_self_parts {l : List Char} (h : pyStripL l = l) :
    l.dropWhile pyIsSpace = l ∧ l.reverse.dropWhile pyIsSpace = l.reverse := by
  unfold pyStripL at h
  have hlen1 := length_dropWhile_le pyIsSpace l
  have hlen2 := length_dropWhile_le pyIsSpace (l.dropWhile pyIsSpace).reverse
  have hlenh : (((l.dropWhile pyIsSpace).reverse.dropWhile pyIsSpace).reverse).length
      = l.length := by rw [h]
  simp only [List.length_reverse] at hlen2 hlenh
  have hA : (l.dropWhile pyIsSpace).length = l.length := by omega
  have hAeq : l.dropWhile pyIsSpace = l := by
    cases l with
    | nil => rfl
    | cons c t =>
      cases hp : pyIsSpace c with
      | false => simp [List.dropWhile_cons, hp]
      | true =>
        rw [List.dropWhile_cons, if_pos hp] at hA
        have := length_dropWhile_le pyIsSpace t
        simp only [List.length_cons] at hA
        omega
  refine ⟨hAeq, ?_⟩
  rw [hAeq] at h
  have := congrArg List.reverse h
  rwa [List.reverse_reverse] at this

theorem stripStable_head {l : List Char} (h : pyStripL l = l) :
    ∀ c, l.head? = some c → pyIsSpace c = false :=
  head_false_of_dropWhile_eq_self (pyStripL_self_parts h).1

theorem stripStable_last {l : List Char} (h : pyStripL l = l) :
    ∀ c, l.getLast? = some c → pyIsSpace c = false := by
  intro c hc
  refine head_false_of_dropWhile_eq_self (pyStripL_self_parts h).2 c ?_
  rw [List.head?_reverse, hc]

theorem pyStripL_eq_self_of_ends {l : List Char}
    (h1 : ∀ c, l.head? = some c → pyIsSpace c = false)
    (h2 : ∀ c, l.getLast? = some c → pyIsSpace c = false) : pyStripL l = l := by
  refine pyStripL_eq_self_of (dropWhile_eq_self_of_head h1)
    (dropWhile_eq_self_of_head ?_)
  intro c hc
  rw [List.head?_reverse] at hc
  exact h2 c hc

/-! ### Decimal printing and parsing lemmas -/
theorem digitChar_val {d : Nat} (h : d < 10) : (digitChar d).val.toNat = 48 + d := by
  interval_cases d <;> decide

theorem digitChar_isDigit {d : Nat} (h : d < 10) : (digitChar d).isDigit = true := by
  interval_cases d <;> decide

theorem isDigit_val {c : Char} (h : c.isDigit = true) :
    48 ≤ c.val.toNat ∧ c.val.toNat ≤ 57 := by
  simp only [Char.isDigit, Bool.and_eq_true, decide_eq_true_eq] at h
  exact ⟨h.1, h.2⟩

theorem isDigit_ne {c : Char} (h : c.isDigit = true) {d : Char}
    (hd : d.val.toNat < 48 ∨ 57 < d.val.toNat) : c ≠ d := by
  obtain ⟨h1, h2⟩ := isDigit_val h
  intro hcd
  subst hcd
  omega

theorem pyIsSpace_of_isDigit {c : Char} (h : c.isDigit = true) :
    pyIsSpace c = false := by
  obtain ⟨h1, h2⟩ := isDigit_val h
  cases hsp : pyIsSpace c with
  | false => rfl
  | true =>
    exfalso
    simp only [pyIsSpace, Bool.or_eq_true, decide_eq_true_eq] at hsp
    rcases hsp with ((((hc | hc) | hc) | hc) | hc) | hc
    · subst hc
      exact absurd h1 (by decide)
    · subst hc
      exact absurd h1 (by decide)
    · subst hc
      exact absurd h1 (by decide)
    · subst hc
      exact absurd h1 (by decide)
    · omega
    · omega

theorem natDigitsAux_spec : ∀ fuel n, n < fuel →
    natDigitsAux fuel n ≠ [] ∧
    (∀ c ∈ natDigitsAux fuel n, c.isDigit = true) ∧
    parseNatL (natDigitsAux fuel n) = n := by
  intro fuel
  induction fuel with
  | zero => intro n h; omega
  | succ f ih =>
    intro n h
    by_cases hn : n < 10
    · refine ⟨by simp [natDigitsAux, hn], ?_, ?_⟩
      · intro c hc
        simp only [natDigitsAux, if_pos hn, List.mem_singleton] at hc
        subst hc
        exact digitChar_isDigit hn
      · simp only [natDigitsAux, if_pos hn, parseNatL, List.foldl_cons, List.foldl_nil]
        rw [digitChar_val hn]
        omega
    · have hge : 10 ≤ n := Nat.le_of_not_lt hn
      have hdiv : n / 10 < f := by
        have h1 : n / 10 < n := Nat.div_lt_self (by omega) (by omega)
        omega
      obtain ⟨hne, hall, hval⟩ := ih (n / 10) hdiv
      simp only [natDigitsAux, if_neg hn]
      refine ⟨by simp, ?_, ?_⟩
      · intro c hc
        rw [List.mem_append] at hc
        rcases hc with hc | hc
        · exact hall c hc
        · rw [List.mem_singleton] at hc
          subst hc
          exact digitChar_isDigit (Nat.mod_lt n (by omega))
      · unfold parseNatL
        rw [List.foldl_append]
        simp only [List.foldl_cons, List.foldl_nil]
        unfold parseNatL at hval
        rw [hval, digitChar_val (Nat.mod_lt n (by omega))]
        have := Nat.div_add_mod n 10
        omega

theorem natToStr_digits (n : Nat) :
    (natToStr n).data ≠ [] ∧ (∀ c ∈ (natToStr n).data, c.isDigit = true) ∧
    parseNatL (natToStr n).data = n :=
  natDigitsAux_spec (n + 1) n (Nat.lt_succ_self n)

theorem isDigits_natToStr (n : Nat) : isDigits (natToStr n).data = true := by
  obtain ⟨hne, hall, -⟩ := natToStr_digits n
  cases hd : (natToStr n).data with
  | nil => exact absurd hd hne
  | cons c t =>
    rw [hd] at hall
    simp only [isDigits, List.isEmpty_cons, Bool.not_false, Bool.true_and,
      List.all_eq_true]
    exact fun x hx => hall x hx

/-! ### Occurrence facts for the written line shapes -/
theorem getLast?_ne_of_not_mem {l : List Char} {a : Char} (h : a ∉ l) :
    ∀ x, l.getLast? = some x → x ≠ a :=
  fun _ hx hxa => h (hxa ▸ List.mem_of_mem_getLast? hx)

theorem noPair_append_lastne {a b : Char} {u v : List Char}
    (hu : noPair a b u = true) (hv : noPair a b v = true)
    (hx : ∀ x, u.getLast? = some x → x ≠ a) : noPair a b (u ++ v) = true :=
  noPair_append hu hv (fun x _ hgx _ hxy => hx x hgx hxy.1)

theorem noPair_append_headne {a b : Char} {u v : List Char}
    (hu : noPair a b u = true) (hv : noPair a b v = true)
    (hy : ∀ y, v.head? = some y → y ≠ b) : noPair a b (u ++ v) = true :=
  noPair_append hu hv (fun _ y _ hhy hxy => hy y hhy hxy.2)

theorem subIn_rank_dot (r : Nat) :
    subIn ['.', ' '] ((natToStr r).data ++ ['.']) = false := by
  have hall := (natToStr_digits r).2.1
  refine subIn_pair_false [] [] rfl ?_
  refine noPair_append_headne (noPair_of_not_first ?_) rfl ?_
  · intro c hc
    exact isDigit_ne (hall c hc) (by decide)
  · intro y hy
    have hy' : y = '.' := by simpa using hy.symm
    rw [hy']
    decide

theorem subIn_space_bracket {sep restc : List Char} (x : List Char)
    (hsep : sep = [' ', '['] ++ restc) (hrest : '[' ∉ restc) (hx : '[' ∉ x) :
    subIn sep ('[' :: (restc ++ x)) = false := by
  refine subIn_pair_false [] restc hsep ?_
  refine noPair_append_lastne (u := ['[']) (v := restc ++ x) rfl
    (noPair_of_not_second ?_) ?_
  · intro c hc
    rw [List.mem_append] at hc
    rcases hc with hc | hc
    · exact fun h => hrest (h ▸ hc)
    · exact fun h => hx (h ▸ hc)
  · intro p hp
    have hp' : p = '[' := by simpa using hp.symm
    rw [hp']
    decide

theorem subIn_mobile_in_url {T U : List Char} (ht : '[' ∉ T) (hu : '[' ∉ U) :
    subIn [' ', '[', 'M', 'O', 'B', 'I', 'L', 'E', ':']
      (T ++ ([' ', '[', 'U', 'R', 'L', ':'] ++ (U ++ [']']))) = false := by
  refine subIn_pair_false [' '] ['O', 'B', 'I', 'L', 'E', ':'] rfl ?_
  refine noPair_append_lastne (noPair_of_not_first ?_) ?_
    (getLast?_ne_of_not_mem ht)
  · intro c hc h
    exact ht (h ▸ hc)
  · refine noPair_append_lastne (by decide) ?_ ?_
    · refine noPair_append_headne (noPair_of_not_first ?_) rfl ?_
      · intro c hc h
        exact hu (h ▸ hc)
      · intro y hy
        have hy' : y = ']' := by simpa using hy.symm
        rw [hy']
        decide
    · intro p hp
      have hp' : p = ':' := by simpa using hp.symm
      rw [hp']
      decide

/-! ### The written-line round trip -/
theorem data_ne_nil_of_ne_empty {s : String} (h : s ≠ "") : s.data ≠ [] :=
  fun hd => h (String.ext hd)

theorem ne_nil_append_right {l₁ l₂ : List Char} (h : l₂ ≠ []) : l₁ ++ l₂ ≠ [] := by
  intro hc
  exact h (List.append_eq_nil.mp hc).2

theorem getLast?_append_right {l₁ l₂ : List Char} (h : l₂ ≠ []) :
    (l₁ ++ l₂).getLast? = l₂.getLast? := List.getLast?_append_of_ne_nil _ h

theorem strip_ends_aux {D S2 X : List Char} (hDne : D ≠ [])
    (hhead : ∀ c, D.head? = some c → pyIsSpace c = false)
    (hlast : ∀ c, ((D ++ S2) ++ X).getLast? = some c → pyIsSpace c = false) :
    pyStripL ((D ++ S2) ++ X) = (D ++ S2) ++ X := by
  apply pyStripL_eq_self_of_ends
  · intro c hc
    rw [List.append_assoc, List.head?_append_of_ne_nil _ hDne] at hc
    exact hhead c hc
  · exact hlast

theorem parseTitleLine_saveLine (r : Nat) (t u m : String)
    (ht : GoodTitleStr t) (hu : GoodText u) (hm : GoodText m) :
    parseTitleLine (saveLine r t u m) = (t, ⟨[r], u, m⟩) := by
  obtain ⟨⟨htn, htb, htb2, hte⟩, htne, hts⟩ := ht
  have htd : t.data ≠ [] := data_ne_nil_of_ne_empty htne
  have htsL : pyStripL t.data = t.data := congrArg String.data hts
  obtain ⟨hDne, hDdig, hDval⟩ := natToStr_digits r
  have hDhead : ∀ c, (natToStr r).data.head? = some c → pyIsSpace c = false :=
    fun c hc => pyIsSpace_of_isDigit (hDdig c (List.mem_of_mem_head? hc))
  have hS2 : String.data ". " = ['.', ' '] := rfl
  have hS6 : String.data " [URL:" = [' ', '[', 'U', 'R', 'L', ':'] := rfl
  have hS9 : String.data " [MOBILE:" = [' ', '[', 'M', 'O', 'B', 'I', 'L', 'E', ':'] := rfl
  have eTitle : pyStrip (⟨t.data⟩ : String) = t := by
    show (⟨pyStripL t.data⟩ : String) = t
    rw [htsL]
  by_cases hu0 : u = "" <;> by_cases hm0 : m = ""
  · subst hu0
    subst hm0
    have hdata : (saveLine r t "" "").data
        = ((natToStr r).data ++ ['.', ' ']) ++ t.data := by
      simp only [saveLine, ne_eq, not_true_eq_false, if_false, ite_false]
      rfl
    have hstr : pyStripL (saveLine r t "" "").data = (saveLine r t "" "").data := by
      rw [hdata]
      refine strip_ends_aux hDne hDhead ?_
      intro c hc
      rw [getLast?_append_right htd] at hc
      exact stripStable_last htsL c hc
    have hps : pyStrip (saveLine r t "" "") = saveLine r t "" "" := by
      show (⟨pyStripL (saveLine r t "" "").data⟩ : String) = saveLine r t "" ""
      rw [hstr]
    have e1 : splitFirst ['.', ' ']
        (((natToStr r).data ++ ['.', ' ']) ++ t.data) = some ((natToStr r).data, t.data) :=
      splitFirst_append (natToStr r).data (subIn_rank_dot r)
    have e2 : subIn (String.data " [MOBILE:") t.data = false :=
      subIn_false_of_not_mem (by decide) htb
    have e3 : subIn (String.data " [URL:") t.data = false :=
      subIn_false_of_not_mem (by decide) htb
    unfold parseTitleLine
    rw [hps, hdata, hS2]
    simp only [e1, isDigits_natToStr, if_true, e2, e3, Bool.false_eq_true, if_false,
      eTitle, cleanTitle, hDval]
  · subst hu0
    have hm1 : m.data ≠ [] := data_ne_nil_of_ne_empty hm0
    have hdata : (saveLine r t "" m).data
        = ((natToStr r).data ++ ['.', ' ']) ++
          (t.data ++ ([' ', '[', 'M', 'O', 'B', 'I', 'L', 'E', ':'] ++ (m.data ++ [']']))) := by
      simp only [saveLine, ne_eq, not_true_eq_false, if_false, ite_false, hm0,
        not_false_eq_true, if_true, ite_true]
      show (((natToStr r ++ ". " ++ t) ++ " [MOBILE:") ++ m ++ "]").data = _
      show ((((natToStr r).data ++ ['.', ' ']) ++ t.data ++
        [' ', '[', 'M', 'O', 'B', 'I', 'L', 'E', ':']) ++ m.data ++ [']']) = _
      simp [List.append_assoc]
    have hstr : pyStripL (saveLine r t "" m).data = (saveLine r t "" m).data := by
      rw [hdata]
      refine strip_ends_aux hDne hDhead ?_
      intro c hc
      rw [getLast?_append_right (ne_nil_append_right (ne_nil_append_right
        (ne_nil_append_right (by simp)))), getLast?_append_right
        (ne_nil_append_right (by simp)), getLast?_append_right (by simp),
        List.getLast?_concat] at hc
      cases hc
      decide
    have hps : pyStrip (saveLine r t "" m) = saveLine r t "" m := by
      show (⟨pyStripL (saveLine r t "" m).data⟩ : String) = saveLine r t "" m
      rw [hstr]
    have e1 : splitFirst ['.', ' ']
        (((natToStr r).data ++ ['.', ' ']) ++
          (t.data ++ ([' ', '[', 'M', 'O', 'B', 'I', 'L', 'E', ':'] ++ (m.data ++ [']']))))
        = some ((natToStr r).data,
            t.data ++ ([' ', '[', 'M', 'O', 'B', 'I', 'L', 'E', ':'] ++ (m.data ++ [']']))) :=
      splitFirst_append (natToStr r).data (subIn_rank_dot r)
    have e2 : subIn [' ', '[', 'M', 'O', 'B', 'I', 'L', 'E', ':']
        (t.data ++ ([' ', '[', 'M', 'O', 'B', 'I', 'L', 'E', ':'] ++ (m.data ++ [']'])))
        = true := by
      rw [← List.append_assoc]
      exact subIn_append_mid _ _ _
    have e4 : splitLast [' ', '[', 'M', 'O', 'B', 'I', 'L', 'E', ':']
        (t.data ++ ([' ', '[', 'M', 'O', 'B', 'I', 'L', 'E', ':'] ++ (m.data ++ [']'])))
        = some (t.data, m.data ++ [']']) := by
      rw [← List.append_assoc]
      refine splitLast_append ?_ t.data
      refine subIn_space_bracket (m.data ++ [']']) rfl (by decide) ?_
      intro hc
      rw [List.mem_append] at hc
      rcases hc with hc | hc
      · exact hm.2.1 hc
      · simp at hc
    have e3 : subIn (String.data " [URL:") t.data = false :=
      subIn_false_of_not_mem (by decide) htb
    unfold parseTitleLine
    rw [hps, hdata, hS2]
    simp only [e1, isDigits_natToStr, if_true, hS9, e2, e4, List.getLast?_concat,
      List.dropLast_concat, e3, Bool.false_eq_true, if_false, eTitle, cleanTitle, hDval]
  · subst hm0
    have hu1 : u.data ≠ [] := data_ne_nil_of_ne_empty hu0
    have hdata : (saveLine r t u "").data
        = ((natToStr r).data ++ ['.', ' ']) ++
          (t.data ++ ([' ', '[', 'U', 'R', 'L', ':'] ++ (u.data ++ [']']))) := by
      simp only [saveLine, ne_eq, not_true_eq_false, if_false, ite_false, hu0,
        not_false_eq_true, if_true, ite_true]
      show (((natToStr r ++ ". " ++ t) ++ " [URL:") ++ u ++ "]").data = _
      show ((((natToStr r).data ++ ['.', ' ']) ++ t.data ++
        [' ', '[', 'U', 'R', 'L', ':']) ++ u.data ++ [']']) = _
      simp [List.append_assoc]
    have hstr : pyStripL (saveLine r t u "").data = (saveLine r t u "").data := by
      rw [hdata]
      refine strip_ends_aux hDne hDhead ?_
      intro c hc
      rw [getLast?_append_right (ne_nil_append_right (ne_nil_append_right
        (ne_nil_append_right (by simp)))), getLast?_append_right
        (ne_nil_append_right (by simp)), getLast?_append_right (by simp),
        List.getLast?_concat] at hc
      cases hc
      decide
    have hps : pyStrip (saveLine r t u "") = saveLine r t u "" := by
      show (⟨pyStripL (saveLine r t u "").data⟩ : String) = saveLine r t u ""
      rw [hstr]
    have e1 : splitFirst ['.', ' ']
        (((natToStr r).data ++ ['.', ' ']) ++
          (t.data ++ ([' ', '[', 'U', 'R', 'L', ':'] ++ (u.data ++ [']']))))
        = some ((natToStr r).data,
            t.data ++ ([' ', '[', 'U', 'R', 'L', ':'] ++ (u.data ++ [']']))) :=
      splitFirst_append (natToStr r).data (subIn_rank_dot r)
    have e2 : subIn [' ', '[', 'M', 'O', 'B', 'I', 'L', 'E', ':']
        (t.data ++ ([' ', '[', 'U', 'R', 'L', ':'] ++ (u.data ++ [']']))) = false :=
      subIn_mobile_in_url htb hu.2.1
    have e3 : subIn [' ', '[', 'U', 'R', 'L', ':']
        (t.data ++ ([' ', '[', 'U', 'R', 'L', ':'] ++ (u.data ++ [']']))) = true := by
      rw [← List.append_assoc]
      exact subIn_append_mid _ _ _
    have e4 : splitLast [' ', '[', 'U', 'R', 'L', ':']
        (t.data ++ ([' ', '[', 'U', 'R', 'L', ':'] ++ (u.data ++ [']'])))
        = some (t.data, u.data ++ [']']) := by
      rw [← List.append_assoc]
      refine splitLast_append ?_ t.data
      refine subIn_space_bracket (u.data ++ [']']) rfl (by decide) ?_
      intro hc
      rw [List.mem_append] at hc
      rcases hc with hc | hc
      · exact hu.2.1 hc
      · simp at hc
    unfold parseTitleLine
    rw [hps, hdata, hS2]
    simp only [e1, isDigits_natToStr, if_true, hS9, e2, Bool.false_eq_true, if_false, hS6,
      e3, e4, List.getLast?_concat, List.dropLast_concat, eTitle, cleanTitle,
      hDval]
  · have hu1 : u.data ≠ [] := data_ne_nil_of_ne_empty hu0
    have hm1 : m.data ≠ [] := data_ne_nil_of_ne_empty hm0
    have hdata : (saveLine r t u m).data
        = ((natToStr r).data ++ ['.', ' ']) ++
          ((t.data ++ ([' ', '[', 'U', 'R', 'L', ':'] ++ (u.data ++ [']']))) ++
            ([' ', '[', 'M', 'O', 'B', 'I', 'L', 'E', ':'] ++ (m.data ++ [']']))) := by
      simp only [saveLine, ne_eq, hu0, not_false_eq_true, if_true, ite_true, hm0]
      show ((((natToStr r ++ ". " ++ t) ++ " [URL:") ++ u ++ "]" ++ " [MOBILE:")
        ++ m ++ "]").data = _
      show (((((((natToStr r).data ++ ['.', ' ']) ++ t.data ++
        [' ', '[', 'U', 'R', 'L', ':']) ++ u.data ++ [']']) ++
        [' ', '[', 'M', 'O', 'B', 'I', 'L', 'E', ':']) ++ m.data ++ [']'])) = _
      simp [List.append_assoc]
    have hstr : pyStripL (saveLine r t u m).data = (saveLine r t u m).data := by
      rw [hdata]
      refine strip_ends_aux hDne hDhead ?_
      intro c hc
      rw [getLast?_append_right (ne_nil_append_right (ne_nil_append_right
        (ne_nil_append_right (by simp)))), getLast?_append_right
        (ne_nil_append_right (by simp)), getLast?_append_right (by simp),
        List.getLast?_concat] at hc
      cases hc
      decide
    have hps : pyStrip (saveLine r t u m) = saveLine r t u m := by
      show (⟨pyStripL (saveLine r t u m).data⟩ : String) = saveLine r t u m
      rw [hstr]
    have e1 : splitFirst ['.', ' ']
        (((natToStr r).data ++ ['.', ' ']) ++
          ((t.data ++ ([' ', '[', 'U', 'R', 'L', ':'] ++ (u.data ++ [']']))) ++
            ([' ', '[', 'M', 'O', 'B', 'I', 'L', 'E', ':'] ++ (m.data ++ [']']))))
        = some ((natToStr r).data,
            (t.data ++ ([' ', '[', 'U', 'R', 'L', ':'] ++ (u.data ++ [']']))) ++
              ([' ', '[', 'M', 'O', 'B', 'I', 'L', 'E', ':'] ++ (m.data ++ [']']))) :=
      splitFirst_append (natToStr r).data (subIn_rank_dot r)
    have e2 : subIn [' ', '[', 'M', 'O', 'B', 'I', 'L', 'E', ':']
        ((t.data ++ ([' ', '[', 'U', 'R', 'L', ':'] ++ (u.data ++ [']']))) ++
          ([' ', '[', 'M', 'O', 'B', 'I', 'L', 'E', ':'] ++ (m.data ++ [']']))) = true :=
      by
      rw [← List.append_assoc]
      exact subIn_append_mid _ _ _
    have e4 : splitLast [' ', '[', 'M', 'O', 'B', 'I', 'L', 'E', ':']
        ((t.data ++ ([' ', '[', 'U', 'R', 'L', ':'] ++ (u.data ++ [']']))) ++
          ([' ', '[', 'M', 'O', 'B', 'I', 'L', 'E', ':'] ++ (m.data ++ [']'])))
        = some (t.data ++ ([' ', '[', 'U', 'R', 'L', ':'] ++ (u.data ++ [']'])),
            m.data ++ [']']) := by
      rw [← List.append_assoc]
      refine splitLast_append ?_ _
      refine subIn_space_bracket (m.data ++ [']']) rfl (by decide) ?_
      intro hc
      rw [List.mem_append] at hc
      rcases hc with hc | hc
      · exact hm.2.1 hc
      · simp at hc
    have e3 : subIn [' ', '[', 'U', 'R', 'L', ':']
        (t.data ++ ([' ', '[', 'U', 'R', 'L', ':'] ++ (u.data ++ [']']))) = true := by
      rw [← List.append_assoc]
      exact subIn_append_mid _ _ _
    have e5 : splitLast [' ', '[', 'U', 'R', 'L', ':']
        (t.data ++ ([' ', '[', 'U', 'R', 'L', ':'] ++ (u.data ++ [']'])))
        = some (t.data, u.data ++ [']']) := by
      rw [← List.append_assoc]
      refine splitLast_append ?_ t.data
      refine subIn_space_bracket (u.data ++ [']']) rfl (by decide) ?_
      intro hc
      rw [List.mem_append] at hc
      rcases hc with hc | hc
      · exact hu.2.1 hc
      · simp at hc
    unfold parseTitleLine
    rw [hps, hdata, hS2]
    simp only [e1, isDigits_natToStr, if_true, hS9, e2, e4, List.getLast?_concat,
      List.dropLast_concat, hS6, e3, e5, eTitle, cleanTitle, hDval]

/-! ### Permutation and association-list fold lemmas -/
theorem insertR_perm (le : α → α → Bool) (x : α) :
    ∀ l : List α, (insertR le x l).Perm (x :: l) := by
  intro l
  induction l with
  | nil => exact List.Perm.refl _
  | cons y t ih =>
    by_cases h : le y x
    · simp only [insertR, if_pos h]
      exact (List.Perm.cons y ih).trans (List.Perm.swap x y t)
    · simp only [insertR, if_neg h]
      exact List.Perm.refl _

theorem foldl_insertR_perm (le : α → α → Bool) :
    ∀ (l acc : List α), (l.foldl (fun a x => insertR le x a) acc).Perm (acc ++ l) := by
  intro l
  induction l with
  | nil => intro acc; simp
  | cons x t ih =>
    intro acc
    simp only [List.foldl_cons]
    refine (ih (insertR le x acc)).trans ?_
    refine (List.Perm.append_right t (insertR_perm le x acc)).trans ?_
    exact List.perm_middle.symm

theorem sortStable_perm (le : α → α → Bool) (l : List α) :
    (sortStable le l).Perm l := by
  have := foldl_insertR_perm le l []
  simpa [sortStable] using this

theorem alookup_perm {l₁ l₂ : List (String × γ)} (hp : l₁.Perm l₂)
    (hnd : (l₁.map Prod.fst).Nodup) :
    ∀ k, alookup k l₁ = alookup k l₂ := by
  induction hp with
  | nil => intro k; rfl
  | cons p t ih =>
    intro k
    obtain ⟨a, b⟩ := p
    simp only [List.map_cons, List.nodup_cons] at hnd
    simp only [alookup_cons]
    rw [ih hnd.2 k]
  | swap p q t =>
    intro k
    obtain ⟨a, b⟩ := p
    obtain ⟨c, d⟩ := q
    simp only [List.map_cons, List.nodup_cons, List.mem_cons] at hnd
    simp only [alookup_cons]
    by_cases hck : c = k <;> by_cases hak : a = k
    · exact absurd (hak.trans hck.symm) (fun h => hnd.1 (Or.inl h.symm))
    · simp [hck, hak]
    · simp [hck, hak]
    · simp [hck, hak]
  | trans h1 h2 ih1 ih2 =>
    intro k
    rw [ih1 hnd k]
    refine ih2 ?_ k
    exact (List.Perm.nodup_iff (h1.map Prod.fst)).mp hnd

theorem alookup_setKey_general {k k' : String} {v : β} {l : List (String × β)} :
    alookup k (setKey k' v l) = if k' = k then some v else alookup k l := by
  by_cases h : k' = k
  · subst h
    rw [alookup_setKey_self, if_pos rfl]
  · rw [alookup_setKey_ne h, if_neg h]

theorem alookup_foldl_setKey :
    ∀ (pairs : List (String × β)) (acc : List (String × β)),
      (pairs.map Prod.fst).Nodup →
      (∀ k, k ∈ pairs.map Prod.fst → alookup k acc = none) →
      ∀ k, alookup k (pairs.foldl (fun a p => setKey p.1 p.2 a) acc)
        = (alookup k pairs).or (alookup k acc) := by
  intro pairs
  induction pairs with
  | nil => intro acc _ _ k; simp
  | cons p t ih =>
    intro acc hnd hfresh k
    obtain ⟨a, b⟩ := p
    simp only [List.map_cons, List.nodup_cons] at hnd
    simp only [List.foldl_cons]
    have hfresh' : ∀ k, k ∈ t.map Prod.fst → alookup k (setKey a b acc) = none := by
      intro k' hk'
      rw [alookup_setKey_general]
      have hne : a ≠ k' := fun h => hnd.1 (h ▸ hk')
      rw [if_neg hne]
      exact hfresh k' (List.mem_cons_of_mem _ hk')
    rw [ih (setKey a b acc) hnd.2 hfresh' k]
    simp only [alookup_cons]
    by_cases hak : a = k
    · subst hak
      rw [if_pos rfl, alookup_setKey_self]
      have : alookup a t = none := by
        cases hx : alookup a t with
        | none => rfl
        | some v =>
          exfalso
          apply hnd.1
          clear hfresh hfresh' ih hnd
          induction t with
          | nil => simp [alookup] at hx
          | cons q s ihq =>
            obtain ⟨c, d⟩ := q
            simp only [alookup_cons] at hx
            by_cases hca : c = a
            · simp [hca]
            · rw [if_neg hca] at hx
              simp only [List.map_cons, List.mem_cons]
              exact Or.inr (ihq hx)
      rw [this]
      rfl
    · rw [if_neg hak, alookup_setKey_general, if_neg hak]

theorem foldl_setKey_of_pairs {pairs : List (String × β)}
    (hnd : (pairs.map Prod.fst).Nodup) :
    ∀ k, alookup k (pairs.foldl (fun a p => setKey p.1 p.2 a) [])
      = alookup k pairs := by
  intro k
  rw [alookup_foldl_setKey pairs [] hnd (fun _ _ => rfl) k]
  simp

/-! ### Newline-join structure lemmas -/
theorem ne_nil_append_left {l₁ l₂ : List Char} (h : l₁ ≠ []) : l₁ ++ l₂ ≠ [] := by
  intro hc
  exact h (List.append_eq_nil.mp hc).1

theorem notin_append {c : Char} {l₁ l₂ : List Char} (h1 : c ∉ l₁) (h2 : c ∉ l₂) :
    c ∉ l₁ ++ l₂ := by
  rw [List.mem_append]
  rintro (h | h)
  · exact h1 h
  · exact h2 h

theorem pySplitL_newline_join :
    ∀ (ls : List (List Char)) (x0 : List Char),
      '\n' ∉ x0 → (∀ l ∈ ls, '\n' ∉ l) →
      pySplitL ['\n'] (x0 ++ (ls.map (fun l => '\n' :: l)).flatten) = x0 :: ls := by
  intro ls
  induction ls with
  | nil =>
    intro x0 hx0 _
    rw [List.map_nil, List.flatten_nil, List.append_nil]
    exact pySplitL_no_sep (subIn_false_of_not_mem (List.mem_singleton_self _) hx0)
  | cons l ls ih =>
    intro x0 hx0 hls
    have hshape : x0 ++ (((l :: ls).map (fun l => '\n' :: l)).flatten)
        = (x0 ++ ['\n']) ++ (l ++ (ls.map (fun l => '\n' :: l)).flatten) := by
      simp [List.append_assoc]
    rw [hshape]
    have hcond : subIn ['\n'] (x0 ++ (['\n'] : List Char).dropLast) = false := by
      rw [show (['\n'] : List Char).dropLast = [] from rfl, List.append_nil]
      exact subIn_false_of_not_mem (List.mem_singleton_self _) hx0
    rw [pySplitL_append hcond]
    rw [ih l (hls l (List.mem_cons_self _ _)) (fun x hx => hls x (List.mem_cons_of_mem _ hx))]

theorem pySplitL_blank_join :
    ∀ (secs : List (List Char)) (tail : List Char),
      (∀ sec ∈ secs, subIn ['\n', '\n'] (sec ++ ['\n']) = false) →
      pySplitL ['\n', '\n'] ((secs.map (fun s => s ++ ['\n', '\n'])).flatten ++ tail)
        = secs ++ pySplitL ['\n', '\n'] tail := by
  intro secs
  induction secs with
  | nil =>
    intro tail _
    rw [List.map_nil, List.flatten_nil, List.nil_append, List.nil_append]
  | cons sec secs ih =>
    intro tail hsecs
    have hshape : (((sec :: secs).map (fun s => s ++ ['\n', '\n'])).flatten ++ tail)
        = (sec ++ ['\n', '\n']) ++ ((secs.map (fun s => s ++ ['\n', '\n'])).flatten ++ tail) := by
      simp [List.append_assoc]
    rw [hshape]
    have hcond : subIn ['\n', '\n'] (sec ++ (['\n', '\n'] : List Char).dropLast) = false := by
      rw [show (['\n', '\n'] : List Char).dropLast = ['\n'] from rfl]
      exact hsecs sec (List.mem_cons_self _ _)
    rw [pySplitL_append hcond]
    rw [ih tail (fun s hs => hsecs s (List.mem_cons_of_mem _ hs))]
    rfl

theorem noPair_newline_join :
    ∀ (ls : List (List Char)) (x0 : List Char),
      '\n' ∉ x0 → x0 ≠ [] → (∀ l ∈ ls, '\n' ∉ l ∧ l ≠ []) →
      noPair '\n' '\n' (x0 ++ (ls.map (fun l => '\n' :: l)).flatten) = true ∧
      (∀ c, (x0 ++ (ls.map (fun l => '\n' :: l)).flatten).getLast? = some c → c ≠ '\n') := by
  intro ls
  induction ls with
  | nil =>
    intro x0 hx0 _ _
    rw [List.map_nil, List.flatten_nil, List.append_nil]
    exact ⟨noPair_of_not_first (fun c hc h => hx0 (h ▸ hc)),
      getLast?_ne_of_not_mem hx0⟩
  | cons l ls ih =>
    intro x0 hx0 hx0ne hls
    obtain ⟨hln, hlne⟩ := hls l (List.mem_cons_self _ _)
    obtain ⟨ihnp, ihlast⟩ := ih l hln hlne (fun x hx => hls x (List.mem_cons_of_mem _ hx))
    have hshape : x0 ++ (((l :: ls).map (fun l => '\n' :: l)).flatten)
        = x0 ++ ('\n' :: (l ++ (ls.map (fun l => '\n' :: l)).flatten)) := by
      simp [List.append_assoc]
    rw [hshape]
    have hjne : l ++ (ls.map (fun l => '\n' :: l)).flatten ≠ [] := ne_nil_append_left hlne
    constructor
    · refine noPair_append_lastne ?_ ?_ (getLast?_ne_of_not_mem hx0)
      · exact noPair_of_not_first (fun c hc h => hx0 (h ▸ hc))
      · refine noPair_append_headne (u := ['\n']) rfl ihnp ?_
        intro y hy
        rw [List.append_eq, List.head?_append_of_ne_nil _ hlne] at hy
        exact fun h => hln (h ▸ List.mem_of_mem_head? hy)
    · intro c hc
      have hshape2 : x0 ++ ('\n' :: (l ++ (ls.map (fun l => '\n' :: l)).flatten))
          = (x0 ++ ['\n']) ++ (l ++ (ls.map (fun l => '\n' :: l)).flatten) := by
        simp [List.append_assoc]
      rw [hshape2, getLast?_append_right hjne] at hc
      exact ihlast c hc

theorem noPair_trailing_join :
    ∀ (ls : List (List Char)),
      (∀ l ∈ ls, '\n' ∉ l ∧ l ≠ []) →
      noPair '\n' '\n' ((ls.map (fun l => l ++ ['\n'])).flatten) = true ∧
      (∀ y, ((ls.map (fun l => l ++ ['\n'])).flatten).head? = some y → y ≠ '\n') := by
  intro ls
  induction ls with
  | nil => exact fun _ => ⟨rfl, by intro y hy; simp at hy⟩
  | cons l ls ih =>
    intro hls
    obtain ⟨hln, hlne⟩ := hls l (List.mem_cons_self _ _)
    obtain ⟨ihnp, ihhead⟩ := ih (fun x hx => hls x (List.mem_cons_of_mem _ hx))
    have hshape : (((l :: ls).map (fun l => l ++ ['\n'])).flatten)
        = (l ++ ['\n']) ++ (ls.map (fun l => l ++ ['\n'])).flatten := by
      simp
    rw [hshape]
    have hpiece : noPair '\n' '\n' (l ++ ['\n']) = true :=
      noPair_append_lastne (noPair_of_not_first (fun c hc h => hln (h ▸ hc))) rfl
        (getLast?_ne_of_not_mem hln)
    constructor
    · exact noPair_append_headne hpiece ihnp ihhead
    · intro y hy
      rw [List.head?_append_of_ne_nil _ (ne_nil_append_left hlne),
        List.head?_append_of_ne_nil _ hlne] at hy
      exact fun h => hln (h ▸ List.mem_of_mem_head? hy)

/-! ### Per-line shape facts for the section assembly -/
theorem notin_natToStr {c : Char} (r : Nat)
    (hval : c.val.toNat < 48 ∨ 57 < c.val.toNat) : c ∉ (natToStr r).data :=
  fun hc => (isDigit_ne ((natToStr_digits r).2.1 c hc) hval) rfl

theorem saveLine_facts (r : Nat) (t u m : String)
    (ht : GoodTitleStr t) (hu : GoodText u) (hm : GoodText m) :
    pyStripL (saveLine r t u m).data = (saveLine r t u m).data ∧
    (saveLine r t u m).data ≠ [] ∧
    '\n' ∉ (saveLine r t u m).data ∧ '=' ∉ (saveLine r t u m).data := by
  obtain ⟨⟨htn, htb, htb2, hte⟩, htne, hts⟩ := ht
  have htd : t.data ≠ [] := data_ne_nil_of_ne_empty htne
  have htsL : pyStripL t.data = t.data := congrArg String.data hts
  obtain ⟨hDne, hDdig, hDval⟩ := natToStr_digits r
  have hDhead : ∀ c, (natToStr r).data.head? = some c → pyIsSpace c = false :=
    fun c hc => pyIsSpace_of_isDigit (hDdig c (List.mem_of_mem_head? hc))
  have hDn : '\n' ∉ (natToStr r).data := notin_natToStr r (by decide)
  have hDe : '=' ∉ (natToStr r).data := notin_natToStr r (by decide)
  by_cases hu0 : u = "" <;> by_cases hm0 : m = ""
  · subst hu0
    subst hm0
    have hdata : (saveLine r t "" "").data
        = ((natToStr r).data ++ ['.', ' ']) ++ t.data := by
      simp only [saveLine, ne_eq, not_true_eq_false, if_false, ite_false]
      rfl
    rw [hdata]
    refine ⟨?_, ne_nil_append_left (ne_nil_append_left hDne), ?_, ?_⟩
    · refine strip_ends_aux hDne hDhead ?_
      intro c hc
      rw [getLast?_append_right htd] at hc
      exact stripStable_last htsL c hc
    · exact notin_append (notin_append hDn (by decide)) htn
    · exact notin_append (notin_append hDe (by decide)) hte
  · subst hu0
    have hdata : (saveLine r t "" m).data
        = ((natToStr r).data ++ ['.', ' ']) ++
          (t.data ++ ([' ', '[', 'M', 'O', 'B', 'I', 'L', 'E', ':'] ++ (m.data ++ [']']))) := by
      simp only [saveLine, ne_eq, not_true_eq_false, if_false, ite_false, hm0,
        not_false_eq_true, if_true, ite_true]
      show (((natToStr r ++ ". " ++ t) ++ " [MOBILE:") ++ m ++ "]").data = _
      show ((((natToStr r).data ++ ['.', ' ']) ++ t.data ++
        [' ', '[', 'M', 'O', 'B', 'I', 'L', 'E', ':']) ++ m.data ++ [']']) = _
      simp [List.append_assoc]
    rw [hdata]
    refine ⟨?_, ne_nil_append_left (ne_nil_append_left hDne), ?_, ?_⟩
    · refine strip_ends_aux hDne hDhead ?_
      intro c hc
      rw [getLast?_append_right (ne_nil_append_right (ne_nil_append_right
        (ne_nil_append_right (by simp)))), getLast?_append_right
        (ne_nil_append_right (by simp)), getLast?_append_right (by simp),
        List.getLast?_concat] at hc
      cases hc
      decide
    · exact notin_append (notin_append hDn (by decide)) (notin_append htn
        (notin_append (by decide) (notin_append hm.1 (by decide))))
    · exact notin_append (notin_append hDe (by decide)) (notin_append hte
        (notin_append (by decide) (notin_append hm.2.2.2 (by decide))))
  · subst hm0
    have hdata : (saveLine r t u "").data
        = ((natToStr r).data ++ ['.', ' ']) ++
          (t.data ++ ([' ', '[', 'U', 'R', 'L', ':'] ++ (u.data ++ [']']))) := by
      simp only [saveLine, ne_eq, not_true_eq_false, if_false, ite_false, hu0,
        not_false_eq_true, if_true, ite_true]
      show (((natToStr r ++ ". " ++ t) ++ " [URL:") ++ u ++ "]").data = _
      show ((((natToStr r).data ++ ['.', ' ']) ++ t.data ++
        [' ', '[', 'U', 'R', 'L', ':']) ++ u.data ++ [']']) = _
      simp [List.append_assoc]
    rw [hdata]
    refine ⟨?_, ne_nil_append_left (ne_nil_append_left hDne), ?_, ?_⟩
    · refine strip_ends_aux hDne hDhead ?_
      intro c hc
      rw [getLast?_append_right (ne_nil_append_right (ne_nil_append_right
        (ne_nil_append_right (by simp)))), getLast?_append_right
        (ne_nil_append_right (by simp)), getLast?_append_right (by simp),
        List.getLast?_concat] at hc
      cases hc
      decide
    · exact notin_append (notin_append hDn (by decide)) (notin_append htn
        (notin_append (by decide) (notin_append hu.1 (by decide))))
    · exact notin_append (notin_append hDe (by decide)) (notin_append hte
        (notin_append (by decide) (notin_append hu.2.2.2 (by decide))))
  · have hdata : (saveLine r t u m).data
        = ((natToStr r).data ++ ['.', ' ']) ++
          ((t.data ++ ([' ', '[', 'U', 'R', 'L', ':'] ++ (u.data ++ [']']))) ++
            ([' ', '[', 'M', 'O', 'B', 'I', 'L', 'E', ':'] ++ (m.data ++ [']']))) := by
      simp only [saveLine, ne_eq, hu0, not_false_eq_true, if_true, ite_true, hm0]
      show ((((natToStr r ++ ". " ++ t) ++ " [URL:") ++ u ++ "]" ++ " [MOBILE:")
        ++ m ++ "]").data = _
      show (((((((natToStr r).data ++ ['.', ' ']) ++ t.data ++
        [' ', '[', 'U', 'R', 'L', ':']) ++ u.data ++ [']']) ++
        [' ', '[', 'M', 'O', 'B', 'I', 'L', 'E', ':']) ++ m.data ++ [']'])) = _
      simp [List.append_assoc]
    rw [hdata]
    refine ⟨?_, ne_nil_append_left (ne_nil_append_left hDne), ?_, ?_⟩
    · refine strip_ends_aux hDne hDhead ?_
      intro c hc
      rw [getLast?_append_right (ne_nil_append_right (ne_nil_append_right
        (ne_nil_append_right (by simp)))), getLast?_append_right
        (ne_nil_append_right (by simp)), getLast?_append_right (by simp),
        List.getLast?_concat] at hc
      cases hc
      decide
    · exact notin_append (notin_append hDn (by decide)) (notin_append
        (notin_append htn (notin_append (by decide) (notin_append hu.1 (by decide))))
        (notin_append (by decide) (notin_append hm.1 (by decide))))
    · exact notin_append (notin_append hDe (by decide)) (notin_append
        (notin_append hte (notin_append (by decide) (notin_append hu.2.2.2 (by decide))))
        (notin_append (by decide) (notin_append hm.2.2.2 (by decide))))

/-! ### Section-level support lemmas -/
theorem foldl_congr_mem {σ τ : Type} {l : List σ} {f g : τ → σ → τ} :
    ∀ init : τ, (∀ acc x, x ∈ l → f acc x = g acc x) →
      l.foldl f init = l.foldl g init := by
  induction l with
  | nil => intro init _; rfl
  | cons x t ih =>
    intro init h
    simp only [List.foldl_cons]
    rw [h init x (List.mem_cons_self _ _)]
    exact ih (g init x) (fun acc y hy => h acc y (List.mem_cons_of_mem _ hy))

theorem getLast?_newline_join :
    ∀ (ls : List (List Char)) (x0 : List Char), (∀ l ∈ ls, l ≠ []) →
      ∀ c, (x0 ++ (ls.map (fun l => '\n' :: l)).flatten).getLast? = some c →
        (x0.getLast? = some c ∨ ∃ l ∈ ls, l.getLast? = some c) := by
  intro ls
  induction ls with
  | nil =>
    intro x0 _ c hc
    rw [List.map_nil, List.flatten_nil, List.append_nil] at hc
    exact Or.inl hc
  | cons l ls ih =>
    intro x0 hne c hc
    have hlne : l ≠ [] := hne l (List.mem_cons_self _ _)
    have hshape : x0 ++ ((List.map (fun l => '\n' :: l) (l :: ls)).flatten)
        = (x0 ++ ('\n' :: l)) ++ (ls.map (fun l => '\n' :: l)).flatten := by
      simp [List.append_assoc]
    rw [hshape] at hc
    rcases ih (x0 ++ ('\n' :: l)) (fun x hx => hne x (List.mem_cons_of_mem _ hx)) c hc
      with hin | ⟨l', hl', hl'c⟩
    · rw [getLast?_append_right (by simp)] at hin
      have : ('\n' :: l) = ['\n'] ++ l := rfl
      rw [this, getLast?_append_right hlne] at hin
      exact Or.inr ⟨l, List.mem_cons_self _ _, hin⟩
    · exact Or.inr ⟨l', List.mem_cons_of_mem _ hl', hl'c⟩

theorem notin_newline_join {c : Char} (hc : c ≠ '\n') :
    ∀ (ls : List (List Char)) (x0 : List Char), c ∉ x0 → (∀ l ∈ ls, c ∉ l) →
      c ∉ x0 ++ (ls.map (fun l => '\n' :: l)).flatten := by
  intro ls x0 hx0 hls
  rw [List.mem_append]
  rintro (h | h)
  · exact hx0 h
  · rw [List.mem_flatten] at h
    obtain ⟨piece, hp, hcp⟩ := h
    rw [List.mem_map] at hp
    obtain ⟨l, hl, rfl⟩ := hp
    rw [List.mem_cons] at hcp
    rcases hcp with h | h
    · exact hc h
    · exact hls l hl h

theorem foldl_saveLine_data (ts : List (Nat × String × String × String)) :
    ∀ s : String,
      (ts.foldl (fun acc tu => acc ++ "\n" ++ saveLine tu.1 tu.2.1 tu.2.2.1 tu.2.2.2) s).data
        = s.data ++
          (ts.map (fun tu => '\n' :: (saveLine tu.1 tu.2.1 tu.2.2.1 tu.2.2.2).data)).flatten := by
  induction ts with
  | nil => intro s; simp
  | cons tu ts ih =>
    intro s
    simp only [List.foldl_cons, List.map_cons, List.flatten_cons]
    rw [ih (s ++ "\n" ++ saveLine tu.1 tu.2.1 tu.2.2.1 tu.2.2.2)]
    have hstep : (s ++ "\n" ++ saveLine tu.1 tu.2.1 tu.2.2.1 tu.2.2.2).data
        = (s.data ++ ['\n']) ++ (saveLine tu.1 tu.2.1 tu.2.2.1 tu.2.2.2).data := rfl
    rw [hstep]
    simp [List.append_assoc]

theorem foldl_fail_data (fids : List String) :
    ∀ s : String, (fids.foldl (fun acc fid => acc ++ fid ++ "\n") s).data
      = s.data ++ (fids.map (fun fid => fid.data ++ ['\n'])).flatten := by
  induction fids with
  | nil => intro s; simp
  | cons fid fids ih =>
    intro s
    simp only [List.foldl_cons, List.map_cons, List.flatten_cons]
    rw [ih (s ++ fid ++ "\n")]
    have hstep : (s ++ fid ++ "\n").data = (s.data ++ fid.data) ++ ['\n'] := rfl
    rw [hstep]
    simp [List.append_assoc]

theorem foldl_saveContent_data (results : List (String × TitleMap))
    (idToName : List (String × String)) :
    ∀ s : String,
      (results.foldl (fun acc p => acc ++ saveSection idToName p ++ "\n\n") s).data
        = s.data ++
          (results.map (fun p => (saveSection idToName p).data ++ ['\n', '\n'])).flatten := by
  induction results with
  | nil => intro s; simp
  | cons p ps ih =>
    intro s
    simp only [List.foldl_cons, List.map_cons, List.flatten_cons]
    rw [ih (s ++ saveSection idToName p ++ "\n\n")]
    have hstep : (s ++ saveSection idToName p ++ "\n\n").data
        = (s.data ++ (saveSection idToName p).data) ++ ['\n', '\n'] := rfl
    rw [hstep]
    simp [List.append_assoc]

/-! ### The section round trip -/
theorem saveSection_spec_aux (sid : String)
    (tuples : List (Nat × String × String × String))
    (hsid : GoodSidStr sid) (htne : tuples ≠ [])
    (hgoodtu : ∀ tu ∈ tuples,
      GoodTitleStr tu.2.1 ∧ GoodText tu.2.2.1 ∧ GoodText tu.2.2.2) :
    parseSection ⟨sid.data ++
        ((tuples.map (fun tu => (saveLine tu.1 tu.2.1 tu.2.2.1 tu.2.2.2).data)).map
          (fun l => '\n' :: l)).flatten⟩
      = some (sid, sid,
          tuples.foldl
            (fun acc tu => setKey tu.2.1 (Entry.mk [tu.1] tu.2.2.1 tu.2.2.2) acc) []) ∧
    subIn ['\n', '\n']
      ((sid.data ++
        ((tuples.map (fun tu => (saveLine tu.1 tu.2.1 tu.2.2.1 tu.2.2.2).data)).map
          (fun l => '\n' :: l)).flatten) ++ ['\n']) = false := by
  obtain ⟨⟨hsn, hsb, hsb2, hse⟩, hsne, hss, hsbar⟩ := hsid
  have hsd : sid.data ≠ [] := data_ne_nil_of_ne_empty hsne
  have hssL : pyStripL sid.data = sid.data := congrArg String.data hss
  have hLfacts : ∀ l ∈ tuples.map (fun tu => (saveLine tu.1 tu.2.1 tu.2.2.1 tu.2.2.2).data),
      pyStripL l = l ∧ l ≠ [] ∧ '\n' ∉ l ∧ '=' ∉ l := by
    intro l hl
    rw [List.mem_map] at hl
    obtain ⟨tu, htu, rfl⟩ := hl
    obtain ⟨h1, h2, h3⟩ := hgoodtu tu htu
    exact saveLine_facts tu.1 tu.2.1 tu.2.2.1 tu.2.2.2 h1 h2 h3
  have hstripD : pyStripL (sid.data ++
      ((tuples.map (fun tu => (saveLine tu.1 tu.2.1 tu.2.2.1 tu.2.2.2).data)).map
        (fun l => '\n' :: l)).flatten)
      = sid.data ++
        ((tuples.map (fun tu => (saveLine tu.1 tu.2.1 tu.2.2.1 tu.2.2.2).data)).map
          (fun l => '\n' :: l)).flatten := by
    apply pyStripL_eq_self_of_ends
    · intro c hc
      rw [List.head?_append_of_ne_nil _ hsd] at hc
      exact stripStable_head hssL c hc
    · intro c hc
      rcases getLast?_newline_join _ sid.data (fun l hl => (hLfacts l hl).2.1) c hc
        with h | ⟨l, hl, hlast⟩
      · exact stripStable_last hssL c h
      · exact stripStable_last (hLfacts l hl).1 c hlast
  obtain ⟨hnp, hlastne⟩ := noPair_newline_join
    (tuples.map (fun tu => (saveLine tu.1 tu.2.1 tu.2.2.1 tu.2.2.2).data)) sid.data hsn hsd
    (fun l hl => ⟨(hLfacts l hl).2.2.1, (hLfacts l hl).2.1⟩)
  refine ⟨?_, subIn_pair_false [] [] rfl (noPair_append_lastne hnp rfl hlastne)⟩
  have hstrip : pyStrip (⟨sid.data ++
      ((tuples.map (fun tu => (saveLine tu.1 tu.2.1 tu.2.2.1 tu.2.2.2).data)).map
        (fun l => '\n' :: l)).flatten⟩ : String)
      = ⟨sid.data ++
        ((tuples.map (fun tu => (saveLine tu.1 tu.2.1 tu.2.2.1 tu.2.2.2).data)).map
          (fun l => '\n' :: l)).flatten⟩ := by
    show (⟨pyStripL (sid.data ++
      ((tuples.map (fun tu => (saveLine tu.1 tu.2.1 tu.2.2.1 tu.2.2.2).data)).map
        (fun l => '\n' :: l)).flatten)⟩ : String) = _
    rw [hstripD]
  have hsecne : (⟨sid.data ++
      ((tuples.map (fun tu => (saveLine tu.1 tu.2.1 tu.2.2.1 tu.2.2.2).data)).map
        (fun l => '\n' :: l)).flatten⟩ : String) ≠ "" :=
    fun h => (ne_nil_append_left hsd) (congrArg String.data h)
  have hfm : subIn failMarker.data (sid.data ++
      ((tuples.map (fun tu => (saveLine tu.1 tu.2.1 tu.2.2.1 tu.2.2.2).data)).map
        (fun l => '\n' :: l)).flatten) = false := by
    refine subIn_false_of_not_mem (c := '=') (by decide) ?_
    exact notin_newline_join (by decide) _ sid.data hse
      (fun l hl => (hLfacts l hl).2.2.2)
  have hsplit : pySplit "\n" (⟨sid.data ++
      ((tuples.map (fun tu => (saveLine tu.1 tu.2.1 tu.2.2.1 tu.2.2.2).data)).map
        (fun l => '\n' :: l)).flatten⟩ : String)
      = sid :: tuples.map (fun tu => saveLine tu.1 tu.2.1 tu.2.2.1 tu.2.2.2) := by
    show (pySplitL (String.data "\n") (sid.data ++
      ((tuples.map (fun tu => (saveLine tu.1 tu.2.1 tu.2.2.1 tu.2.2.2).data)).map
        (fun l => '\n' :: l)).flatten)).map (fun l => (⟨l⟩ : String)) = _
    rw [show String.data "\n" = ['\n'] from rfl]
    rw [pySplitL_newline_join _ sid.data hsn (fun l hl => (hLfacts l hl).2.2.1)]
    rw [List.map_cons, List.map_map]
    rfl
  obtain ⟨tu0, turest, rfl⟩ : ∃ a s, tuples = a :: s := by
    cases tuples with
    | nil => exact absurd rfl htne
    | cons a s => exact ⟨a, s, rfl⟩
  unfold parseSection
  rw [if_neg ?hcond]
  case hcond =>
    rintro (h | h)
    · exact hsecne (hstrip ▸ h)
    · exact Bool.false_ne_true (hfm.symm.trans h)
  rw [hstrip, hsplit]
  simp only [List.map_cons]
  rw [hss]
  rw [if_neg ?hbar]
  case hbar =>
    intro h
    exact Bool.false_ne_true ((hsbar : subIn (String.data " | ") sid.data = false).symm.trans h)
  have hfold : (List.map (fun tu => saveLine tu.1 tu.2.1 tu.2.2.1 tu.2.2.2) (tu0 :: turest)).foldl
      (fun acc line => if pyStrip line ≠ "" then
        setKey (parseTitleLine line).1 (parseTitleLine line).2 acc else acc) ([] : TitleMap)
      = (tu0 :: turest).foldl
        (fun acc tu => setKey tu.2.1 (Entry.mk [tu.1] tu.2.2.1 tu.2.2.2) acc) [] := by
    rw [List.foldl_map]
    refine foldl_congr_mem [] ?_
    intro acc tu htu
    obtain ⟨h1, h2, h3⟩ := hgoodtu tu htu
    have hlf := saveLine_facts tu.1 tu.2.1 tu.2.2.1 tu.2.2.2 h1 h2 h3
    have hstrip1 : pyStrip (saveLine tu.1 tu.2.1 tu.2.2.1 tu.2.2.2)
        = saveLine tu.1 tu.2.1 tu.2.2.1 tu.2.2.2 := by
      show (⟨pyStripL (saveLine tu.1 tu.2.1 tu.2.2.1 tu.2.2.2).data⟩ : String) = _
      rw [hlf.1]
    have hne1 : saveLine tu.1 tu.2.1 tu.2.2.1 tu.2.2.2 ≠ "" :=
      fun h => hlf.2.1 (congrArg String.data h)
    rw [if_pos (by rw [hstrip1]; exact hne1)]
    rw [parseTitleLine_saveLine tu.1 tu.2.1 tu.2.2.1 tu.2.2.2 h1 h2 h3]
  rw [← List.map_cons (fun tu => saveLine tu.1 tu.2.1 tu.2.2.1 tu.2.2.2) tu0 turest]
  rw [hfold]

theorem map_congr_mem {σ τ : Type} {f g : σ → τ} :
    ∀ l : List σ, (∀ a ∈ l, f a = g a) → l.map f = l.map g := by
  intro l
  induction l with
  | nil => intro _; rfl
  | cons x t ih =>
    intro h
    simp only [List.map_cons]
    rw [h x (List.mem_cons_self _ _), ih (fun a ha => h a (List.mem_cons_of_mem _ ha))]

theorem saveSection_spec (sid : String) (tm : TitleMap)
    (hsid : GoodSidStr sid) (htmne : tm ≠ [])
    (hnd : (tm.map Prod.fst).Nodup)
    (hgood : ∀ te ∈ tm, GoodTitleStr te.1 ∧ GoodEntry te.2) :
    (parseSection (saveSection ([] : List (String × String)) (sid, tm))
        = some (sid, sid, parsedTitlesOf tm) ∧
      ∀ k, alookup k (parsedTitlesOf tm) = alookup k tm) ∧
    subIn ['\n', '\n']
      ((saveSection ([] : List (String × String)) (sid, tm)).data ++ ['\n']) = false ∧
    (saveSection ([] : List (String × String)) (sid, tm)).data ≠ [] := by
  have hgoodtu : ∀ tu ∈ sortStable (fun a b => a.1 ≤ b.1) (tm.map saveTuple),
      GoodTitleStr tu.2.1 ∧ GoodText tu.2.2.1 ∧ GoodText tu.2.2.2 := by
    intro tu htu
    rw [mem_sortStable, List.mem_map] at htu
    obtain ⟨te, hte, rfl⟩ := htu
    exact ⟨(hgood te hte).1, (hgood te hte).2.2.1, (hgood te hte).2.2.2⟩
  have htne : sortStable (fun a b => a.1 ≤ b.1) (tm.map saveTuple) ≠ [] := by
    intro h
    apply htmne
    have hlen := (sortStable_perm (fun a b => a.1 ≤ b.1) (tm.map saveTuple)).length_eq
    rw [h] at hlen
    simp only [List.length_nil, List.length_map] at hlen
    exact List.eq_nil_of_length_eq_zero hlen.symm
  have haux := saveSection_spec_aux sid
    (sortStable (fun a b => a.1 ≤ b.1) (tm.map saveTuple)) hsid htne hgoodtu
  have hdata : (saveSection ([] : List (String × String)) (sid, tm)).data
      = sid.data ++
        (((sortStable (fun a b => a.1 ≤ b.1) (tm.map saveTuple)).map
            (fun tu => (saveLine tu.1 tu.2.1 tu.2.2.1 tu.2.2.2).data)).map
          (fun l => '\n' :: l)).flatten := by
    show ((sortStable (fun a b => a.1 ≤ b.1) (tm.map saveTuple)).foldl
      (fun acc tu => acc ++ "\n" ++ saveLine tu.1 tu.2.1 tu.2.2.1 tu.2.2.2) sid).data = _
    rw [foldl_saveLine_data]
    rw [List.map_map]
    rfl
  have hstr : saveSection ([] : List (String × String)) (sid, tm)
      = ⟨sid.data ++
          (((sortStable (fun a b => a.1 ≤ b.1) (tm.map saveTuple)).map
              (fun tu => (saveLine tu.1 tu.2.1 tu.2.2.1 tu.2.2.2).data)).map
            (fun l => '\n' :: l)).flatten⟩ := String.ext hdata
  have hpairseq : (sortStable (fun a b => a.1 ≤ b.1) (tm.map saveTuple)).foldl
      (fun acc tu => setKey tu.2.1 (Entry.mk [tu.1] tu.2.2.1 tu.2.2.2) acc) []
      = ((sortStable (fun a b => a.1 ≤ b.1) (tm.map saveTuple)).map
          (fun tu => (tu.2.1, Entry.mk [tu.1] tu.2.2.1 tu.2.2.2))).foldl
        (fun acc p => setKey p.1 p.2 acc) [] := by
    rw [List.foldl_map]
  have hperm : (((sortStable (fun a b => a.1 ≤ b.1) (tm.map saveTuple)).map
      (fun tu => (tu.2.1, Entry.mk [tu.1] tu.2.2.1 tu.2.2.2)))).Perm tm := by
    have hp1 := sortStable_perm (fun a b => a.1 ≤ b.1) (tm.map saveTuple)
    have hp2 := hp1.map (fun tu => (tu.2.1, Entry.mk [tu.1] tu.2.2.1 tu.2.2.2))
    have hp3 : (tm.map saveTuple).map
        (fun tu => (tu.2.1, Entry.mk [tu.1] tu.2.2.1 tu.2.2.2)) = tm := by
      rw [List.map_map]
      have hid : ∀ te ∈ tm,
          ((fun tu => (tu.2.1, Entry.mk [tu.1] tu.2.2.1 tu.2.2.2)) ∘ saveTuple) te = te := by
        intro te hte
        obtain ⟨r, hr⟩ := (hgood te hte).2.1
        show (te.1, (⟨[te.2.ranks.headD 1], te.2.url, te.2.mobileUrl⟩ : Entry)) = te
        have hranks : [te.2.ranks.headD 1] = te.2.ranks := by rw [hr]; rfl
        have h2 : (⟨[te.2.ranks.headD 1], te.2.url, te.2.mobileUrl⟩ : Entry) = te.2 := by
          rw [hranks]
        exact congrArg (Prod.mk te.1) h2
      rw [map_congr_mem tm hid]
      exact List.map_id tm
    have hp4 := hp2
    rw [hp3] at hp4
    exact hp4
  have hknd : ((((sortStable (fun a b => a.1 ≤ b.1) (tm.map saveTuple)).map
      (fun tu => (tu.2.1, Entry.mk [tu.1] tu.2.2.1 tu.2.2.2)))).map Prod.fst).Nodup :=
    (List.Perm.nodup_iff (hperm.map Prod.fst)).mpr hnd
  refine ⟨⟨?_, ?_⟩, ?_, ?_⟩
  · rw [hstr]
    exact haux.1
  · intro k
    show alookup k ((sortStable (fun a b => a.1 ≤ b.1) (tm.map saveTuple)).foldl
      (fun acc tu => setKey tu.2.1 (Entry.mk [tu.1] tu.2.2.1 tu.2.2.2) acc) []) = _
    rw [hpairseq, foldl_setKey_of_pairs hknd k]
    exact alookup_perm hperm hknd k
  · rw [hdata]
    exact haux.2
  · rw [hdata]
    exact ne_nil_append_left (data_ne_nil_of_ne_empty hsid.2.1)

/-! ### The file-level round trip -/
theorem parseSection_empty : parseSection "" = none := by
  unfold parseSection
  exact if_pos (Or.inl rfl)

theorem failblock_spec (failedIds : List String)
    (hfail : ∀ fid ∈ failedIds, GoodFid fid) :
    pySplitL ['\n', '\n']
      ((failedIds.foldl (fun acc fid => acc ++ fid ++ "\n") (failMarker ++ "\n")).data)
      = [(failedIds.foldl (fun acc fid => acc ++ fid ++ "\n") (failMarker ++ "\n")).data] ∧
    parseSection
      (failedIds.foldl (fun acc fid => acc ++ fid ++ "\n") (failMarker ++ "\n")) = none := by
  have hdata : (failedIds.foldl (fun acc fid => acc ++ fid ++ "\n") (failMarker ++ "\n")).data
      = ((failMarker.data :: failedIds.map String.data).map (fun l => l ++ ['\n'])).flatten := by
    rw [foldl_fail_data]
    show failMarker.data ++ ['\n'] ++ _ = _
    simp only [List.map_cons, List.flatten_cons, List.map_map]
    rw [List.append_assoc]
    rfl
  have hcond : ∀ l ∈ failMarker.data :: failedIds.map String.data, '\n' ∉ l ∧ l ≠ [] := by
    intro l hl
    rw [List.mem_cons] at hl
    rcases hl with rfl | hl
    · exact ⟨by decide, by decide⟩
    · rw [List.mem_map] at hl
      obtain ⟨fid, hfid, rfl⟩ := hl
      exact ⟨(hfail fid hfid).2, data_ne_nil_of_ne_empty (hfail fid hfid).1⟩
  obtain ⟨hnp, -⟩ := noPair_trailing_join (failMarker.data :: failedIds.map String.data) hcond
  have hsub : subIn ['\n', '\n']
      ((failedIds.foldl (fun acc fid => acc ++ fid ++ "\n") (failMarker ++ "\n")).data)
      = false := by
    rw [hdata]
    exact subIn_pair_false [] [] rfl hnp
  refine ⟨pySplitL_no_sep hsub, ?_⟩
  unfold parseSection
  rw [if_pos (Or.inr ?hpre)]
  case hpre =>
    rw [hdata]
    simp only [List.map_cons, List.flatten_cons]
    rw [List.append_assoc]
    exact subIn_of_prefix isPrefixOf_append_self

theorem parseFileTitles_saveContent (results : List (String × TitleMap))
    (failedIds : List String)
    (hnd : (results.map Prod.fst).Nodup)
    (hres : ∀ p ∈ results, GoodSidStr p.1 ∧ p.2 ≠ [] ∧ (p.2.map Prod.fst).Nodup ∧
      ∀ te ∈ p.2, GoodTitleStr te.1 ∧ GoodEntry te.2)
    (hfail : ∀ fid ∈ failedIds, GoodFid fid) :
    ∀ sid t, lookup2 (parseFileTitles
        (saveContent results ([] : List (String × String)) failedIds)).1 sid t
      = lookup2 results sid t := by
  obtain ⟨tsecs, htsplit, htnone⟩ : ∃ tsecs : List String,
      pySplitL ['\n', '\n']
        ((if failedIds.isEmpty then ""
          else failedIds.foldl (fun acc fid => acc ++ fid ++ "\n")
            (failMarker ++ "\n")) : String).data = tsecs.map String.data ∧
      ∀ s ∈ tsecs, parseSection s = none := by
    by_cases hfe : failedIds.isEmpty
    · refine ⟨[""], ?_, ?_⟩
      · rw [if_pos hfe]
        rfl
      · intro s hs
        rw [List.mem_singleton] at hs
        subst hs
        exact parseSection_empty
    · obtain ⟨h1, h2⟩ := failblock_spec failedIds hfail
      refine ⟨[failedIds.foldl (fun acc fid => acc ++ fid ++ "\n") (failMarker ++ "\n")],
        ?_, ?_⟩
      · rw [if_neg hfe]
        exact h1
      · intro s hs
        rw [List.mem_singleton] at hs
        subst hs
        exact h2
  have hcdata : (saveContent results ([] : List (String × String)) failedIds).data
      = (results.map (fun p =>
          (saveSection ([] : List (String × String)) p).data ++ ['\n', '\n'])).flatten ++
        ((if failedIds.isEmpty then ""
          else failedIds.foldl (fun acc fid => acc ++ fid ++ "\n")
            (failMarker ++ "\n")) : String).data := by
    show ((results.foldl (fun acc p =>
        acc ++ saveSection ([] : List (String × String)) p ++ "\n\n") "").data ++ _) = _
    rw [foldl_saveContent_data]
    rfl
  have hsecgood : ∀ p ∈ results,
      (parseSection (saveSection ([] : List (String × String)) (p.1, p.2))
          = some (p.1, p.1, parsedTitlesOf p.2) ∧
        ∀ k, alookup k (parsedTitlesOf p.2) = alookup k p.2) ∧
      subIn ['\n', '\n']
        ((saveSection ([] : List (String × String)) (p.1, p.2)).data ++ ['\n']) = false ∧
      (saveSection ([] : List (String × String)) (p.1, p.2)).data ≠ [] := by
    intro p hp
    obtain ⟨h1, h2, h3, h4⟩ := hres p hp
    exact saveSection_spec p.1 p.2 h1 h2 h3 h4
  have hsplit : pySplit "\n\n"
      (saveContent results ([] : List (String × String)) failedIds)
      = results.map (fun p => saveSection ([] : List (String × String)) p) ++ tsecs := by
    show (pySplitL (String.data "\n\n")
      (saveContent results ([] : List (String × String)) failedIds).data).map
        (fun l => (⟨l⟩ : String)) = _
    rw [show String.data "\n\n" = ['\n', '\n'] from rfl]
    rw [hcdata]
    have hjoin : (results.map (fun p =>
        (saveSection ([] : List (String × String)) p).data ++ ['\n', '\n'])).flatten
        = (((results.map (fun p =>
            (saveSection ([] : List (String × String)) p).data)).map
          (fun s => s ++ ['\n', '\n'])).flatten) := by
      rw [List.map_map]
      rfl
    rw [hjoin]
    rw [pySplitL_blank_join _ _ ?hsafe]
    case hsafe =>
      intro sec hsec
      rw [List.mem_map] at hsec
      obtain ⟨p, hp, rfl⟩ := hsec
      exact (hsecgood p hp).2.1
    rw [htsplit, List.map_append, List.map_map, List.map_map]
    congr 1
    exact List.map_id tsecs
  unfold parseFileTitles
  rw [hsplit, List.foldl_append]
  have htailfold : ∀ acc : List (String × TitleMap) × List (String × String),
      tsecs.foldl (fun acc sec =>
        match parseSection sec with
        | none => acc
        | some (sid, name, titles) => (setKey sid titles acc.1, setKey sid name acc.2)) acc
        = acc := by
    clear hsplit htsplit
    induction tsecs with
    | nil => intro acc; rfl
    | cons s ss ih =>
      intro acc
      simp only [List.foldl_cons]
      rw [htnone s (List.mem_cons_self _ _)]
      exact ih (fun x hx => htnone x (List.mem_cons_of_mem _ hx)) acc
  rw [htailfold]
  rw [List.foldl_map]
  have hmainfold : results.foldl (fun acc p =>
      match parseSection (saveSection ([] : List (String × String)) p) with
      | none => acc
      | some (sid, name, titles) => (setKey sid titles acc.1, setKey sid name acc.2))
      (([], []) : List (String × TitleMap) × List (String × String))
      = results.foldl (fun acc p =>
          (setKey p.1 (parsedTitlesOf p.2) acc.1, setKey p.1 p.1 acc.2)) ([], []) := by
    refine foldl_congr_mem ([], []) ?_
    intro acc p hp
    rw [(hsecgood p hp).1.1]
  rw [hmainfold]
  have hfst : ∀ (ps : List (String × TitleMap))
      (acc : List (String × TitleMap) × List (String × String)),
      (ps.foldl (fun acc p =>
        (setKey p.1 (parsedTitlesOf p.2) acc.1, setKey p.1 p.1 acc.2)) acc).1
        = ps.foldl (fun a1 p => setKey p.1 (parsedTitlesOf p.2) a1) acc.1 := by
    intro ps
    induction ps with
    | nil => intro acc; rfl
    | cons p ps ih =>
      intro acc
      simp only [List.foldl_cons]
      exact ih (setKey p.1 (parsedTitlesOf p.2) acc.1, setKey p.1 p.1 acc.2)
  intro sid t
  show ((results.foldl (fun acc p =>
      (setKey p.1 (parsedTitlesOf p.2) acc.1, setKey p.1 p.1 acc.2)) ([], [])).1
    |> (fun m => (alookup sid m).bind (alookup t))) = _
  simp only []
  rw [hfst results ([], [])]
  have hpairsfold : results.foldl (fun a1 p => setKey p.1 (parsedTitlesOf p.2) a1) []
      = (results.map (fun p => (p.1, parsedTitlesOf p.2))).foldl
          (fun acc q => setKey q.1 q.2 acc) [] := by
    rw [List.foldl_map]
  rw [hpairsfold]
  have hknd : ((results.map (fun p => (p.1, parsedTitlesOf p.2))).map Prod.fst).Nodup := by
    have : (results.map (fun p => (p.1, parsedTitlesOf p.2))).map Prod.fst
        = results.map Prod.fst := by
      rw [List.map_map]
      rfl
    rw [this]
    exact hnd
  show (alookup sid ((results.map (fun p => (p.1, parsedTitlesOf p.2))).foldl
      (fun acc q => setKey q.1 q.2 acc) [])).bind (alookup t) = _
  rw [foldl_setKey_of_pairs hknd sid]
  have hcompare : ∀ ps : List (String × TitleMap), (∀ p ∈ ps, p ∈ results) →
      (alookup sid (ps.map (fun p => (p.1, parsedTitlesOf p.2)))).bind (alookup t)
        = (alookup sid ps).bind (alookup t) := by
    intro ps hsub
    induction ps with
    | nil => rfl
    | cons p ps ih =>
      obtain ⟨a, tmp⟩ := p
      simp only [List.map_cons, alookup_cons]
      by_cases hp : a = sid
      · rw [if_pos hp, if_pos hp]
        simp only [Option.some_bind]
        exact ((hsecgood (a, tmp) (hsub (a, tmp) (List.mem_cons_self _ _))).1.2) t
      · rw [if_neg hp, if_neg hp]
        exact ih (fun q hq => hsub q (List.mem_cons_of_mem _ hq))
  exact hcompare results (fun p hp => hp)

/-- C9: for every set of (source_id, title, rank, url) tuples with well-formed
fields (one rank per title), writing them with save_titles_to_file and
re-parsing the resulting file content with parse_file_titles yields the same
tuples: each source id maps to exactly its titles, and each title carries the
single written rank, the same url and the same mobile url. -/
theorem save_parse_file_roundtrip (results : List (String × TitleMap))
    (failedIds : List String)
    (hnd : (results.map Prod.fst).Nodup)
    (hres : ∀ p ∈ results, GoodSidStr p.1 ∧ p.2 ≠ [] ∧ (p.2.map Prod.fst).Nodup ∧
      ∀ te ∈ p.2, GoodTitleStr te.1 ∧ GoodEntry te.2)
    (hfail : ∀ fid ∈ failedIds, GoodFid fid) (sid t : String) :
    lookup2 (parseFileTitles
        (saveContent results ([] : List (String × String)) failedIds)).1 sid t
      = lookup2 results sid t :=
  parseFileTitles_saveContent results failedIds hnd hres hfail sid t

/-- Witness for C9 on a concrete two-source snapshot with a failed id. -/
theorem save_parse_file_roundtrip_witness :
    lookup2 (parseFileTitles
        (saveContent resW ([] : List (String × String)) ["zhihu"])).1 "baidu" "热点甲"
      = lookup2 resW "baidu" "热点甲" := by
  refine save_parse_file_roundtrip resW ["zhihu"] (by decide) ?_ ?_ "baidu" "热点甲"
  · intro p hp
    rcases List.mem_cons.mp hp with rfl | hp2
    · refine ⟨by unfold GoodSidStr GoodText; decide, by decide, by decide, ?_⟩
      intro te hte
      rcases List.mem_cons.mp hte with rfl | hte2
      · exact ⟨by unfold GoodTitleStr GoodText; decide, ⟨1, rfl⟩,
          by unfold GoodText; decide, by unfold GoodText; decide⟩
      rcases List.mem_cons.mp hte2 with rfl | hte3
      · exact ⟨by unfold GoodTitleStr GoodText; decide, ⟨3, rfl⟩,
          by unfold GoodText; decide, by unfold GoodText; decide⟩
      · exact absurd hte3 (by simp)
    rcases List.mem_cons.mp hp2 with rfl | hp3
    · refine ⟨by unfold GoodSidStr GoodText; decide, by decide, by decide, ?_⟩
      intro te hte
      rcases List.mem_cons.mp hte with rfl | hte2
      · exact ⟨by unfold GoodTitleStr GoodText; decide, ⟨2, rfl⟩,
          by unfold GoodText; decide, by unfold GoodText; decide⟩
      · exact absurd hte2 (by simp)
    · exact absurd hp3 (by simp)
  · intro fid hfid
    rcases List.mem_cons.mp hfid with rfl | hfid2
    · exact ⟨by decide, by decide⟩
    · exact absurd hfid2 (by simp)

/-! ### Atomicity of header and first item (batch packer) -/
theorem getD_mem_of_lt {α : Type u} {l : List α} {i : Nat} (h : i < l.length) (d : α) :
    l.getD i d ∈ l := by
  rw [List.getD_eq_getElem l d h]
  exact List.getElem_mem h

theorem hasTag_append {a b : List Seg} {t : SegTag} :
    hasTag (a ++ b) t = (hasTag a t || hasTag b t) := List.any_append

theorem TagInv_append {a b : List Seg} (ha : TagInv a) (hb : TagInv b) :
    TagInv (a ++ b) := by
  constructor
  · intro i h
    rw [hasTag_append] at h ⊢
    rcases Bool.or_eq_true_iff.mp h with h | h
    · rw [ha.1 i h]
      rfl
    · rw [hb.1 i h]
      simp
  · intro k h
    rw [hasTag_append] at h ⊢
    rcases Bool.or_eq_true_iff.mp h with h | h
    · rw [ha.2 k h]
      rfl
    · rw [hb.2 k h]
      simp

/-- A fragment list without first-item fragments is trivially atomic. -/
theorem TagInv_of_no_first {b : List Seg}
    (h : ∀ s ∈ b, (∀ i, s.tag ≠ .groupFirst i) ∧ (∀ k, s.tag ≠ .sourceFirst k)) :
    TagInv b := by
  constructor
  · intro i hi
    exfalso
    simp only [hasTag, List.any_eq_true, decide_eq_true_eq] at hi
    obtain ⟨s, hs, hts⟩ := hi
    exact (h s hs).1 i hts
  · intro k hk
    exfalso
    simp only [hasTag, List.any_eq_true, decide_eq_true_eq] at hk
    obtain ⟨s, hs, hts⟩ := hk
    exact (h s hs).2 k hts

theorem stepUnit_TagInv (maxB footLen : Nat) (restart segs : List Seg) {st : PackSt}
    (hst : PackTagInv st) (hr : TagInv restart) (hs : TagInv segs) :
    PackTagInv (stepUnit maxB footLen restart segs st) := by
  unfold stepUnit
  by_cases hc : maxB ≤ segLen st.cur + segLen segs + footLen
  · rw [if_pos hc]
    refine ⟨?_, hr⟩
    intro b hb
    rw [List.mem_append] at hb
    rcases hb with hb | hb
    · exact hst.1 b hb
    · by_cases hhc : st.hasC = true
      · rw [if_pos hhc] at hb
        rw [List.mem_singleton] at hb
        subst hb
        exact hst.2
      · rw [if_neg hhc] at hb
        simp at hb
  · rw [if_neg hc]
    exact ⟨hst.1, TagInv_append hst.2 hs⟩

theorem stepSep_TagInv (maxB footLen : Nat) (segs : List Seg) {st : PackSt}
    (hst : PackTagInv st) (hs : TagInv segs) :
    PackTagInv (stepSep maxB footLen segs st) := by
  unfold stepSep
  by_cases hc : segLen st.cur + segLen segs + footLen < maxB
  · rw [if_pos hc]
    exact ⟨hst.1, TagInv_append hst.2 hs⟩
  · rw [if_neg hc]
    exact hst

theorem stepPad_TagInv (seg : Seg) {st : PackSt} (hst : PackTagInv st)
    (hs : TagInv [seg]) : PackTagInv (stepPad seg st) :=
  ⟨hst.1, TagInv_append hst.2 hs⟩

theorem groupUnitSegs_TagInv (fmt : String) (total : Nat) (ig : Nat × StatR) :
    TagInv (groupUnitSegs fmt total ig) := by
  unfold groupUnitSegs
  cases ig.2.titles with
  | nil =>
    refine TagInv_of_no_first ?_
    intro s hs
    rw [List.mem_singleton] at hs
    subst hs
    exact ⟨fun i => by simp, fun k => by simp⟩
  | cons td rest =>
    constructor
    · intro i hi
      simp only [hasTag, List.any_cons, List.any_nil, Bool.or_eq_true,
        decide_eq_true_eq] at hi ⊢
      rcases hi with hi | hi | hi
      · exact absurd hi (by simp)
      · cases hi
        exact Or.inl rfl
      · exact absurd hi (by simp)
    · intro k hk
      exfalso
      simp only [hasTag, List.any_cons, List.any_nil, Bool.or_eq_true,
        decide_eq_true_eq] at hk
      rcases hk with hk | hk | hk
      · exact absurd hk (by simp)
      · exact absurd hk (by simp)
      · exact absurd hk (by simp)

theorem sourceUnitSegs_TagInv (fmt : String) (ks : Nat × SourceR) :
    TagInv (sourceUnitSegs fmt ks) := by
  unfold sourceUnitSegs
  cases ks.2.titles with
  | nil =>
    refine TagInv_of_no_first ?_
    intro s hs
    rw [List.mem_singleton] at hs
    subst hs
    exact ⟨fun i => by simp, fun k => by simp⟩
  | cons td rest =>
    constructor
    · intro i hi
      exfalso
      simp only [hasTag, List.any_cons, List.any_nil, Bool.or_eq_true,
        decide_eq_true_eq] at hi
      rcases hi with hi | hi | hi
      · exact absurd hi (by simp)
      · exact absurd hi (by simp)
      · exact absurd hi (by simp)
    · intro k hk
      simp only [hasTag, List.any_cons, List.any_nil, Bool.or_eq_true,
        decide_eq_true_eq] at hk ⊢
      rcases hk with hk | hk | hk
      · exact absurd hk (by simp)
      · cases hk
        exact Or.inl rfl
      · exact absurd hk (by simp)

theorem TagInv_of_firstFree {b : List Seg}
    (h : ∀ s ∈ b, tagFirstFree s.tag = true) : TagInv b := by
  refine TagInv_of_no_first ?_
  intro s hs
  have hff := h s hs
  constructor
  · intro i hti
    rw [hti] at hff
    exact absurd hff (Bool.false_ne_true)
  · intro k htk
    rw [htk] at hff
    exact absurd hff (Bool.false_ne_true)

theorem TagInv_pairlist {a b : Seg} (ha : tagFirstFree a.tag = true)
    (hb : tagFirstFree b.tag = true) : TagInv [a, b] := by
  refine TagInv_of_firstFree ?_
  intro s hs
  rcases List.mem_cons.mp hs with rfl | hs2
  · exact ha
  rcases List.mem_cons.mp hs2 with rfl | hs3
  · exact hb
  · exact absurd hs3 (by simp)

theorem TagInv_singlelist {a : Seg} (ha : tagFirstFree a.tag = true) :
    TagInv [a] := by
  refine TagInv_of_firstFree ?_
  intro s hs
  rw [List.mem_singleton] at hs
  subst hs
  exact ha

theorem TagInv_quadlist {a b c d : Seg} (ha : tagFirstFree a.tag = true)
    (hb : tagFirstFree b.tag = true) (hc : tagFirstFree c.tag = true)
    (hd : tagFirstFree d.tag = true) : TagInv [a, b, c, d] := by
  refine TagInv_of_firstFree ?_
  intro s hs
  rcases List.mem_cons.mp hs with rfl | hs2
  · exact ha
  rcases List.mem_cons.mp hs2 with rfl | hs3
  · exact hb
  rcases List.mem_cons.mp hs3 with rfl | hs4
  · exact hc
  rcases List.mem_cons.mp hs4 with rfl | hs5
  · exact hd
  · exact absurd hs5 (by simp)

theorem TagInv_triplist {a b c : Seg} (ha : tagFirstFree a.tag = true)
    (hb : tagFirstFree b.tag = true) (hc : tagFirstFree c.tag = true) :
    TagInv [a, b, c] := by
  refine TagInv_of_firstFree ?_
  intro s hs
  rcases List.mem_cons.mp hs with rfl | hs2
  · exact ha
  rcases List.mem_cons.mp hs2 with rfl | hs3
  · exact hb
  rcases List.mem_cons.mp hs3 with rfl | hs4
  · exact hc
  · exact absurd hs4 (by simp)

theorem processGroup_TagInv (fmt : String) (maxB footLen total : Nat)
    (bhSeg shSeg : Seg) (hbh : tagFirstFree bhSeg.tag = true)
    (hsh : tagFirstFree shSeg.tag = true) {st : PackSt} (hst : PackTagInv st)
    (ig : Nat × StatR) :
    PackTagInv (processGroup fmt maxB footLen total bhSeg shSeg st ig) := by
  unfold processGroup
  have hunit := groupUnitSegs_TagInv fmt total ig
  have h1 := stepUnit_TagInv maxB footLen
    ([bhSeg, shSeg] ++ groupUnitSegs fmt total ig) (groupUnitSegs fmt total ig)
    hst (TagInv_append (TagInv_pairlist hbh hsh) hunit) hunit
  have h2 := foldl_preserve PackTagInv
    (fun st jtd => stepUnit maxB footLen
      [bhSeg, shSeg, ⟨.groupHeader ig.1, wordHeaderText fmt ig.1 total ig.2⟩,
        ⟨.groupLine ig.1 jtd.1, newsLineText fmt ig.2 jtd.1 jtd.2⟩]
      [⟨.groupLine ig.1 jtd.1, newsLineText fmt ig.2 jtd.1 jtd.2⟩] st)
    (ig.2.titles.enum.drop 1)
    (fun jtd _ s hs => stepUnit_TagInv _ _ _ _ hs
      (TagInv_quadlist hbh hsh rfl rfl) (TagInv_singlelist rfl)) _ h1
  by_cases hsep : ig.1 < total - 1
  · rw [if_pos hsep]
    exact stepSep_TagInv maxB footLen _ h2 (TagInv_singlelist rfl)
  · rw [if_neg hsep]
    exact h2

theorem processSource_TagInv (fmt : String) (maxB footLen : Nat)
    (bhSeg nhSeg : Seg) (hbh : tagFirstFree bhSeg.tag = true)
    (hnh : tagFirstFree nhSeg.tag = true) {st : PackSt} (hst : PackTagInv st)
    (ks : Nat × SourceR) :
    PackTagInv (processSource fmt maxB footLen bhSeg nhSeg st ks) := by
  unfold processSource
  have hunit := sourceUnitSegs_TagInv fmt ks
  have h1 := stepUnit_TagInv maxB footLen
    ([bhSeg, nhSeg] ++ sourceUnitSegs fmt ks) (sourceUnitSegs fmt ks)
    hst (TagInv_append (TagInv_pairlist hbh hnh) hunit) hunit
  have h2 := foldl_preserve PackTagInv
    (fun st jtd => stepUnit maxB footLen
      [bhSeg, nhSeg, ⟨.sourceHeader ks.1, sourceHeaderText fmt ks.2⟩,
        ⟨.sourceLine ks.1 jtd.1, sourceLineText fmt jtd.1 jtd.2⟩]
      [⟨.sourceLine ks.1 jtd.1, sourceLineText fmt jtd.1 jtd.2⟩] st)
    (ks.2.titles.enum.drop 1)
    (fun jtd _ s hs => stepUnit_TagInv _ _ _ _ hs
      (TagInv_quadlist hbh hnh rfl rfl) (TagInv_singlelist rfl)) _ h1
  exact stepPad_TagInv _ h2 (TagInv_singlelist rfl)

theorem splitSegsStats_TagInv (fmt : String) (maxB footLen : Nat) (rd : ReportData)
    (bhSeg shSeg : Seg) (hbh : tagFirstFree bhSeg.tag = true)
    (hsh : tagFirstFree shSeg.tag = true) {st0 : PackSt} (hst : PackTagInv st0) :
    PackTagInv (splitSegsStats fmt maxB footLen rd bhSeg shSeg st0) := by
  unfold splitSegsStats
  by_cases hne : rd.stats ≠ []
  · rw [if_pos hne]
    exact foldl_preserve PackTagInv _ _
      (fun ig _ s hs => processGroup_TagInv fmt maxB footLen rd.stats.length
        bhSeg shSeg hbh hsh hs ig) _
      (stepUnit_TagInv _ _ _ _ hst (TagInv_pairlist hbh hsh) (TagInv_singlelist hsh))
  · rw [if_neg hne]
    exact hst

theorem splitSegsNew_TagInv (fmt : String) (maxB footLen : Nat) (rd : ReportData)
    (bhSeg nhSeg : Seg) (hbh : tagFirstFree bhSeg.tag = true)
    (hnh : tagFirstFree nhSeg.tag = true) {st1 : PackSt} (hst : PackTagInv st1) :
    PackTagInv (splitSegsNew fmt maxB footLen rd bhSeg nhSeg st1) := by
  unfold splitSegsNew
  by_cases hne : rd.new_titles ≠ []
  · rw [if_pos hne]
    exact foldl_preserve PackTagInv _ _
      (fun ks _ s hs => processSource_TagInv fmt maxB footLen bhSeg nhSeg hbh hnh hs ks)
      _ (stepUnit_TagInv _ _ _ _ hst (TagInv_pairlist hbh hnh) (TagInv_singlelist hnh))
  · rw [if_neg hne]
    exact hst

theorem splitSegsFailed_TagInv (maxB footLen : Nat) (rd : ReportData)
    (bhSeg fhSeg : Seg) (hbh : tagFirstFree bhSeg.tag = true)
    (hfh : tagFirstFree fhSeg.tag = true) {st2 : PackSt} (hst : PackTagInv st2) :
    PackTagInv (splitSegsFailed maxB footLen rd bhSeg fhSeg st2) := by
  unfold splitSegsFailed
  by_cases hne : rd.failed_ids ≠ []
  · rw [if_pos hne]
    refine foldl_preserve PackTagInv _ _ ?_ _
      (stepUnit_TagInv _ _ _ _ hst (TagInv_pairlist hbh hfh) (TagInv_singlelist hfh))
    intro il _ s hs
    unfold processFailed
    exact stepUnit_TagInv _ _ _ _ hs (TagInv_triplist hbh hfh rfl) (TagInv_singlelist rfl)
  · rw [if_neg hne]
    exact hst

theorem splitSegs_TagInv (fmt : String) (rd : ReportData) (nowStr : String)
    (updateInfo : Option (String × String)) (maxB : Nat) :
    PackTagInv (splitSegs fmt rd nowStr updateInfo maxB) := by
  unfold splitSegs
  apply splitSegsFailed_TagInv maxB (utf8Len (baseFooterText fmt nowStr updateInfo)) rd
    ⟨.baseHeader, baseHeaderText fmt (totalTitlesOf rd)⟩
    ⟨.failedHeader, failedHeaderText fmt⟩ rfl rfl
  apply splitSegsNew_TagInv fmt maxB (utf8Len (baseFooterText fmt nowStr updateInfo)) rd
    ⟨.baseHeader, baseHeaderText fmt (totalTitlesOf rd)⟩
    ⟨.newHeader, newHeaderText fmt rd.total_new_count⟩ rfl rfl
  apply splitSegsStats_TagInv fmt maxB (utf8Len (baseFooterText fmt nowStr updateInfo)) rd
    ⟨.baseHeader, baseHeaderText fmt (totalTitlesOf rd)⟩
    ⟨.statsHeader, statsHeaderText fmt rd⟩ rfl rfl
  exact ⟨fun b hb => absurd hb (by simp), TagInv_singlelist rfl⟩

theorem finishPack_TagInv {st : PackSt} (hst : PackTagInv st) :
    ∀ b ∈ finishPack st, TagInv b := by
  intro b hb
  unfold finishPack at hb
  rw [List.mem_append] at hb
  rcases hb with hb | hb
  · exact hst.1 b hb
  · by_cases hhc : st.hasC = true
    · rw [if_pos hhc] at hb
      rw [List.mem_singleton] at hb
      subst hb
      exact hst.2
    · rw [if_neg hhc] at hb
      simp at hb

set_option maxRecDepth 8000 in
/-- C2 counterexample: with the telegram format and a 120-byte budget, the
run on one two-title group emits a continuation batch that contains the
group's header (restated by the mid-group restart) but not the group's
first title line, refuting the claimed either-both-or-neither invariant. -/
theorem batch_header_without_first_title :
    (splitContentIntoBatches "telegram" rdX nowX none 120 "daily").any
      (fun b => strIn (wordHeaderText "telegram" 0 1 statX) b &&
        !(strIn (firstNewsText "telegram" statX) b)) = true := by decide

/-- C2 (amended): in every batch the packer produces, a group's first
title line occurs only together with that group's header, and a new-item
source's first title line only together with that source's header — the
header-plus-first-item unit is appended atomically, while headers alone
may be restated in continuation batches. -/
theorem batch_first_item_has_header (fmt : String) (rd : ReportData)
    (nowStr : String) (updateInfo : Option (String × String)) (maxB : Nat)
    (b : List Seg) (hb : b ∈ finishPack (splitSegs fmt rd nowStr updateInfo maxB)) :
    (∀ i, hasTag b (.groupFirst i) = true → hasTag b (.groupHeader i) = true) ∧
    (∀ k, hasTag b (.sourceFirst k) = true → hasTag b (.sourceHeader k) = true) :=
  finishPack_TagInv (splitSegs_TagInv fmt rd nowStr updateInfo maxB) b hb

/-- Witness for the amended C2 theorem on the counterexample run. -/
theorem batch_first_item_has_header_witness :
    (∀ i, hasTag ((finishPack (splitSegs "telegram" rdX nowX none 120)).getD 1 [])
        (.groupFirst i) = true →
      hasTag ((finishPack (splitSegs "telegram" rdX nowX none 120)).getD 1 [])
        (.groupHeader i) = true) ∧
    (∀ k, hasTag ((finishPack (splitSegs "telegram" rdX nowX none 120)).getD 1 [])
        (.sourceFirst k) = true →
      hasTag ((finishPack (splitSegs "telegram" rdX nowX none 120)).getD 1 [])
        (.sourceHeader k) = true) :=
  batch_first_item_has_header "telegram" rdX nowX none 120 _
    (getD_mem_of_lt (by decide) [])

/-! ### Byte-size bound of the batches -/
theorem utf8Len_append (a b : String) : utf8Len (a ++ b) = utf8Len a + utf8Len b := by
  unfold utf8Len
  show ((a.data ++ b.data).map charUtf8Len).sum = _
  rw [List.map_append, List.sum_append]

theorem segLen_append (a b : List Seg) : segLen (a ++ b) = segLen a + segLen b := by
  unfold segLen
  rw [List.map_append, List.sum_append]

theorem segRender_go (b : List Seg) :
    ∀ a : String, b.foldl (fun acc s => acc ++ s.txt) a = a ++ segRender b := by
  induction b with
  | nil =>
    intro a
    exact (String.append_empty a).symm
  | cons s t ih =>
    intro a
    show t.foldl (fun acc s => acc ++ s.txt) (a ++ s.txt) = _
    rw [ih (a ++ s.txt)]
    show _ = a ++ t.foldl (fun acc s => acc ++ s.txt) ("" ++ s.txt)
    rw [ih ("" ++ s.txt)]
    rw [String.append_assoc]
    rw [show ("" ++ s.txt : String) = s.txt from rfl]

theorem segRender_append (a b : List Seg) :
    segRender (a ++ b) = segRender a ++ segRender b := by
  unfold segRender
  rw [List.foldl_append]
  rw [segRender_go b (List.foldl (fun acc s => acc ++ s.txt) "" a)]
  rfl

theorem utf8Len_segRender (b : List Seg) : utf8Len (segRender b) = segLen b := by
  induction b with
  | nil => rfl
  | cons s t ih =>
    show utf8Len (segRender ([s] ++ t)) = _
    rw [segRender_append, utf8Len_append, ih]
    unfold segLen
    simp only [List.map_cons, List.map_nil, List.sum_cons]
    have h1 : utf8Len (segRender [s]) = utf8Len s.txt := by
      show utf8Len ("" ++ s.txt) = _
      rw [show ("" ++ s.txt : String) = s.txt from rfl]
    rw [h1]

theorem stepUnit_PSize (fmt : String) (rd : ReportData) (mode : String)
    (maxB footLen : Nat) (restart segs : List Seg) {st : PackSt}
    (hst : PSizeInv fmt rd mode maxB footLen st)
    (hr : IsSeed fmt rd mode restart) :
    PSizeStrong fmt rd mode maxB footLen (stepUnit maxB footLen restart segs st) := by
  unfold stepUnit
  by_cases hc : maxB ≤ segLen st.cur + segLen segs + footLen
  · rw [if_pos hc]
    refine ⟨⟨?_, fun _ => Or.inr ⟨restart, hr, Or.inl rfl⟩⟩, rfl,
      Or.inr ⟨restart, hr, rfl⟩⟩
    intro b hb
    rw [List.mem_append] at hb
    rcases hb with hb | hb
    · exact hst.1 b hb
    · by_cases hhc : st.hasC = true
      · rw [if_pos hhc] at hb
        rw [List.mem_singleton] at hb
        subst hb
        exact hst.2 hhc
      · rw [if_neg hhc] at hb
        simp at hb
  · rw [if_neg hc]
    push_neg at hc
    have hsz : segLen (st.cur ++ segs) + footLen < maxB := by
      rw [segLen_append]
      omega
    exact ⟨⟨hst.1, fun _ => Or.inl (Nat.le_of_lt hsz)⟩, rfl, Or.inl hsz⟩

theorem stepSep_PSize (fmt : String) (rd : ReportData) (mode : String)
    (maxB footLen : Nat) (segs : List Seg) {st : PackSt}
    (hst : PSizeStrong fmt rd mode maxB footLen st) :
    PSizeStrong fmt rd mode maxB footLen (stepSep maxB footLen segs st) := by
  unfold stepSep
  by_cases hc : segLen st.cur + segLen segs + footLen < maxB
  · rw [if_pos hc]
    have hsz : segLen (st.cur ++ segs) + footLen < maxB := by
      rw [segLen_append]
      omega
    exact ⟨⟨hst.1.1, fun _ => Or.inl (Nat.le_of_lt hsz)⟩, hst.2.1, Or.inl hsz⟩
  · rw [if_neg hc]
    exact hst

theorem stepPad_PSize (fmt : String) (rd : ReportData) (mode : String)
    (maxB footLen : Nat) (seg : Seg) (hp : seg.txt = "\n") {st : PackSt}
    (hst : PSizeStrong fmt rd mode maxB footLen st) :
    PSizeInv fmt rd mode maxB footLen (stepPad seg st) := by
  unfold stepPad
  refine ⟨hst.1.1, fun _ => ?_⟩
  rcases hst.2.2 with hsm | ⟨r, hr, hcur⟩
  · left
    rw [segLen_append]
    have hone : segLen [seg] = 1 := by
      unfold segLen
      simp only [List.map_cons, List.map_nil, List.sum_cons, List.sum_nil]
      rw [hp]
      rfl
    omega
  · right
    exact ⟨r, hr, Or.inr ⟨seg, hp, by rw [hcur]⟩⟩

theorem processGroup_eq (fmt : String) (maxB footLen total : Nat) (bh sh : Seg)
    (st : PackSt) (ig : Nat × StatR) :
    processGroup fmt maxB footLen total bh sh st ig =
      (if ig.1 < total - 1 then
        stepSep maxB footLen [⟨.groupSep ig.1, groupSepText fmt⟩]
          ((ig.2.titles.enum.drop 1).foldl
            (fun st jtd => stepUnit maxB footLen
              [bh, sh, ⟨.groupHeader ig.1, wordHeaderText fmt ig.1 total ig.2⟩,
                ⟨.groupLine ig.1 jtd.1, newsLineText fmt ig.2 jtd.1 jtd.2⟩]
              [⟨.groupLine ig.1 jtd.1, newsLineText fmt ig.2 jtd.1 jtd.2⟩] st)
            (stepUnit maxB footLen ([bh, sh] ++ groupUnitSegs fmt total ig)
              (groupUnitSegs fmt total ig) st))
      else
        (ig.2.titles.enum.drop 1).foldl
          (fun st jtd => stepUnit maxB footLen
            [bh, sh, ⟨.groupHeader ig.1, wordHeaderText fmt ig.1 total ig.2⟩,
              ⟨.groupLine ig.1 jtd.1, newsLineText fmt ig.2 jtd.1 jtd.2⟩]
            [⟨.groupLine ig.1 jtd.1, newsLineText fmt ig.2 jtd.1 jtd.2⟩] st)
          (stepUnit maxB footLen ([bh, sh] ++ groupUnitSegs fmt total ig)
            (groupUnitSegs fmt total ig) st)) := rfl

theorem processSource_eq (fmt : String) (maxB footLen : Nat) (bh nh : Seg)
    (st : PackSt) (ks : Nat × SourceR) :
    processSource fmt maxB footLen bh nh st ks =
      stepPad ⟨.sourcePad ks.1, "\n"⟩
        ((ks.2.titles.enum.drop 1).foldl
          (fun st jtd => stepUnit maxB footLen
            [bh, nh, ⟨.sourceHeader ks.1, sourceHeaderText fmt ks.2⟩,
              ⟨.sourceLine ks.1 jtd.1, sourceLineText fmt jtd.1 jtd.2⟩]
            [⟨.sourceLine ks.1 jtd.1, sourceLineText fmt jtd.1 jtd.2⟩] st)
          (stepUnit maxB footLen ([bh, nh] ++ sourceUnitSegs fmt ks)
            (sourceUnitSegs fmt ks) st)) := rfl

theorem processGroup_PSize (fmt : String) (rd : ReportData) (mode : String)
    (maxB footLen : Nat) {st : PackSt}
    (hst : PSizeInv fmt rd mode maxB footLen st)
    (ig : Nat × StatR) (hig : ig ∈ rd.stats.enum) :
    PSizeStrong fmt rd mode maxB footLen
      (processGroup fmt maxB footLen rd.stats.length
        ⟨.baseHeader, baseHeaderText fmt (totalTitlesOf rd)⟩
        ⟨.statsHeader, statsHeaderText fmt rd⟩ st ig) := by
  rw [processGroup_eq]
  by_cases hsep : ig.1 < rd.stats.length - 1
  · rw [if_pos hsep]
    apply stepSep_PSize fmt rd mode maxB footLen [⟨.groupSep ig.1, groupSepText fmt⟩]
    refine foldl_preserve (PSizeStrong fmt rd mode maxB footLen) _ _ ?_ _
      (stepUnit_PSize fmt rd mode maxB footLen _ _ hst (IsSeed.groupUnit ig hig))
    intro jtd hjtd s hs
    exact stepUnit_PSize fmt rd mode maxB footLen _ _ hs.1 (IsSeed.groupCont ig hig jtd hjtd)
  · rw [if_neg hsep]
    refine foldl_preserve (PSizeStrong fmt rd mode maxB footLen) _ _ ?_ _
      (stepUnit_PSize fmt rd mode maxB footLen _ _ hst (IsSeed.groupUnit ig hig))
    intro jtd hjtd s hs
    exact stepUnit_PSize fmt rd mode maxB footLen _ _ hs.1 (IsSeed.groupCont ig hig jtd hjtd)

theorem processSource_PSize (fmt : String) (rd : ReportData) (mode : String)
    (maxB footLen : Nat) {st : PackSt}
    (hst : PSizeInv fmt rd mode maxB footLen st)
    (ks : Nat × SourceR) (hks : ks ∈ rd.new_titles.enum) :
    PSizeInv fmt rd mode maxB footLen
      (processSource fmt maxB footLen
        ⟨.baseHeader, baseHeaderText fmt (totalTitlesOf rd)⟩
        ⟨.newHeader, newHeaderText fmt rd.total_new_count⟩ st ks) := by
  rw [processSource_eq]
  apply stepPad_PSize fmt rd mode maxB footLen ⟨.sourcePad ks.1, "\n"⟩ rfl
  refine foldl_preserve (PSizeStrong fmt rd mode maxB footLen) _ _ ?_ _
    (stepUnit_PSize fmt rd mode maxB footLen _ _ hst (IsSeed.sourceUnit ks hks))
  intro jtd hjtd s hs
  exact stepUnit_PSize fmt rd mode maxB footLen _ _ hs.1 (IsSeed.sourceCont ks hks jtd hjtd)

theorem splitSegsStats_PSize (fmt : String) (rd : ReportData) (mode : String)
    (maxB footLen : Nat) {st0 : PackSt}
    (hst : PSizeInv fmt rd mode maxB footLen st0) :
    PSizeInv fmt rd mode maxB footLen
      (splitSegsStats fmt maxB footLen rd
        ⟨.baseHeader, baseHeaderText fmt (totalTitlesOf rd)⟩
        ⟨.statsHeader, statsHeaderText fmt rd⟩ st0) := by
  unfold splitSegsStats
  by_cases hne : rd.stats ≠ []
  · rw [if_pos hne]
    refine (foldl_preserve (PSizeStrong fmt rd mode maxB footLen) _ _ ?_ _
      (stepUnit_PSize fmt rd mode maxB footLen _ _ hst IsSeed.statsHd)).1
    intro ig hig s hs
    exact processGroup_PSize fmt rd mode maxB footLen hs.1 ig hig
  · rw [if_neg hne]
    exact hst

theorem splitSegsNew_PSize (fmt : String) (rd : ReportData) (mode : String)
    (maxB footLen : Nat) {st1 : PackSt}
    (hst : PSizeInv fmt rd mode maxB footLen st1) :
    PSizeInv fmt rd mode maxB footLen
      (splitSegsNew fmt maxB footLen rd
        ⟨.baseHeader, baseHeaderText fmt (totalTitlesOf rd)⟩
        ⟨.newHeader, newHeaderText fmt rd.total_new_count⟩ st1) := by
  unfold splitSegsNew
  by_cases hne : rd.new_titles ≠ []
  · rw [if_pos hne]
    refine foldl_preserve (PSizeInv fmt rd mode maxB footLen) _ _ ?_ _
      (stepUnit_PSize fmt rd mode maxB footLen _ _ hst IsSeed.newHd).1
    intro ks hks s hs
    exact processSource_PSize fmt rd mode maxB footLen hs ks hks
  · rw [if_neg hne]
    exact hst

theorem splitSegsFailed_PSize (fmt : String) (rd : ReportData) (mode : String)
    (maxB footLen : Nat) {st2 : PackSt}
    (hst : PSizeInv fmt rd mode maxB footLen st2) :
    PSizeInv fmt rd mode maxB footLen
      (splitSegsFailed maxB footLen rd
        ⟨.baseHeader, baseHeaderText fmt (totalTitlesOf rd)⟩
        ⟨.failedHeader, failedHeaderText fmt⟩ st2) := by
  unfold splitSegsFailed
  by_cases hne : rd.failed_ids ≠ []
  · rw [if_pos hne]
    refine (foldl_preserve (PSizeStrong fmt rd mode maxB footLen) _ _ ?_ _
      (stepUnit_PSize fmt rd mode maxB footLen _ _ hst IsSeed.failedHd)).1
    intro il hil s hs
    unfold processFailed
    exact stepUnit_PSize fmt rd mode maxB footLen _ _ hs.1 (IsSeed.failedCont il hil)
  · rw [if_neg hne]
    exact hst

theorem splitSegs_PSize (fmt : String) (rd : ReportData) (mode : String)
    (nowStr : String) (updateInfo : Option (String × String)) (maxB : Nat) :
    PSizeInv fmt rd mode maxB (utf8Len (baseFooterText fmt nowStr updateInfo))
      (splitSegs fmt rd nowStr updateInfo maxB) := by
  unfold splitSegs
  apply splitSegsFailed_PSize fmt rd mode
  apply splitSegsNew_PSize fmt rd mode
  apply splitSegsStats_PSize fmt rd mode
  exact ⟨fun b hb => absurd hb (by simp), fun h => absurd h Bool.false_ne_true⟩

theorem finishPack_PSize {fmt : String} {rd : ReportData} {mode : String}
    {maxB footLen : Nat} {st : PackSt}
    (hst : PSizeInv fmt rd mode maxB footLen st) :
    ∀ b ∈ finishPack st, SegBOk fmt rd mode maxB footLen b := by
  intro b hb
  unfold finishPack at hb
  rw [List.mem_append] at hb
  rcases hb with hb | hb
  · exact hst.1 b hb
  · by_cases hhc : st.hasC = true
    · rw [if_pos hhc] at hb
      rw [List.mem_singleton] at hb
      subst hb
      exact hst.2 hhc
    · rw [if_neg hhc] at hb
      simp at hb

theorem splitContentIntoBatches_eq (fmt : String) (rd : ReportData) (nowStr : String)
    (updateInfo : Option (String × String)) (maxB : Nat) (mode : String) :
    splitContentIntoBatches fmt rd nowStr updateInfo maxB mode =
      (if rd.stats = [] ∧ rd.new_titles = [] ∧ rd.failed_ids = [] then
        [baseHeaderText fmt (totalTitlesOf rd) ++ ("📭 " ++ modeText mode ++ "\n\n") ++
          baseFooterText fmt nowStr updateInfo]
      else
        (finishPack (splitSegs fmt rd nowStr updateInfo maxB)).map
          (fun b => segRender b ++ baseFooterText fmt nowStr updateInfo)) := rfl

/-- C3: every batch string produced by `split_content_into_batches` either
fits the byte budget — its UTF-8 length, base header and base footer
included, is at most `max_bytes` — or exceeds the budget while consisting
of a single restart unit: a base header, a section header and at most one
renderable item (or the empty-report note), possibly with one trailing
newline pad, followed by the base footer. -/
theorem batch_within_budget_or_oversized_unit (fmt : String) (rd : ReportData)
    (nowStr : String) (updateInfo : Option (String × String)) (maxB : Nat)
    (mode : String) {s : String}
    (hs : s ∈ splitContentIntoBatches fmt rd nowStr updateInfo maxB mode) :
    utf8Len s ≤ maxB ∨
      ((∃ r, IsSeed fmt rd mode r ∧
        (s = segRender r ++ baseFooterText fmt nowStr updateInfo ∨
          s = segRender r ++ "\n" ++ baseFooterText fmt nowStr updateInfo)) ∧
        maxB < utf8Len s) := by
  by_cases hle : utf8Len s ≤ maxB
  · exact Or.inl hle
  right
  refine ⟨?_, Nat.lt_of_not_le hle⟩
  rw [splitContentIntoBatches_eq] at hs
  by_cases hsh : rd.stats = [] ∧ rd.new_titles = [] ∧ rd.failed_ids = []
  · rw [if_pos hsh] at hs
    rw [List.mem_singleton] at hs
    subst hs
    exact ⟨[⟨.baseHeader, baseHeaderText fmt (totalTitlesOf rd)⟩,
      ⟨.simpleNote, "📭 " ++ modeText mode ++ "\n\n"⟩], IsSeed.emptyNote, Or.inl rfl⟩
  · rw [if_neg hsh] at hs
    rw [List.mem_map] at hs
    obtain ⟨b, hb, hsb⟩ := hs
    subst hsb
    have hok := finishPack_PSize (splitSegs_PSize fmt rd mode nowStr updateInfo maxB) b hb
    unfold SegBOk at hok
    rcases hok with hsmall | hseed
    · exfalso
      apply hle
      rw [utf8Len_append, utf8Len_segRender]
      exact hsmall
    · unfold SeedLike at hseed
      obtain ⟨r, hr, hb'⟩ := hseed
      rcases hb' with hb' | ⟨p, hp, hb'⟩
      · exact ⟨r, hr, Or.inl (by rw [hb'])⟩
      · subst hb'
        refine ⟨r, hr, Or.inr ?_⟩
        rw [segRender_append]
        rw [show segRender [p] = p.txt from rfl, hp]

/-- Witness for the C3 bound on a concrete telegram run. -/
theorem batch_within_budget_or_oversized_unit_witness :
    ((splitContentIntoBatches "telegram" rdX nowX none 120 "daily").getD 0 "" ∈
      splitContentIntoBatches "telegram" rdX nowX none 120 "daily") ∧
    (utf8Len ((splitContentIntoBatches "telegram" rdX nowX none 120 "daily").getD 0 "") ≤
        120 ∨
      ((∃ r, IsSeed "telegram" rdX "daily" r ∧
        ((splitContentIntoBatches "telegram" rdX nowX none 120 "daily").getD 0 "" =
            segRender r ++ baseFooterText "telegram" nowX none ∨
          (splitContentIntoBatches "telegram" rdX nowX none 120 "daily").getD 0 "" =
            segRender r ++ "\n" ++ baseFooterText "telegram" nowX none)) ∧
        120 < utf8Len
          ((splitContentIntoBatches "telegram" rdX nowX none 120 "daily").getD 0 ""))) :=
  ⟨getD_mem_of_lt (by decide) "",
    batch_within_budget_or_oversized_unit "telegram" rdX nowX none 120 "daily"
      (getD_mem_of_lt (by decide) "")⟩

end TrendRadar

